import Mathlib

/-!
TrackManager (PandoraPFA) : a shallow embedding

The track manager of `src/Managers/TrackManager.cc` is embedded as pure functions on an
explicit state record.  Containers of the standard library are represented by lists:

* `std::set<T>` : a list of elements, kept in the order of `std::less<T>` by insertion;
* `std::map<K, V>` : a list of key/value pairs, kept in key order by insertion.

The operations below never rely on the lists being sorted or duplicate free; they only
maintain it.  Pointers (`Track *`, `Cluster *`, `const Algorithm *`, `Uid`) are natural
numbers.  Track objects live in a free store (`heap`), a pointer being an index into it.
-/

namespace pandora

/-! ## Status codes -/

/-- The status codes used by the manager (enumeration of `Pandora/StatusCodes.h`). -/
inductive StatusCode where
  | STATUS_CODE_SUCCESS
  | STATUS_CODE_FAILURE
  | STATUS_CODE_NOT_FOUND
  | STATUS_CODE_NOT_INITIALIZED
  | STATUS_CODE_ALREADY_PRESENT
  | STATUS_CODE_NOT_ALLOWED
  | STATUS_CODE_INVALID_PARAMETER
  deriving DecidableEq, Repr

open StatusCode

/-! ## Containers -/

/-- Byte-wise lexicographic comparison of two character-code sequences. -/
def lexLess : List Nat → List Nat → Bool
  | [], [] => false
  | [], _ :: _ => true
  | _ :: _, [] => false
  | a :: as, b :: bs => decide (a < b) || (decide (a = b) && lexLess as bs)

/-- The order `std::less<std::string>` on list names. -/
def stringLess (a b : String) : Bool :=
  lexLess (a.data.map Char.toNat) (b.data.map Char.toNat)

/-- The order `std::less` on pointers and identifiers (addresses). -/
def natLess (a b : Nat) : Bool := decide (a < b)

/-- Position-preserving insertion: `x` goes in front of the first element greater than it. -/
def orderedPut {α : Type} (less : α → α → Bool) (x : α) : List α → List α
  | [] => [x]
  | y :: ys => if less x y then x :: y :: ys else y :: orderedPut less x ys

/-- The call `std::set::insert(x)`: the new set and the flag `.second` of the result. -/
def setInsert {α : Type} [DecidableEq α] (less : α → α → Bool) (x : α) (s : List α) :
    List α × Bool :=
  if x ∈ s then (s, false) else (orderedPut less x s, true)

/-- The call `std::map::find(k)`: `none` stands for `end()`. -/
def mapFind {κ ν : Type} [DecidableEq κ] (k : κ) : List (κ × ν) → Option ν
  | [] => none
  | (k', v) :: rest => if k' = k then some v else mapFind k rest

/-- Writing through an iterator obtained from `find(k)`: the value stored under `k` is replaced. -/
def mapReplace {κ ν : Type} [DecidableEq κ] (k : κ) (v : ν) : List (κ × ν) → List (κ × ν)
  | [] => []
  | (k', v') :: rest =>
    if k' = k then (k', v) :: mapReplace k v rest else (k', v') :: mapReplace k v rest

/-- The call `std::map::insert(value_type(k, v))`: no change when the key is present. -/
def mapInsert {κ ν : Type} [DecidableEq κ] (less : κ → κ → Bool) (k : κ) (v : ν)
    (m : List (κ × ν)) : List (κ × ν) × Bool :=
  match mapFind k m with
  | some _ => (m, false)
  | none => (orderedPut (fun a b => less a.1 b.1) (k, v) m, true)

/-- The assignment `m[k] = v`: overwrites the value of a present key, inserts otherwise. -/
def mapAssign {κ ν : Type} [DecidableEq κ] (less : κ → κ → Bool) (k : κ) (v : ν)
    (m : List (κ × ν)) : List (κ × ν) :=
  match mapFind k m with
  | some _ => mapReplace k v m
  | none => orderedPut (fun a b => less a.1 b.1) (k, v) m

/-- The call `std::map::erase` on the entry of key `k`. -/
def mapErase {κ ν : Type} [DecidableEq κ] (k : κ) (m : List (κ × ν)) : List (κ × ν) :=
  m.filter (fun e => decide (e.1 ≠ k))

/-! ## Data model -/

/-- An opaque external identifier (`typedef const void *Uid`). -/
abbrev Uid := Nat

/-- The address of a track object (`Track *`). -/
abbrev TrackPtr := Nat

/-- The address of a cluster object (`Cluster *`), owned elsewhere. -/
abbrev ClusterPtr := Nat

/-- The address of an algorithm (`const Algorithm *`). -/
abbrev Algorithm := Nat

/-- A list of tracks (`typedef std::set<Track *> TrackList`). -/
abbrev TrackList := List TrackPtr

/-- A set of list names (`typedef std::set<std::string> StringSet`). -/
abbrev StringSet := List String

/-- Modelled from the spec: the class `Track` (`Objects/Track.h`) is not part of the sources.
A track carries the identifier taken from its construction parameters, a weak link to at most
one associated cluster, and its parent, daughter and sibling links. -/
structure Track where
  m_pParentAddress : Uid
  m_pAssociatedCluster : Option ClusterPtr
  m_parentTrackList : List TrackPtr
  m_daughterTrackList : List TrackPtr
  m_siblingTrackList : List TrackPtr
  deriving DecidableEq, Repr

/-- Modelled from the spec: `PandoraApi::TrackParameters` is not part of the sources.  Only the
identifier is kept; `m_constructorThrows` is the status code of the `StatusCodeException` that
the `Track` constructor raises for these parameters, if it raises one. -/
structure TrackParameters where
  m_pParentAddress : Uid
  m_constructorThrows : Option StatusCode
  deriving DecidableEq, Repr

/-- Modelled from the spec: the constructor `Track::Track(trackParameters)`.  It fails when the
constraints on the parameters are violated and otherwise yields a track without any link. -/
def Track.construct (trackParameters : TrackParameters) : Except StatusCode Track :=
  match trackParameters.m_constructorThrows with
  | some code => .error code
  | none => .ok
      { m_pParentAddress := trackParameters.m_pParentAddress
        m_pAssociatedCluster := none
        m_parentTrackList := []
        m_daughterTrackList := []
        m_siblingTrackList := [] }

/-- The accessor `Track::GetParentTrackAddress`. -/
def Track.GetParentTrackAddress (t : Track) : Uid := t.m_pParentAddress

/-- The per-algorithm record (`TrackManager::AlgorithmInfo`). -/
structure AlgorithmInfo where
  m_parentListName : String
  m_temporaryListNames : StringSet
  m_numberOfListsCreated : Nat
  deriving DecidableEq, Repr

/-- The members of `TrackManager`, together with the free store holding the track objects
(`heap`: the object at address `p` is `heap[p]`, a deleted object is `none`). -/
structure TrackManager where
  m_nameToTrackListMap : List (String × TrackList)
  m_savedLists : StringSet
  m_currentListName : String
  m_uidToTrackMap : List (Uid × TrackPtr)
  m_parentDaughterRelationMap : List (Uid × Uid)
  m_siblingRelationMap : List (Uid × Uid)
  m_algorithmInfoMap : List (Algorithm × AlgorithmInfo)
  heap : List (Option Track)
  deriving DecidableEq, Repr

/-- The constant `TrackManager::INPUT_LIST_NAME`. -/
def INPUT_LIST_NAME : String := "input"

/-- The width of `unsigned int`, the type of `m_numberOfListsCreated`. -/
def UINT_MODULUS : Nat := 2 ^ 32

/-- Modelled from the spec: `TypeToString` (`Pandora/PandoraInternal.h`) is not part of the
sources.  For an algorithm address it is the streamed form of the pointer, fixed here as `0x`
followed by the hexadecimal digits of the address. -/
def TypeToString_Algorithm (pAlgorithm : Algorithm) : String :=
  "0x" ++ String.mk (Nat.toDigits 16 pAlgorithm)

/-- Modelled from the spec: `TypeToString` on an `unsigned int`, its decimal digits. -/
def TypeToString_unsigned (n : Nat) : String := Nat.repr n

/-- The name built in `CreateTemporaryListAndSetCurrent` from the algorithm and its counter. -/
def temporaryName (pAlgorithm : Algorithm) (counter : Nat) : String :=
  TypeToString_Algorithm pAlgorithm ++ "_" ++ TypeToString_unsigned counter

/-! ## Operations of the manager -/

/-- The function `TrackManager::CreateInputList`. -/
def CreateInputList (m : TrackManager) : StatusCode × TrackManager :=
  if !m.m_nameToTrackListMap.isEmpty || !m.m_savedLists.isEmpty then
    (STATUS_CODE_NOT_ALLOWED, m)
  else
    let m1 := { m with
      m_nameToTrackListMap := mapAssign stringLess INPUT_LIST_NAME [] m.m_nameToTrackListMap
      m_savedLists := (setInsert stringLess INPUT_LIST_NAME m.m_savedLists).1 }
    match mapFind INPUT_LIST_NAME m1.m_nameToTrackListMap with
    | none => (STATUS_CODE_FAILURE, m1)
    | some _ => (STATUS_CODE_SUCCESS, m1)

/-- The members as initialised by the constructor before its body runs. -/
def TrackManager.initial : TrackManager :=
  { m_nameToTrackListMap := []
    m_savedLists := []
    m_currentListName := INPUT_LIST_NAME
    m_uidToTrackMap := []
    m_parentDaughterRelationMap := []
    m_siblingRelationMap := []
    m_algorithmInfoMap := []
    heap := [] }

/-- The constructor `TrackManager::TrackManager`; an error is the thrown status code. -/
def TrackManager.construct : Except StatusCode TrackManager :=
  match CreateInputList TrackManager.initial with
  | (STATUS_CODE_SUCCESS, m) => .ok m
  | (code, _) => .error code

/-- The function `TrackManager::CreateTrack`.  The object made by `new` gets the next free
address of the store. -/
def CreateTrack (m : TrackManager) (trackParameters : TrackParameters) :
    StatusCode × TrackManager :=
  match Track.construct trackParameters with
  | .error code => (code, m)
  | .ok track =>
    let pTrack : TrackPtr := m.heap.length
    let m1 := { m with heap := m.heap ++ [some track] }
    match mapFind INPUT_LIST_NAME m1.m_nameToTrackListMap with
    | none => (STATUS_CODE_FAILURE, m1)
    | some inputList =>
      let inserted := setInsert natLess pTrack inputList
      if !inserted.2 then (STATUS_CODE_FAILURE, m1)
      else
        let m2 := { m1 with
          m_nameToTrackListMap := mapReplace INPUT_LIST_NAME inserted.1 m1.m_nameToTrackListMap }
        let indexed := mapInsert natLess track.GetParentTrackAddress pTrack m2.m_uidToTrackMap
        if !indexed.2 then (STATUS_CODE_FAILURE, m2)
        else (STATUS_CODE_SUCCESS, { m2 with m_uidToTrackMap := indexed.1 })

/-- The function `TrackManager::GetList`: the status code and the list handed back. -/
def GetList (m : TrackManager) (listName : String) : StatusCode × Option TrackList :=
  match mapFind listName m.m_nameToTrackListMap with
  | none => (STATUS_CODE_NOT_INITIALIZED, none)
  | some trackList => (STATUS_CODE_SUCCESS, some trackList)

/-- The function `TrackManager::ReplaceCurrentAndAlgorithmInputLists`. -/
def ReplaceCurrentAndAlgorithmInputLists (m : TrackManager) (pAlgorithm : Algorithm)
    (trackListName : String) : StatusCode × TrackManager :=
  match mapFind trackListName m.m_nameToTrackListMap with
  | none => (STATUS_CODE_NOT_FOUND, m)
  | some _ =>
    if trackListName ∉ m.m_savedLists then (STATUS_CODE_NOT_ALLOWED, m)
    else
      let m1 := { m with m_currentListName := trackListName }
      match mapFind pAlgorithm m1.m_algorithmInfoMap with
      | none => (STATUS_CODE_NOT_FOUND, m1)
      | some info =>
        (STATUS_CODE_SUCCESS, { m1 with
          m_algorithmInfoMap :=
            mapReplace pAlgorithm { info with m_parentListName := trackListName }
              m1.m_algorithmInfoMap })

/-- The function `TrackManager::CreateTemporaryListAndSetCurrent`.  The middle component is the
value written to the reference `temporaryListName`, if the call writes it. -/
def CreateTemporaryListAndSetCurrent (m : TrackManager) (pAlgorithm : Algorithm)
    (trackList : TrackList) : StatusCode × Option String × TrackManager :=
  if trackList.isEmpty then (STATUS_CODE_NOT_INITIALIZED, none, m)
  else
    match mapFind pAlgorithm m.m_algorithmInfoMap with
    | none => (STATUS_CODE_NOT_FOUND, none, m)
    | some info =>
      let temporaryListName := temporaryName pAlgorithm info.m_numberOfListsCreated
      let info1 := { info with
        m_numberOfListsCreated := (info.m_numberOfListsCreated + 1) % UINT_MODULUS }
      let inserted := setInsert stringLess temporaryListName info1.m_temporaryListNames
      let info2 := { info1 with m_temporaryListNames := inserted.1 }
      let m1 := { m with m_algorithmInfoMap := mapReplace pAlgorithm info2 m.m_algorithmInfoMap }
      if !inserted.2 then (STATUS_CODE_ALREADY_PRESENT, some temporaryListName, m1)
      else
        (STATUS_CODE_SUCCESS, some temporaryListName, { m1 with
          m_nameToTrackListMap :=
            mapAssign stringLess temporaryListName trackList m1.m_nameToTrackListMap
          m_currentListName := temporaryListName })

/-- The function `TrackManager::SaveList`. -/
def SaveList (m : TrackManager) (trackList : TrackList) (newListName : String) :
    StatusCode × TrackManager :=
  match mapFind newListName m.m_nameToTrackListMap with
  | some _ => (STATUS_CODE_ALREADY_PRESENT, m)
  | none =>
    let inserted := mapInsert stringLess newListName ([] : TrackList) m.m_nameToTrackListMap
    if !inserted.2 then (STATUS_CODE_ALREADY_PRESENT, m)
    else
      (STATUS_CODE_SUCCESS, { m with
        m_nameToTrackListMap := mapAssign stringLess newListName trackList inserted.1
        m_savedLists := (setInsert stringLess newListName m.m_savedLists).1 })

/-- The function `TrackManager::RegisterAlgorithm`. -/
def RegisterAlgorithm (m : TrackManager) (pAlgorithm : Algorithm) : StatusCode × TrackManager :=
  match mapFind pAlgorithm m.m_algorithmInfoMap with
  | some _ => (STATUS_CODE_ALREADY_PRESENT, m)
  | none =>
    let algorithmInfo : AlgorithmInfo :=
      { m_parentListName := m.m_currentListName
        m_temporaryListNames := []
        m_numberOfListsCreated := 0 }
    let inserted := mapInsert natLess pAlgorithm algorithmInfo m.m_algorithmInfoMap
    if !inserted.2 then (STATUS_CODE_ALREADY_PRESENT, m)
    else (STATUS_CODE_SUCCESS, { m with m_algorithmInfoMap := inserted.1 })

/-- The loop of `ResetAlgorithmInfo` over the temporary list names: every name found in the
registry is erased from it; the loop stops with `false` at the first name that is not found. -/
def eraseTemporaryLists :
    List String → List (String × TrackList) → Bool × List (String × TrackList)
  | [], registry => (true, registry)
  | listName :: rest, registry =>
    match mapFind listName registry with
    | none => (false, registry)
    | some _ => eraseTemporaryLists rest (mapErase listName registry)

/-- The function `TrackManager::ResetAlgorithmInfo`. -/
def ResetAlgorithmInfo (m : TrackManager) (pAlgorithm : Algorithm) (isAlgorithmFinished : Bool) :
    StatusCode × TrackManager :=
  match mapFind pAlgorithm m.m_algorithmInfoMap with
  | none => (STATUS_CODE_NOT_FOUND, m)
  | some info =>
    let erased := eraseTemporaryLists info.m_temporaryListNames m.m_nameToTrackListMap
    if !erased.1 then (STATUS_CODE_FAILURE, { m with m_nameToTrackListMap := erased.2 })
    else
      let m1 := { m with
        m_nameToTrackListMap := erased.2
        m_algorithmInfoMap :=
          mapReplace pAlgorithm { info with m_temporaryListNames := [] } m.m_algorithmInfoMap
        m_currentListName := info.m_parentListName }
      if isAlgorithmFinished then
        (STATUS_CODE_SUCCESS, { m1 with
          m_algorithmInfoMap := mapErase pAlgorithm m1.m_algorithmInfoMap })
      else (STATUS_CODE_SUCCESS, m1)

/-- The statement `delete p` on every track of a list: the objects leave the free store. -/
def deleteTracks : TrackList → List (Option Track) → List (Option Track)
  | [], heap => heap
  | p :: rest, heap => deleteTracks rest (heap.set p none)

/-- The function `TrackManager::ResetForNextEvent`. -/
def ResetForNextEvent (m : TrackManager) : StatusCode × TrackManager :=
  let heap1 :=
    match mapFind INPUT_LIST_NAME m.m_nameToTrackListMap with
    | some inputList => deleteTracks inputList m.heap
    | none => m.heap
  let m1 := { m with
    heap := heap1
    m_nameToTrackListMap := []
    m_savedLists := []
    m_currentListName := INPUT_LIST_NAME
    m_uidToTrackMap := []
    m_parentDaughterRelationMap := []
    m_siblingRelationMap := [] }
  match CreateInputList m1 with
  | (STATUS_CODE_SUCCESS, m2) => (STATUS_CODE_SUCCESS, m2)
  | (code, m2) => (code, m2)

/-- The state of a manager right after its construction. -/
def freshManager : TrackManager :=
  { m_nameToTrackListMap := [(INPUT_LIST_NAME, [])]
    m_savedLists := [INPUT_LIST_NAME]
    m_currentListName := INPUT_LIST_NAME
    m_uidToTrackMap := []
    m_parentDaughterRelationMap := []
    m_siblingRelationMap := []
    m_algorithmInfoMap := []
    heap := [] }

/-! ## Sequences of calls -/

/-- A sequence of `CreateTrack` calls, one per parameter set: the status codes in call order
and the final state. -/
def CreateTracks : TrackManager → List TrackParameters → List StatusCode × TrackManager
  | m, [] => ([], m)
  | m, p :: ps =>
    ((CreateTrack m p).1 :: (CreateTracks (CreateTrack m p).2 ps).1,
      (CreateTracks (CreateTrack m p).2 ps).2)

/-- A sequence of `CreateTemporaryListAndSetCurrent` calls of one algorithm, one per source
list: the status code and the name written by every call, in call order, and the final state. -/
def CreateTemporaryLists (pAlgorithm : Algorithm) :
    TrackManager → List TrackList → List (StatusCode × Option String) × TrackManager
  | m, [] => ([], m)
  | m, l :: ls =>
    (((CreateTemporaryListAndSetCurrent m pAlgorithm l).1,
        (CreateTemporaryListAndSetCurrent m pAlgorithm l).2.1) ::
        (CreateTemporaryLists pAlgorithm (CreateTemporaryListAndSetCurrent m pAlgorithm l).2.2 ls).1,
      (CreateTemporaryLists pAlgorithm (CreateTemporaryListAndSetCurrent m pAlgorithm l).2.2 ls).2)

/-- The state-changing operations on lists and algorithm scopes. -/
inductive ListOperation where
  | createTrack (trackParameters : TrackParameters)
  | saveList (trackList : TrackList) (newListName : String)
  | registerAlgorithm (pAlgorithm : Algorithm)
  | createTemporaryListAndSetCurrent (pAlgorithm : Algorithm) (trackList : TrackList)
  | replaceCurrentAndAlgorithmInputLists (pAlgorithm : Algorithm) (trackListName : String)
  | resetAlgorithmInfo (pAlgorithm : Algorithm) (isAlgorithmFinished : Bool)
  | resetForNextEvent
  deriving DecidableEq, Repr

/-- The state after one operation, whatever status code the call returns. -/
def ListOperation.apply (m : TrackManager) : ListOperation → TrackManager
  | .createTrack p => (CreateTrack m p).2
  | .saveList l n => (SaveList m l n).2
  | .registerAlgorithm a => (RegisterAlgorithm m a).2
  | .createTemporaryListAndSetCurrent a l => (CreateTemporaryListAndSetCurrent m a l).2.2
  | .replaceCurrentAndAlgorithmInputLists a n => (ReplaceCurrentAndAlgorithmInputLists m a n).2
  | .resetAlgorithmInfo a f => (ResetAlgorithmInfo m a f).2
  | .resetForNextEvent => (ResetForNextEvent m).2

/-- The state after a sequence of operations. -/
def runOperations (m : TrackManager) (ops : List ListOperation) : TrackManager :=
  ops.foldl ListOperation.apply m

/-- The current list name is a key of the list registry: `GetList(m_currentListName)` succeeds. -/
def currentListResolves (m : TrackManager) : Prop :=
  (mapFind m.m_currentListName m.m_nameToTrackListMap).isSome = true

instance (m : TrackManager) : Decidable (currentListResolves m) :=
  inferInstanceAs (Decidable ((mapFind m.m_currentListName m.m_nameToTrackListMap).isSome = true))

/-- The condition under which `ResetAlgorithmInfo(pAlgorithm, _)` hands the scope back to a
registered list: the algorithm is unregistered, or the loop finds every one of its temporary
lists and its recorded parent list is registered and is not one of its temporary lists. -/
def resetRestoresRegisteredList (m : TrackManager) (pAlgorithm : Algorithm) : Bool :=
  match mapFind pAlgorithm m.m_algorithmInfoMap with
  | none => true
  | some info =>
    (eraseTemporaryLists info.m_temporaryListNames m.m_nameToTrackListMap).1 &&
    decide (info.m_parentListName ∉ info.m_temporaryListNames) &&
    (mapFind info.m_parentListName m.m_nameToTrackListMap).isSome

/-- The condition `resetRestoresRegisteredList` on the `ResetAlgorithmInfo` steps of a sequence
of operations; the other operations are not restricted. -/
def ListOperation.scoped (m : TrackManager) : ListOperation → Prop
  | .resetAlgorithmInfo a _ => resetRestoresRegisteredList m a = true
  | _ => True

/-- The states reached from construction by sequences of operations in which every
`ResetAlgorithmInfo` step satisfies `resetRestoresRegisteredList`. -/
inductive ScopedReachable : TrackManager → Prop where
  | construct : ScopedReachable freshManager
  | step (m : TrackManager) (op : ListOperation) :
      ScopedReachable m → op.scoped m → ScopedReachable (op.apply m)

/-! ## Track objects in the free store -/

/-- The track object addressed by a pointer, if the pointer addresses a live object. -/
def trackAt (heap : List (Option Track)) (p : TrackPtr) : Option Track :=
  match heap[p]? with
  | some (some t) => some t
  | _ => none

/-- Modelled from the spec: `Track::AddParent` is not part of the sources.  The link-adding
operation rejects a link that is already present. -/
def Track.AddParent (t : Track) (pTrack : TrackPtr) : StatusCode × Track :=
  if !(setInsert natLess pTrack t.m_parentTrackList).2 then (STATUS_CODE_ALREADY_PRESENT, t)
  else
    (STATUS_CODE_SUCCESS,
      { t with m_parentTrackList := (setInsert natLess pTrack t.m_parentTrackList).1 })

/-- Modelled from the spec: `Track::AddDaughter` is not part of the sources.  The link-adding
operation rejects a link that is already present. -/
def Track.AddDaughter (t : Track) (pTrack : TrackPtr) : StatusCode × Track :=
  if !(setInsert natLess pTrack t.m_daughterTrackList).2 then (STATUS_CODE_ALREADY_PRESENT, t)
  else
    (STATUS_CODE_SUCCESS,
      { t with m_daughterTrackList := (setInsert natLess pTrack t.m_daughterTrackList).1 })

/-- Modelled from the spec: `Track::AddSibling` is not part of the sources.  The link-adding
operation rejects a link that is already present. -/
def Track.AddSibling (t : Track) (pTrack : TrackPtr) : StatusCode × Track :=
  if !(setInsert natLess pTrack t.m_siblingTrackList).2 then (STATUS_CODE_ALREADY_PRESENT, t)
  else
    (STATUS_CODE_SUCCESS,
      { t with m_siblingTrackList := (setInsert natLess pTrack t.m_siblingTrackList).1 })

/-- A member function called through a track pointer: the status code it returns and the store
holding the object as the call leaves it.  A pointer that addresses no live object has no
meaning in the source; here the call reports `STATUS_CODE_FAILURE` and changes nothing. -/
def callOnTrack (heap : List (Option Track)) (p : TrackPtr) (f : Track → StatusCode × Track) :
    StatusCode × List (Option Track) :=
  match trackAt heap p with
  | some t => ((f t).1, heap.set p (some (f t).2))
  | none => (STATUS_CODE_FAILURE, heap)

/-- The value of `p->m_pAssociatedCluster`; `none` is `NULL`.  A pointer that addresses no live
object is read as holding no cluster. -/
def associatedCluster (heap : List (Option Track)) (p : TrackPtr) : Option ClusterPtr :=
  match trackAt heap p with
  | some t => t.m_pAssociatedCluster
  | none => none

/-- The assignment `p->m_pAssociatedCluster = NULL`. -/
def clearAssociatedCluster (heap : List (Option Track)) (p : TrackPtr) : List (Option Track) :=
  match trackAt heap p with
  | some t => heap.set p (some { t with m_pAssociatedCluster := none })
  | none => heap

/-- Modelled from the spec: the association of a track with a cluster is made outside the
manager (`Track::SetAssociatedCluster`, not part of the sources); it sets the weak link. -/
def SetAssociatedCluster (m : TrackManager) (p : TrackPtr) (pCluster : ClusterPtr) :
    TrackManager :=
  match trackAt m.heap p with
  | some t => { m with heap := m.heap.set p (some { t with m_pAssociatedCluster := some pCluster }) }
  | none => m

/-! ## Relationships between tracks -/

/-- The function `TrackManager::SetTrackParentDaughterRelationship`.  Modelled from the spec:
the type `TrackRelationMap` is declared outside the sources; the ledger is append-only, a
`std::multimap` ordered by its first identifier. -/
def SetTrackParentDaughterRelationship (m : TrackManager) (parentUid daughterUid : Uid) :
    StatusCode × TrackManager :=
  (STATUS_CODE_SUCCESS, { m with
    m_parentDaughterRelationMap :=
      orderedPut (fun a b => natLess a.1 b.1) (parentUid, daughterUid)
        m.m_parentDaughterRelationMap })

/-- The function `TrackManager::SetTrackSiblingRelationship`. -/
def SetTrackSiblingRelationship (m : TrackManager) (firstSiblingUid secondSiblingUid : Uid) :
    StatusCode × TrackManager :=
  (STATUS_CODE_SUCCESS, { m with
    m_siblingRelationMap :=
      orderedPut (fun a b => natLess a.1 b.1) (firstSiblingUid, secondSiblingUid)
        m.m_siblingRelationMap })

/-- The loop of `AddParentDaughterAssociations` over the recorded pairs. -/
def addParentDaughterLoop (uidToTrackMap : List (Uid × TrackPtr)) :
    List (Uid × Uid) → List (Option Track) → StatusCode × List (Option Track)
  | [], heap => (STATUS_CODE_SUCCESS, heap)
  | (parentUid, daughterUid) :: rest, heap =>
    match mapFind parentUid uidToTrackMap with
    | none => addParentDaughterLoop uidToTrackMap rest heap
    | some pParent =>
      match mapFind daughterUid uidToTrackMap with
      | none => addParentDaughterLoop uidToTrackMap rest heap
      | some pDaughter =>
        if (callOnTrack heap pParent (fun t => t.AddDaughter pDaughter)).1
            ≠ STATUS_CODE_SUCCESS then
          callOnTrack heap pParent (fun t => t.AddDaughter pDaughter)
        else if (callOnTrack (callOnTrack heap pParent (fun t => t.AddDaughter pDaughter)).2
            pDaughter (fun t => t.AddParent pParent)).1 ≠ STATUS_CODE_SUCCESS then
          callOnTrack (callOnTrack heap pParent (fun t => t.AddDaughter pDaughter)).2
            pDaughter (fun t => t.AddParent pParent)
        else
          addParentDaughterLoop uidToTrackMap rest
            (callOnTrack (callOnTrack heap pParent (fun t => t.AddDaughter pDaughter)).2
              pDaughter (fun t => t.AddParent pParent)).2

/-- The loop of `AddSiblingAssociations` over the recorded pairs. -/
def addSiblingLoop (uidToTrackMap : List (Uid × TrackPtr)) :
    List (Uid × Uid) → List (Option Track) → StatusCode × List (Option Track)
  | [], heap => (STATUS_CODE_SUCCESS, heap)
  | (firstUid, secondUid) :: rest, heap =>
    match mapFind firstUid uidToTrackMap with
    | none => addSiblingLoop uidToTrackMap rest heap
    | some pFirst =>
      match mapFind secondUid uidToTrackMap with
      | none => addSiblingLoop uidToTrackMap rest heap
      | some pSecond =>
        if (callOnTrack heap pFirst (fun t => t.AddSibling pSecond)).1
            ≠ STATUS_CODE_SUCCESS then
          callOnTrack heap pFirst (fun t => t.AddSibling pSecond)
        else if (callOnTrack (callOnTrack heap pFirst (fun t => t.AddSibling pSecond)).2
            pSecond (fun t => t.AddSibling pFirst)).1 ≠ STATUS_CODE_SUCCESS then
          callOnTrack (callOnTrack heap pFirst (fun t => t.AddSibling pSecond)).2
            pSecond (fun t => t.AddSibling pFirst)
        else
          addSiblingLoop uidToTrackMap rest
            (callOnTrack (callOnTrack heap pFirst (fun t => t.AddSibling pSecond)).2
              pSecond (fun t => t.AddSibling pFirst)).2

/-- The function `TrackManager::AddParentDaughterAssociations`. -/
def AddParentDaughterAssociations (m : TrackManager) : StatusCode × TrackManager :=
  ((addParentDaughterLoop m.m_uidToTrackMap m.m_parentDaughterRelationMap m.heap).1,
    { m with
      heap := (addParentDaughterLoop m.m_uidToTrackMap m.m_parentDaughterRelationMap m.heap).2 })

/-- The function `TrackManager::AddSiblingAssociations`. -/
def AddSiblingAssociations (m : TrackManager) : StatusCode × TrackManager :=
  ((addSiblingLoop m.m_uidToTrackMap m.m_siblingRelationMap m.heap).1,
    { m with heap := (addSiblingLoop m.m_uidToTrackMap m.m_siblingRelationMap m.heap).2 })

/-- The function `TrackManager::AssociateTracks`. -/
def AssociateTracks (m : TrackManager) : StatusCode × TrackManager :=
  if (AddParentDaughterAssociations m).1 ≠ STATUS_CODE_SUCCESS then
    AddParentDaughterAssociations m
  else if (AddSiblingAssociations (AddParentDaughterAssociations m).2).1
      ≠ STATUS_CODE_SUCCESS then
    AddSiblingAssociations (AddParentDaughterAssociations m).2
  else (STATUS_CODE_SUCCESS, (AddSiblingAssociations (AddParentDaughterAssociations m).2).2)

/-! ## Associations with clusters -/

/-- The loop `p->m_pAssociatedCluster = NULL` over a list of tracks. -/
def clearAssociatedClusters : TrackList → List (Option Track) → List (Option Track)
  | [], heap => heap
  | p :: rest, heap => clearAssociatedClusters rest (clearAssociatedCluster heap p)

/-- The function `TrackManager::RemoveAllClusterAssociations`. -/
def RemoveAllClusterAssociations (m : TrackManager) : StatusCode × TrackManager :=
  match mapFind INPUT_LIST_NAME m.m_nameToTrackListMap with
  | none => (STATUS_CODE_FAILURE, m)
  | some inputList =>
    (STATUS_CODE_SUCCESS, { m with heap := clearAssociatedClusters inputList m.heap })

/-- The loop of `RemoveCurrentClusterAssociations`: a track with a cluster is entered in
`danglingClusters` and its link is cleared; the loop stops with `STATUS_CODE_FAILURE` at the
first track that `danglingClusters` already holds. -/
def removeCurrentLoop :
    TrackList → List (Option Track) → List (TrackPtr × ClusterPtr) →
      StatusCode × List (Option Track) × List (TrackPtr × ClusterPtr)
  | [], heap, danglingClusters => (STATUS_CODE_SUCCESS, heap, danglingClusters)
  | p :: rest, heap, danglingClusters =>
    match associatedCluster heap p with
    | none => removeCurrentLoop rest heap danglingClusters
    | some pAssociatedCluster =>
      if !(mapInsert natLess p pAssociatedCluster danglingClusters).2 then
        (STATUS_CODE_FAILURE, heap, danglingClusters)
      else
        removeCurrentLoop rest (clearAssociatedCluster heap p)
          (mapInsert natLess p pAssociatedCluster danglingClusters).1

/-- The function `TrackManager::RemoveCurrentClusterAssociations`: the status code, the
reference argument `danglingClusters` (a `std::map<Track *, Cluster *>`) as the call leaves it,
and the state. -/
def RemoveCurrentClusterAssociations (m : TrackManager)
    (danglingClusters : List (TrackPtr × ClusterPtr)) :
    StatusCode × List (TrackPtr × ClusterPtr) × TrackManager :=
  match mapFind m.m_currentListName m.m_nameToTrackListMap with
  | none => (STATUS_CODE_FAILURE, danglingClusters, m)
  | some currentList =>
    ((removeCurrentLoop currentList m.heap danglingClusters).1,
      (removeCurrentLoop currentList m.heap danglingClusters).2.2,
      { m with heap := (removeCurrentLoop currentList m.heap danglingClusters).2.1 })

/-- The function `TrackManager::RemoveClusterAssociations`. -/
def RemoveClusterAssociations (m : TrackManager) (trackList : TrackList) :
    StatusCode × TrackManager :=
  (STATUS_CODE_SUCCESS, { m with heap := clearAssociatedClusters trackList m.heap })

/-! ## Links between tracks, as seen from outside -/

/-- Both identifiers of a recorded pair are keys of the identity index. -/
def resolvable (uidToTrackMap : List (Uid × TrackPtr)) (pair : Uid × Uid) : Bool :=
  (mapFind pair.1 uidToTrackMap).isSome && (mapFind pair.2 uidToTrackMap).isSome

/-- The three kinds of link a track holds to other tracks. -/
inductive LinkKind where
  | parent
  | daughter
  | sibling
  deriving DecidableEq, Repr

/-- The tracks a track is linked to by links of one kind. -/
def Track.links (t : Track) : LinkKind → List TrackPtr
  | .parent => t.m_parentTrackList
  | .daughter => t.m_daughterTrackList
  | .sibling => t.m_siblingTrackList

/-- The live track at `x` holds a link of kind `k` to the track at `y`. -/
def hasLink (heap : List (Option Track)) (k : LinkKind) (x y : TrackPtr) : Prop :=
  ∃ t, trackAt heap x = some t ∧ y ∈ t.links k

/-- No track object of the store holds a link to another track. -/
def noLinks (heap : List (Option Track)) : Bool :=
  heap.all fun o =>
    match o with
    | none => true
    | some t =>
      t.m_parentTrackList.isEmpty && t.m_daughterTrackList.isEmpty && t.m_siblingTrackList.isEmpty

/-! ## Sequences of operations of the whole manager -/

/-- The state-changing operations of the manager, together with the association of a track with
a cluster, which is made from outside.  `GetList` changes nothing, and
`MatchTracksToMCPfoTargets` writes only the Monte-Carlo link of tracks, which the track objects
of this development do not carry. -/
inductive ManagerOperation where
  | list (op : ListOperation)
  | setTrackParentDaughterRelationship (parentUid daughterUid : Uid)
  | setTrackSiblingRelationship (firstSiblingUid secondSiblingUid : Uid)
  | associateTracks
  | removeAllClusterAssociations
  | removeCurrentClusterAssociations (danglingClusters : List (TrackPtr × ClusterPtr))
  | removeClusterAssociations (trackList : TrackList)
  | setAssociatedCluster (p : TrackPtr) (pCluster : ClusterPtr)
  deriving DecidableEq, Repr

/-- The state after one operation, whatever status code the call returns. -/
def ManagerOperation.apply (m : TrackManager) : ManagerOperation → TrackManager
  | .list op => op.apply m
  | .setTrackParentDaughterRelationship p d => (SetTrackParentDaughterRelationship m p d).2
  | .setTrackSiblingRelationship a b => (SetTrackSiblingRelationship m a b).2
  | .associateTracks => (AssociateTracks m).2
  | .removeAllClusterAssociations => (RemoveAllClusterAssociations m).2
  | .removeCurrentClusterAssociations d => (RemoveCurrentClusterAssociations m d).2.2
  | .removeClusterAssociations l => (RemoveClusterAssociations m l).2
  | .setAssociatedCluster p c => SetAssociatedCluster m p c

/-- The state after a sequence of operations. -/
def runManagerOperations (m : TrackManager) (ops : List ManagerOperation) : TrackManager :=
  ops.foldl ManagerOperation.apply m

/-- The operation, called in state `m`, writes or erases the registry entry of the name `n`:
`CreateTrack` writes the input list, `CreateTemporaryListAndSetCurrent` the name it generates,
`ResetAlgorithmInfo` erases the temporary names of its algorithm and `ResetForNextEvent` erases
every list.  The other operations write no list (`SaveList` fails on a registered name). -/
def ManagerOperation.writesList (m : TrackManager) (n : String) : ManagerOperation → Bool
  | .list (.createTrack _) => decide (n = INPUT_LIST_NAME)
  | .list (.createTemporaryListAndSetCurrent a _) =>
    match mapFind a m.m_algorithmInfoMap with
    | some info => decide (n = temporaryName a info.m_numberOfListsCreated)
    | none => false
  | .list (.resetAlgorithmInfo a _) =>
    match mapFind a m.m_algorithmInfoMap with
    | some info => decide (n ∈ info.m_temporaryListNames)
    | none => false
  | .list .resetForNextEvent => true
  | _ => false

/-- No operation of the sequence, called in the state it meets, writes or erases the list `n`. -/
def avoidsList (n : String) : TrackManager → List ManagerOperation → Bool
  | _, [] => true
  | m, op :: ops => !(op.writesList m n) && avoidsList n (op.apply m) ops

/-- The names handed back by the call when it is a successful
`CreateTemporaryListAndSetCurrent` of the algorithm `a`: one name, or none. -/
def temporaryNameReturned (a : Algorithm) (m : TrackManager) : ManagerOperation → List String
  | .list (.createTemporaryListAndSetCurrent a' l) =>
    if a' = a ∧ (CreateTemporaryListAndSetCurrent m a' l).1 = STATUS_CODE_SUCCESS then
      (CreateTemporaryListAndSetCurrent m a' l).2.1.toList
    else []
  | _ => []

/-- The names handed back, in call order, by the successful `CreateTemporaryListAndSetCurrent`
calls of the algorithm `a` in a sequence of operations. -/
def temporaryNamesReturned (a : Algorithm) : TrackManager → List ManagerOperation → List String
  | _, [] => []
  | m, op :: ops => temporaryNameReturned a m op ++ temporaryNamesReturned a (op.apply m) ops

/-- No registered algorithm holds a temporary list name. -/
def noTemporaryLists (m : TrackManager) : Bool :=
  m.m_algorithmInfoMap.all fun e => e.2.m_temporaryListNames.isEmpty

/-- The condition on the `ResetForNextEvent` steps of a sequence of operations: the call is made
when no registered algorithm holds a temporary list name.  Other operations are not
restricted. -/
def ManagerOperation.atEventBoundary (m : TrackManager) : ManagerOperation → Prop
  | .list .resetForNextEvent => noTemporaryLists m = true
  | _ => True

/-- The states reached from construction by sequences of operations in which every
`ResetForNextEvent` step is made when no registered algorithm holds a temporary list name. -/
inductive EventReachable : TrackManager → Prop where
  | construct : EventReachable freshManager
  | step (m : TrackManager) (op : ManagerOperation) :
      EventReachable m → op.atEventBoundary m → EventReachable (op.apply m)

/-- Every temporary-name set is free of repetition and holds only names generated for its
algorithm, each of them a key of the list registry. -/
def temporaryListsResolve (m : TrackManager) : Prop :=
  ∀ a info, mapFind a m.m_algorithmInfoMap = some info →
    info.m_temporaryListNames.Nodup ∧
    ∀ n ∈ info.m_temporaryListNames,
      (∃ c, n = temporaryName a c) ∧ mapFind n m.m_nameToTrackListMap ≠ none

/-! ## Reading digit strings back -/

/-- The value of a digit character as written by `Nat.digitChar`. -/
def digitValue (c : Char) : Nat :=
  if c = '0' then 0 else
  if c = '1' then 1 else
  if c = '2' then 2 else
  if c = '3' then 3 else
  if c = '4' then 4 else
  if c = '5' then 5 else
  if c = '6' then 6 else
  if c = '7' then 7 else
  if c = '8' then 8 else
  if c = '9' then 9 else
  if c = 'a' then 10 else
  if c = 'b' then 11 else
  if c = 'c' then 12 else
  if c = 'd' then 13 else
  if c = 'e' then 14 else
  if c = 'f' then 15 else 0

/-- The number written by a digit string, most significant digit first, continuing from the
value `acc` of the digits already read. -/
def decodeDigits (base : Nat) (acc : Nat) : List Char → Nat
  | [] => acc
  | c :: cs => decodeDigits base (acc * base + digitValue c) cs

/-- Tracks with identifiers 1, 2, 3 (addresses 0, 1, 2) and the recorded relations
parent/daughter (1, 2) and sibling (2, 3). -/
def threeTrackManager : TrackManager :=
  (SetTrackSiblingRelationship
    (SetTrackParentDaughterRelationship
      (CreateTracks freshManager [⟨1, none⟩, ⟨2, none⟩, ⟨3, none⟩]).2 1 2).2 2 3).2

/-- A manager holding one track (address 0, identifier 1) in its input list. -/
def oneTrackManager : TrackManager := (CreateTrack freshManager ⟨1, none⟩).2

/-! ## Facts about the containers -/

theorem mapFind_mapReplace {κ ν : Type} [DecidableEq κ] (k k' : κ) (v : ν) (m : List (κ × ν)) :
    mapFind k' (mapReplace k v m) =
      if k' = k then (mapFind k m).map (fun _ => v) else mapFind k' m := by
  induction m with
  | nil => simp [mapReplace, mapFind]
  | cons e rest ih =>
    obtain ⟨k0, v0⟩ := e
    by_cases h0 : k0 = k <;> by_cases h1 : k' = k <;> by_cases h2 : k0 = k' <;>
      simp_all [mapReplace, mapFind]

theorem mapFind_orderedPut_ne {κ ν : Type} [DecidableEq κ] (less : κ × ν → κ × ν → Bool)
    (k k' : κ) (v : ν) (m : List (κ × ν)) (h : k' ≠ k) :
    mapFind k' (orderedPut less (k, v) m) = mapFind k' m := by
  induction m with
  | nil => simp [orderedPut, mapFind, Ne.symm h]
  | cons e rest ih =>
    obtain ⟨k0, v0⟩ := e
    by_cases hl : less (k, v) (k0, v0) = true
    · simp [orderedPut, hl, mapFind, Ne.symm h]
    · simp [orderedPut, hl, mapFind, ih]

theorem mapFind_orderedPut_self {κ ν : Type} [DecidableEq κ] (less : κ × ν → κ × ν → Bool)
    (k : κ) (v : ν) (m : List (κ × ν)) (h : mapFind k m = none) :
    mapFind k (orderedPut less (k, v) m) = some v := by
  induction m with
  | nil => simp [orderedPut, mapFind]
  | cons e rest ih =>
    obtain ⟨k0, v0⟩ := e
    by_cases h0 : k0 = k
    · simp [mapFind, h0] at h
    · have hr : mapFind k rest = none := by simpa [mapFind, h0] using h
      by_cases hl : less (k, v) (k0, v0) = true
      · simp [orderedPut, hl, mapFind]
      · simp [orderedPut, hl, mapFind, h0, ih hr]

theorem mapFind_mapAssign {κ ν : Type} [DecidableEq κ] (less : κ → κ → Bool) (k k' : κ) (v : ν)
    (m : List (κ × ν)) :
    mapFind k' (mapAssign less k v m) = if k' = k then some v else mapFind k' m := by
  unfold mapAssign
  cases hf : mapFind k m with
  | none =>
    by_cases h : k' = k
    · subst h; simp [mapFind_orderedPut_self _ _ _ _ hf]
    · simp [h, mapFind_orderedPut_ne _ _ _ _ _ h]
  | some w =>
    by_cases h : k' = k
    · subst h; simp [mapFind_mapReplace, hf]
    · simp [h, mapFind_mapReplace]

theorem mapFind_mapErase {κ ν : Type} [DecidableEq κ] (k k' : κ) (m : List (κ × ν)) :
    mapFind k' (mapErase k m) = if k' = k then none else mapFind k' m := by
  induction m with
  | nil => simp [mapErase, mapFind]
  | cons e rest ih =>
    obtain ⟨k0, v0⟩ := e
    unfold mapErase at ih ⊢
    by_cases h0 : k0 = k <;> by_cases h1 : k' = k <;> by_cases h2 : k0 = k' <;>
      simp_all [mapFind, List.filter_cons]

theorem mem_orderedPut {α : Type} (less : α → α → Bool) (x y : α) (l : List α) :
    y ∈ orderedPut less x l ↔ y = x ∨ y ∈ l := by
  induction l with
  | nil => simp [orderedPut]
  | cons z zs ih =>
    by_cases hl : less x z = true
    · simp [orderedPut, hl]
    · simp [orderedPut, hl, ih]; tauto

theorem length_orderedPut {α : Type} (less : α → α → Bool) (x : α) (l : List α) :
    (orderedPut less x l).length = l.length + 1 := by
  induction l with
  | nil => simp [orderedPut]
  | cons z zs ih =>
    by_cases hl : less x z = true
    · simp [orderedPut, hl]
    · simp [orderedPut, hl, ih]

theorem nodup_orderedPut {α : Type} (less : α → α → Bool) (x : α) (l : List α)
    (hx : x ∉ l) (hl : l.Nodup) : (orderedPut less x l).Nodup := by
  induction l with
  | nil => simp [orderedPut]
  | cons z zs ih =>
    have hz : x ≠ z := fun h => hx (by simp [h])
    have hzs : x ∉ zs := fun h => hx (by simp [h])
    have hn := List.nodup_cons.mp hl
    by_cases hlt : less x z = true
    · simp only [orderedPut, hlt, if_true]
      exact List.nodup_cons.mpr ⟨hx, hl⟩
    · simp only [orderedPut, hlt]
      refine List.nodup_cons.mpr ⟨?_, ih hzs hn.2⟩
      intro hmem
      rcases (mem_orderedPut less x z zs).mp hmem with h | h
      · exact hz h.symm
      · exact hn.1 h

/-! ## Construction and the end-of-event reset -/

theorem construct_eq_freshManager : TrackManager.construct = .ok freshManager := rfl

theorem CreateInputList_of_empty (m : TrackManager) (hr : m.m_nameToTrackListMap = [])
    (hs : m.m_savedLists = []) :
    CreateInputList m = (STATUS_CODE_SUCCESS,
      { m with m_nameToTrackListMap := [(INPUT_LIST_NAME, [])], m_savedLists := [INPUT_LIST_NAME] }) := by
  simp [CreateInputList, hr, hs, mapAssign, mapFind, orderedPut, setInsert]

theorem ResetForNextEvent_eq (m : TrackManager) :
    ResetForNextEvent m = (STATUS_CODE_SUCCESS,
      { m_nameToTrackListMap := [(INPUT_LIST_NAME, [])]
        m_savedLists := [INPUT_LIST_NAME]
        m_currentListName := INPUT_LIST_NAME
        m_uidToTrackMap := []
        m_parentDaughterRelationMap := []
        m_siblingRelationMap := []
        m_algorithmInfoMap := m.m_algorithmInfoMap
        heap :=
          match mapFind INPUT_LIST_NAME m.m_nameToTrackListMap with
          | some inputList => deleteTracks inputList m.heap
          | none => m.heap }) := by
  unfold ResetForNextEvent
  simp only []
  rw [CreateInputList_of_empty _ rfl rfl]

/-! ## Duplicate identifiers in `CreateTrack` -/

/-- C1: on a fresh manager, after a successful `CreateTrack` with identifier 1, a second
`CreateTrack` with identifier 1 returns `STATUS_CODE_FAILURE`, which is not
`STATUS_CODE_ALREADY_PRESENT`, and the failed call has added its track to the input list: the
list holds one track before the failed call and two after it, while the identity index still
holds the single entry of the first track. -/
theorem CreateTrack_duplicate_identifier_evaluation :
    (CreateTrack freshManager ⟨1, none⟩).1 = STATUS_CODE_SUCCESS ∧
    (CreateTrack (CreateTrack freshManager ⟨1, none⟩).2 ⟨1, none⟩).1 = STATUS_CODE_FAILURE ∧
    (CreateTrack (CreateTrack freshManager ⟨1, none⟩).2 ⟨1, none⟩).1
      ≠ STATUS_CODE_ALREADY_PRESENT ∧
    (GetList (CreateTrack freshManager ⟨1, none⟩).2 INPUT_LIST_NAME).2 = some [0] ∧
    (GetList (CreateTrack (CreateTrack freshManager ⟨1, none⟩).2 ⟨1, none⟩).2
      INPUT_LIST_NAME).2 = some [0, 1] ∧
    (CreateTrack (CreateTrack freshManager ⟨1, none⟩).2 ⟨1, none⟩).2.m_uidToTrackMap
      = [(1, 0)] := by
  decide

/-! ## `ResetForNextEvent` -/

/-- C5 (counterexample): the state reached from construction by `RegisterAlgorithm(7)` is turned
by `ResetForNextEvent` into a state that still holds the record of algorithm 7, so it differs
from the state of a freshly constructed manager. -/
theorem ResetForNextEvent_not_fresh_counterexample :
    (ResetForNextEvent (runOperations freshManager [.registerAlgorithm 7])).2 ≠ freshManager ∧
    (ResetForNextEvent (runOperations freshManager [.registerAlgorithm 7])).2.m_algorithmInfoMap
      = [(7, { m_parentListName := INPUT_LIST_NAME, m_temporaryListNames := [],
               m_numberOfListsCreated := 0 })] := by
  decide

/-- C5 (amended): for every state, the state after `ResetForNextEvent` agrees with a freshly
constructed manager on the list registry, the saved-name set, the current list name, the
identity index and both relation ledgers, and its algorithm records are those of the state
before the call. -/
theorem ResetForNextEvent_fresh_except_algorithm_records (m : TrackManager) :
    (ResetForNextEvent m).2.m_nameToTrackListMap = freshManager.m_nameToTrackListMap ∧
    (ResetForNextEvent m).2.m_savedLists = freshManager.m_savedLists ∧
    (ResetForNextEvent m).2.m_currentListName = freshManager.m_currentListName ∧
    (ResetForNextEvent m).2.m_uidToTrackMap = freshManager.m_uidToTrackMap ∧
    (ResetForNextEvent m).2.m_parentDaughterRelationMap
      = freshManager.m_parentDaughterRelationMap ∧
    (ResetForNextEvent m).2.m_siblingRelationMap = freshManager.m_siblingRelationMap ∧
    (ResetForNextEvent m).2.m_algorithmInfoMap = m.m_algorithmInfoMap := by
  rw [ResetForNextEvent_eq]
  simp [freshManager]

/-- C6: for every state, `ResetForNextEvent` returns success; afterwards the registry consists
of the single, empty list "input", the saved-name set is exactly {"input"}, the current list is
"input", the identity index and both relation ledgers are empty, `GetList` finds the empty list
under "input" and fails for every other name; and a second `ResetForNextEvent` returns success
and leaves the state reached by the first one unchanged. -/
theorem ResetForNextEvent_total_idempotent (m : TrackManager) :
    (ResetForNextEvent m).1 = STATUS_CODE_SUCCESS ∧
    (ResetForNextEvent m).2.m_nameToTrackListMap = [("input", [])] ∧
    (ResetForNextEvent m).2.m_savedLists = ["input"] ∧
    (ResetForNextEvent m).2.m_currentListName = "input" ∧
    (ResetForNextEvent m).2.m_uidToTrackMap = [] ∧
    (ResetForNextEvent m).2.m_parentDaughterRelationMap = [] ∧
    (ResetForNextEvent m).2.m_siblingRelationMap = [] ∧
    GetList (ResetForNextEvent m).2 "input" = (STATUS_CODE_SUCCESS, some []) ∧
    (∀ listName : String, listName ≠ "input" →
      GetList (ResetForNextEvent m).2 listName = (STATUS_CODE_NOT_INITIALIZED, none)) ∧
    ResetForNextEvent (ResetForNextEvent m).2 = (STATUS_CODE_SUCCESS, (ResetForNextEvent m).2) := by
  refine ⟨?_, ?_, ?_, ?_, ?_, ?_, ?_, ?_, ?_, ?_⟩
  · rw [ResetForNextEvent_eq]
  · rw [ResetForNextEvent_eq]; rfl
  · rw [ResetForNextEvent_eq]; rfl
  · rw [ResetForNextEvent_eq]; rfl
  · rw [ResetForNextEvent_eq]
  · rw [ResetForNextEvent_eq]
  · rw [ResetForNextEvent_eq]
  · rw [ResetForNextEvent_eq]; rfl
  · intro listName hne
    rw [ResetForNextEvent_eq]
    simp [GetList, mapFind, INPUT_LIST_NAME, Ne.symm hne]
  · rw [ResetForNextEvent_eq (ResetForNextEvent m).2, ResetForNextEvent_eq m]
    simp [mapFind, deleteTracks]

/-! ## Name collisions in `CreateTemporaryListAndSetCurrent` -/

/-- C7: with tracks 0 and 1 created, the list [0] saved under the name "0x7_0" and algorithm 7
registered, the name generated for the first temporary list of algorithm 7 is "0x7_0", already a
key of the registry; `CreateTemporaryListAndSetCurrent(7, [1])` nevertheless returns success,
not `STATUS_CODE_ALREADY_PRESENT`, and the list registered under "0x7_0" changes from [0]
to [1]. -/
theorem CreateTemporaryListAndSetCurrent_overwrites_saved_list_evaluation :
    temporaryName 7 0 = "0x7_0" ∧
    GetList (runOperations freshManager
      [.createTrack ⟨1, none⟩, .createTrack ⟨2, none⟩, .saveList [0] "0x7_0",
        .registerAlgorithm 7]) "0x7_0" = (STATUS_CODE_SUCCESS, some [0]) ∧
    (CreateTemporaryListAndSetCurrent (runOperations freshManager
      [.createTrack ⟨1, none⟩, .createTrack ⟨2, none⟩, .saveList [0] "0x7_0",
        .registerAlgorithm 7]) 7 [1]).1 = STATUS_CODE_SUCCESS ∧
    (CreateTemporaryListAndSetCurrent (runOperations freshManager
      [.createTrack ⟨1, none⟩, .createTrack ⟨2, none⟩, .saveList [0] "0x7_0",
        .registerAlgorithm 7]) 7 [1]).2.1 = some "0x7_0" ∧
    GetList (CreateTemporaryListAndSetCurrent (runOperations freshManager
      [.createTrack ⟨1, none⟩, .createTrack ⟨2, none⟩, .saveList [0] "0x7_0",
        .registerAlgorithm 7]) 7 [1]).2.2 "0x7_0" = (STATUS_CODE_SUCCESS, some [1]) := by
  decide

/-! ## `ReplaceCurrentAndAlgorithmInputLists` -/

/-- C8: with the empty list saved under "saved" on a fresh manager, the current list is
"input"; `ReplaceCurrentAndAlgorithmInputLists(7, "saved")` for the unregistered algorithm 7
returns `STATUS_CODE_NOT_FOUND`, yet the current list name is "saved" after the call: the state
after the failed call differs from the state before it. -/
theorem ReplaceCurrentAndAlgorithmInputLists_failure_commits_evaluation :
    (SaveList freshManager [] "saved").2.m_currentListName = "input" ∧
    (ReplaceCurrentAndAlgorithmInputLists (SaveList freshManager [] "saved").2 7 "saved").1
      = STATUS_CODE_NOT_FOUND ∧
    (ReplaceCurrentAndAlgorithmInputLists (SaveList freshManager [] "saved").2 7
      "saved").2.m_currentListName = "saved" ∧
    (ReplaceCurrentAndAlgorithmInputLists (SaveList freshManager [] "saved").2 7 "saved").2
      ≠ (SaveList freshManager [] "saved").2 := by
  decide

/-- C9 (counterexample): on a manager holding track 0, algorithm 7 is registered and
`CreateTemporaryListAndSetCurrent(7, [0])` returns success with the name "0x7_0", which is not
in the saved-name set; `RegisterAlgorithm(8)` then succeeds and records "0x7_0", the current
list, as the parent list of algorithm 8: a temporary list that was never saved has become the
restore-to list of an algorithm. -/
theorem temporary_list_becomes_parent_counterexample :
    (CreateTemporaryListAndSetCurrent (RegisterAlgorithm oneTrackManager 7).2 7 [0]).1
      = STATUS_CODE_SUCCESS ∧
    (CreateTemporaryListAndSetCurrent (RegisterAlgorithm oneTrackManager 7).2 7 [0]).2.1
      = some "0x7_0" ∧
    (RegisterAlgorithm
      (CreateTemporaryListAndSetCurrent (RegisterAlgorithm oneTrackManager 7).2 7 [0]).2.2 8).1
      = STATUS_CODE_SUCCESS ∧
    mapFind 8 (RegisterAlgorithm
      (CreateTemporaryListAndSetCurrent (RegisterAlgorithm oneTrackManager 7).2 7 [0]).2.2
      8).2.m_algorithmInfoMap
      = some { m_parentListName := "0x7_0", m_temporaryListNames := [],
               m_numberOfListsCreated := 0 } ∧
    "0x7_0" ∉ (RegisterAlgorithm
      (CreateTemporaryListAndSetCurrent (RegisterAlgorithm oneTrackManager 7).2 7 [0]).2.2
      8).2.m_savedLists := by
  decide

/-- C9 (amended): for every state, `ReplaceCurrentAndAlgorithmInputLists(pAlgorithm, name)`
returns `STATUS_CODE_NOT_FOUND` when `name` is not a key of the registry; otherwise
`STATUS_CODE_NOT_ALLOWED` when `name` is not in the saved-name set; otherwise
`STATUS_CODE_NOT_FOUND` when the algorithm is not registered; otherwise success, and then the
current list name is `name`, the record of the algorithm is its previous record with the parent
list set to `name`, the records of all other algorithms are as before, and the registry, the
saved-name set, the identity index, the ledgers and the track objects are unchanged.  This
operation never makes a list outside the saved-name set a restore-to list: with a name that is
not in the saved-name set the call does not succeed and every algorithm record is unchanged.
`RegisterAlgorithm` of an unregistered algorithm, in contrast, records the list that is current
at registration as the restore-to list, whether that list is saved or not. -/
theorem ReplaceCurrentAndAlgorithmInputLists_result (m : TrackManager) (pAlgorithm : Algorithm)
    (name : String) :
    (mapFind name m.m_nameToTrackListMap = none →
      (ReplaceCurrentAndAlgorithmInputLists m pAlgorithm name).1 = STATUS_CODE_NOT_FOUND) ∧
    (mapFind name m.m_nameToTrackListMap ≠ none → name ∉ m.m_savedLists →
      (ReplaceCurrentAndAlgorithmInputLists m pAlgorithm name).1 = STATUS_CODE_NOT_ALLOWED) ∧
    (mapFind name m.m_nameToTrackListMap ≠ none → name ∈ m.m_savedLists →
      mapFind pAlgorithm m.m_algorithmInfoMap = none →
      (ReplaceCurrentAndAlgorithmInputLists m pAlgorithm name).1 = STATUS_CODE_NOT_FOUND) ∧
    (∀ info : AlgorithmInfo, mapFind name m.m_nameToTrackListMap ≠ none →
      name ∈ m.m_savedLists → mapFind pAlgorithm m.m_algorithmInfoMap = some info →
      (ReplaceCurrentAndAlgorithmInputLists m pAlgorithm name).1 = STATUS_CODE_SUCCESS ∧
      (ReplaceCurrentAndAlgorithmInputLists m pAlgorithm name).2.m_currentListName = name ∧
      mapFind pAlgorithm
          (ReplaceCurrentAndAlgorithmInputLists m pAlgorithm name).2.m_algorithmInfoMap
        = some { info with m_parentListName := name } ∧
      (∀ other : Algorithm, other ≠ pAlgorithm →
        mapFind other (ReplaceCurrentAndAlgorithmInputLists m pAlgorithm name).2.m_algorithmInfoMap
          = mapFind other m.m_algorithmInfoMap) ∧
      (ReplaceCurrentAndAlgorithmInputLists m pAlgorithm name).2.m_nameToTrackListMap
        = m.m_nameToTrackListMap ∧
      (ReplaceCurrentAndAlgorithmInputLists m pAlgorithm name).2.m_savedLists = m.m_savedLists ∧
      (ReplaceCurrentAndAlgorithmInputLists m pAlgorithm name).2.m_uidToTrackMap
        = m.m_uidToTrackMap ∧
      (ReplaceCurrentAndAlgorithmInputLists m pAlgorithm name).2.m_parentDaughterRelationMap
        = m.m_parentDaughterRelationMap ∧
      (ReplaceCurrentAndAlgorithmInputLists m pAlgorithm name).2.m_siblingRelationMap
        = m.m_siblingRelationMap ∧
      (ReplaceCurrentAndAlgorithmInputLists m pAlgorithm name).2.heap = m.heap) ∧
    (name ∉ m.m_savedLists →
      (ReplaceCurrentAndAlgorithmInputLists m pAlgorithm name).1 ≠ STATUS_CODE_SUCCESS ∧
      (ReplaceCurrentAndAlgorithmInputLists m pAlgorithm name).2.m_algorithmInfoMap
        = m.m_algorithmInfoMap) ∧
    (mapFind pAlgorithm m.m_algorithmInfoMap = none →
      (RegisterAlgorithm m pAlgorithm).1 = STATUS_CODE_SUCCESS ∧
      mapFind pAlgorithm (RegisterAlgorithm m pAlgorithm).2.m_algorithmInfoMap
        = some { m_parentListName := m.m_currentListName
                 m_temporaryListNames := []
                 m_numberOfListsCreated := 0 }) := by
  refine ⟨?_, ?_, ?_, ?_, ?_, ?_⟩
  · intro h
    simp [ReplaceCurrentAndAlgorithmInputLists, h]
  · intro h hs
    obtain ⟨l, hl⟩ := Option.ne_none_iff_exists'.mp h
    simp [ReplaceCurrentAndAlgorithmInputLists, hl, hs]
  · intro h hs ha
    obtain ⟨l, hl⟩ := Option.ne_none_iff_exists'.mp h
    simp [ReplaceCurrentAndAlgorithmInputLists, hl, hs, ha]
  · intro info h hs ha
    obtain ⟨l, hl⟩ := Option.ne_none_iff_exists'.mp h
    simp only [ReplaceCurrentAndAlgorithmInputLists, hl, hs, ha, not_true_eq_false, if_false]
    refine ⟨trivial, trivial, ?_, ?_, trivial, trivial, trivial, trivial, trivial, trivial⟩
    · simp [mapFind_mapReplace, ha]
    · intro other hne
      simp [mapFind_mapReplace, hne]
  · intro hs
    cases hl : mapFind name m.m_nameToTrackListMap with
    | none => simp [ReplaceCurrentAndAlgorithmInputLists, hl]
    | some l => simp [ReplaceCurrentAndAlgorithmInputLists, hl, hs]
  · intro ha
    simp [RegisterAlgorithm, ha, mapInsert, mapFind_orderedPut_self _ _ _ _ ha]

/-- C9 (instance): on a fresh manager with algorithm 7 registered and the list [] saved under
"saved", `ReplaceCurrentAndAlgorithmInputLists(7, "saved")` succeeds and makes "saved" the
current list and the parent list of algorithm 7. -/
theorem ReplaceCurrentAndAlgorithmInputLists_result_witness :
    (ReplaceCurrentAndAlgorithmInputLists
      (runOperations freshManager [.registerAlgorithm 7, .saveList [] "saved"]) 7 "saved").1
      = STATUS_CODE_SUCCESS ∧
    (ReplaceCurrentAndAlgorithmInputLists
      (runOperations freshManager [.registerAlgorithm 7, .saveList [] "saved"]) 7
      "saved").2.m_currentListName = "saved" ∧
    mapFind 7 (ReplaceCurrentAndAlgorithmInputLists
      (runOperations freshManager [.registerAlgorithm 7, .saveList [] "saved"]) 7
      "saved").2.m_algorithmInfoMap
      = some { m_parentListName := "saved", m_temporaryListNames := [],
               m_numberOfListsCreated := 0 } :=
  have h := (ReplaceCurrentAndAlgorithmInputLists_result
    (runOperations freshManager [.registerAlgorithm 7, .saveList [] "saved"]) 7 "saved").2.2.2.1
    { m_parentListName := "input", m_temporaryListNames := [], m_numberOfListsCreated := 0 }
    (by decide) (by decide) (by decide)
  ⟨h.1, h.2.1, h.2.2.1⟩

/-! ## Sequences of `CreateTrack` calls -/

theorem CreateTrack_success_eq (m : TrackManager) (p : TrackParameters) (l : TrackList)
    (hl : mapFind INPUT_LIST_NAME m.m_nameToTrackListMap = some l)
    (hfresh : m.heap.length ∉ l)
    (huid : mapFind p.m_pParentAddress m.m_uidToTrackMap = none)
    (hok : p.m_constructorThrows = none) :
    CreateTrack m p = (STATUS_CODE_SUCCESS,
      { m with
        heap := m.heap ++ [some ⟨p.m_pParentAddress, none, [], [], []⟩]
        m_nameToTrackListMap :=
          mapReplace INPUT_LIST_NAME (orderedPut natLess m.heap.length l) m.m_nameToTrackListMap
        m_uidToTrackMap :=
          orderedPut (fun a b => natLess a.1 b.1) (p.m_pParentAddress, m.heap.length)
            m.m_uidToTrackMap }) := by
  simp [CreateTrack, Track.construct, hok, hl, setInsert, hfresh, mapInsert,
    Track.GetParentTrackAddress, huid]

theorem CreateTracks_spec (ps : List TrackParameters) :
    ∀ (m : TrackManager) (l : TrackList),
      mapFind INPUT_LIST_NAME m.m_nameToTrackListMap = some l →
      (∀ x ∈ l, x < m.heap.length) →
      (∀ p ∈ ps, mapFind p.m_pParentAddress m.m_uidToTrackMap = none) →
      (ps.map (fun p => p.m_pParentAddress)).Nodup →
      (∀ p ∈ ps, p.m_constructorThrows = none) →
      (CreateTracks m ps).1 = List.replicate ps.length STATUS_CODE_SUCCESS ∧
      (CreateTracks m ps).2.heap.length = m.heap.length + ps.length ∧
      (∀ i, i < m.heap.length → (CreateTracks m ps).2.heap[i]? = m.heap[i]?) ∧
      (∀ u, mapFind u m.m_uidToTrackMap ≠ none →
        mapFind u (CreateTracks m ps).2.m_uidToTrackMap = mapFind u m.m_uidToTrackMap) ∧
      ∃ l', mapFind INPUT_LIST_NAME (CreateTracks m ps).2.m_nameToTrackListMap = some l' ∧
        l'.length = l.length + ps.length ∧ (∀ x ∈ l, x ∈ l') ∧
        ∀ i p, ps[i]? = some p →
          mapFind p.m_pParentAddress (CreateTracks m ps).2.m_uidToTrackMap
            = some (m.heap.length + i) ∧
          (m.heap.length + i) ∈ l' ∧
          (CreateTracks m ps).2.heap[m.heap.length + i]?
            = some (some ⟨p.m_pParentAddress, none, [], [], []⟩) := by
  induction ps with
  | nil =>
    intro m l hl _ _ _ _
    simp [CreateTracks, hl]
  | cons p ps ih =>
    intro m l hl hlt huid hnd hok
    have hfresh : m.heap.length ∉ l := fun h => Nat.lt_irrefl _ (hlt _ h)
    have hp := CreateTrack_success_eq m p l hl hfresh (huid p (by simp)) (hok p (by simp))
    have hnd' : p.m_pParentAddress ∉ ps.map (fun p => p.m_pParentAddress) ∧
        (ps.map (fun p => p.m_pParentAddress)).Nodup := List.nodup_cons.mp hnd
    simp only [CreateTracks, hp]
    have hl1 : mapFind INPUT_LIST_NAME
        (mapReplace INPUT_LIST_NAME (orderedPut natLess m.heap.length l) m.m_nameToTrackListMap)
        = some (orderedPut natLess m.heap.length l) := by
      simp [mapFind_mapReplace, hl]
    obtain ⟨h1, h2, h3, h4, l', h5, h6, h7, h8⟩ := ih
      { m with
        heap := m.heap ++ [some ⟨p.m_pParentAddress, none, [], [], []⟩]
        m_nameToTrackListMap :=
          mapReplace INPUT_LIST_NAME (orderedPut natLess m.heap.length l) m.m_nameToTrackListMap
        m_uidToTrackMap :=
          orderedPut (fun a b => natLess a.1 b.1) (p.m_pParentAddress, m.heap.length)
            m.m_uidToTrackMap }
      (orderedPut natLess m.heap.length l) hl1
      (by
        intro x hx
        rcases (mem_orderedPut _ _ _ _).mp hx with h | h
        · simp [h]
        · have := hlt x h
          simp only [List.length_append, List.length_singleton]
          exact Nat.lt_succ_of_lt this)
      (by
        intro q hq
        have hne : q.m_pParentAddress ≠ p.m_pParentAddress := by
          intro heq
          exact hnd'.1 (List.mem_map.mpr ⟨q, hq, heq⟩)
        simp only []
        rw [mapFind_orderedPut_ne _ _ _ _ _ hne]
        exact huid q (by simp [hq]))
      hnd'.2
      (fun q hq => hok q (by simp [hq]))
    simp only [List.length_append, List.length_singleton] at h2 h3 h7 h8
    have hself : mapFind p.m_pParentAddress
        (orderedPut (fun a b => natLess a.1 b.1) (p.m_pParentAddress, m.heap.length)
          m.m_uidToTrackMap) = some m.heap.length :=
      mapFind_orderedPut_self _ _ _ _ (huid p (by simp))
    refine ⟨?_, ?_, ?_, ?_, l', h5, ?_, ?_, ?_⟩
    · simp [h1, List.replicate_succ]
    · simp [h2]; omega
    · intro i hi
      rw [h3 i (by omega)]
      simp [List.getElem?_append_left hi]
    · intro u hu
      have hne : u ≠ p.m_pParentAddress := by
        intro heq; subst heq; exact hu (huid p (by simp))
      rw [h4 u (by rw [mapFind_orderedPut_ne _ _ _ _ _ hne]; exact hu)]
      exact mapFind_orderedPut_ne _ _ _ _ _ hne
    · rw [h6, length_orderedPut]; simp; omega
    · intro x hx
      exact h7 x ((mem_orderedPut _ _ _ _).mpr (Or.inr hx))
    · intro i q hq
      cases i with
      | zero =>
        have hqp : q = p := by simpa using hq.symm
        subst hqp
        refine ⟨?_, ?_, ?_⟩
        · rw [h4 _ (by rw [hself]; simp)]
          simpa using hself
        · exact h7 _ ((mem_orderedPut _ _ _ _).mpr (Or.inl rfl))
        · rw [Nat.add_zero, h3 _ (by omega)]
          simp
      | succ j =>
        have hq' : ps[j]? = some q := by simpa using hq
        obtain ⟨a1, a2, a3⟩ := h8 j q hq'
        have e : m.heap.length + (j + 1) = m.heap.length + 1 + j := by omega
        rw [e]
        exact ⟨a1, a2, a3⟩

/-- C2: starting from a freshly constructed manager, or from the state left by
`ResetForNextEvent`, a sequence of `CreateTrack` calls whose parameters carry pairwise distinct
identifiers and construct successfully returns success at every call; afterwards `GetList`
finds the input list, its size is the number of calls, and for the i-th call the identity index
maps the identifier used to the track allocated by that call (the i-th address handed out), this
track is a member of the input list and the object stored at the address carries that
identifier. -/
theorem CreateTracks_distinct_identifiers (m : TrackManager) (ps : List TrackParameters)
    (hstart : m = freshManager ∨ ∃ s, m = (ResetForNextEvent s).2)
    (hdistinct : (ps.map (fun p => p.m_pParentAddress)).Nodup)
    (hconstruct : ∀ p ∈ ps, p.m_constructorThrows = none) :
    (CreateTracks m ps).1 = List.replicate ps.length STATUS_CODE_SUCCESS ∧
    ∃ inputList,
      GetList (CreateTracks m ps).2 INPUT_LIST_NAME = (STATUS_CODE_SUCCESS, some inputList) ∧
      inputList.length = ps.length ∧
      ∀ i p, ps[i]? = some p →
        mapFind p.m_pParentAddress (CreateTracks m ps).2.m_uidToTrackMap
          = some (m.heap.length + i) ∧
        (m.heap.length + i) ∈ inputList ∧
        (CreateTracks m ps).2.heap[m.heap.length + i]?
          = some (some ⟨p.m_pParentAddress, none, [], [], []⟩) := by
  have hreg : m.m_nameToTrackListMap = [(INPUT_LIST_NAME, [])] ∧ m.m_uidToTrackMap = [] := by
    rcases hstart with h | ⟨s, h⟩
    · subst h; exact ⟨rfl, rfl⟩
    · subst h; rw [ResetForNextEvent_eq]; exact ⟨rfl, rfl⟩
  obtain ⟨h1, _, _, _, l', h5, h6, _, h8⟩ := CreateTracks_spec ps m []
    (by rw [hreg.1]; simp [mapFind])
    (by intro x hx; simp at hx)
    (by intro p _; rw [hreg.2]; rfl)
    hdistinct hconstruct
  refine ⟨h1, l', ?_, ?_, h8⟩
  · simp [GetList, h5]
  · simpa using h6

/-- C2 (instance): three `CreateTrack` calls with identifiers 1, 2, 3 on a fresh manager. -/
theorem CreateTracks_distinct_identifiers_witness :
    (CreateTracks freshManager [⟨1, none⟩, ⟨2, none⟩, ⟨3, none⟩]).1
      = List.replicate 3 STATUS_CODE_SUCCESS ∧
    ∃ inputList,
      GetList (CreateTracks freshManager [⟨1, none⟩, ⟨2, none⟩, ⟨3, none⟩]).2 INPUT_LIST_NAME
        = (STATUS_CODE_SUCCESS, some inputList) ∧
      inputList.length = 3 ∧
      ∀ i p, ([⟨1, none⟩, ⟨2, none⟩, ⟨3, none⟩] : List TrackParameters)[i]? = some p →
        mapFind p.m_pParentAddress
            (CreateTracks freshManager [⟨1, none⟩, ⟨2, none⟩, ⟨3, none⟩]).2.m_uidToTrackMap
          = some (freshManager.heap.length + i) ∧
        (freshManager.heap.length + i) ∈ inputList ∧
        (CreateTracks freshManager [⟨1, none⟩, ⟨2, none⟩, ⟨3, none⟩]).2.heap[
            freshManager.heap.length + i]?
          = some (some ⟨p.m_pParentAddress, none, [], [], []⟩) :=
  CreateTracks_distinct_identifiers freshManager [⟨1, none⟩, ⟨2, none⟩, ⟨3, none⟩]
    (Or.inl rfl) (by decide) (by decide)

/-! ## The contract of `CreateTemporaryListAndSetCurrent` -/

/-- C10: with tracks 0 and 1 created, the list [0] saved under "0x7_0" and algorithm 7
registered, `CreateTemporaryListAndSetCurrent(7, [1])` returns success with the name "0x7_0",
and this name is in the saved-name set after the call, as it was before. -/
theorem CreateTemporaryListAndSetCurrent_saved_name_evaluation :
    (CreateTemporaryListAndSetCurrent (runOperations freshManager
      [.createTrack ⟨1, none⟩, .createTrack ⟨2, none⟩, .saveList [0] "0x7_0",
        .registerAlgorithm 7]) 7 [1]).1 = STATUS_CODE_SUCCESS ∧
    (CreateTemporaryListAndSetCurrent (runOperations freshManager
      [.createTrack ⟨1, none⟩, .createTrack ⟨2, none⟩, .saveList [0] "0x7_0",
        .registerAlgorithm 7]) 7 [1]).2.1 = some "0x7_0" ∧
    "0x7_0" ∈ (CreateTemporaryListAndSetCurrent (runOperations freshManager
      [.createTrack ⟨1, none⟩, .createTrack ⟨2, none⟩, .saveList [0] "0x7_0",
        .registerAlgorithm 7]) 7 [1]).2.2.m_savedLists ∧
    "0x7_0" ∈ (runOperations freshManager
      [.createTrack ⟨1, none⟩, .createTrack ⟨2, none⟩, .saveList [0] "0x7_0",
        .registerAlgorithm 7]).m_savedLists := by
  decide

/-! ## Temporary lists of an algorithm and their removal -/

theorem eraseTemporaryLists_find (names : List String) :
    ∀ registry : List (String × TrackList), (eraseTemporaryLists names registry).1 = true →
      ∀ k, mapFind k (eraseTemporaryLists names registry).2
        = if k ∈ names then none else mapFind k registry := by
  induction names with
  | nil => intro registry _ k; simp [eraseTemporaryLists]
  | cons n ns ih =>
    intro registry h k
    cases hf : mapFind n registry with
    | none => simp [eraseTemporaryLists, hf] at h
    | some l =>
      simp only [eraseTemporaryLists, hf] at h ⊢
      rw [ih _ h k, mapFind_mapErase]
      by_cases h1 : k = n <;> by_cases h2 : k ∈ ns <;> simp [h1, h2]

theorem eraseTemporaryLists_success (names : List String) :
    ∀ registry : List (String × TrackList), names.Nodup →
      (∀ n ∈ names, mapFind n registry ≠ none) →
      (eraseTemporaryLists names registry).1 = true := by
  induction names with
  | nil => intro registry _ _; simp [eraseTemporaryLists]
  | cons n ns ih =>
    intro registry hnd hall
    have hn := List.nodup_cons.mp hnd
    obtain ⟨l, hl⟩ := Option.ne_none_iff_exists'.mp (hall n (by simp))
    simp only [eraseTemporaryLists, hl]
    apply ih _ hn.2
    intro k hk
    have hne : k ≠ n := fun h => hn.1 (h ▸ hk)
    rw [mapFind_mapErase]
    simp only [hne, if_false]
    exact hall k (by simp [hk])

theorem RegisterAlgorithm_of_unregistered (m : TrackManager) (pAlgorithm : Algorithm)
    (h : mapFind pAlgorithm m.m_algorithmInfoMap = none) :
    RegisterAlgorithm m pAlgorithm = (STATUS_CODE_SUCCESS,
      { m with
        m_algorithmInfoMap :=
          orderedPut (fun a b => natLess a.1 b.1)
            (pAlgorithm, { m_parentListName := m.m_currentListName
                           m_temporaryListNames := []
                           m_numberOfListsCreated := 0 })
            m.m_algorithmInfoMap }) := by
  simp [RegisterAlgorithm, h, mapInsert]

theorem CreateTemporaryListAndSetCurrent_success (m : TrackManager) (pAlgorithm : Algorithm)
    (trackList : TrackList)
    (h : (CreateTemporaryListAndSetCurrent m pAlgorithm trackList).1 = STATUS_CODE_SUCCESS) :
    ∃ info, mapFind pAlgorithm m.m_algorithmInfoMap = some info ∧
      trackList ≠ [] ∧
      temporaryName pAlgorithm info.m_numberOfListsCreated ∉ info.m_temporaryListNames ∧
      CreateTemporaryListAndSetCurrent m pAlgorithm trackList =
        (STATUS_CODE_SUCCESS, some (temporaryName pAlgorithm info.m_numberOfListsCreated),
          { m with
            m_algorithmInfoMap :=
              mapReplace pAlgorithm
                { m_parentListName := info.m_parentListName
                  m_temporaryListNames :=
                    orderedPut stringLess (temporaryName pAlgorithm info.m_numberOfListsCreated)
                      info.m_temporaryListNames
                  m_numberOfListsCreated := (info.m_numberOfListsCreated + 1) % UINT_MODULUS }
                m.m_algorithmInfoMap
            m_nameToTrackListMap :=
              mapAssign stringLess (temporaryName pAlgorithm info.m_numberOfListsCreated)
                trackList m.m_nameToTrackListMap
            m_currentListName := temporaryName pAlgorithm info.m_numberOfListsCreated }) := by
  by_cases he : trackList = []
  · simp [CreateTemporaryListAndSetCurrent, he] at h
  · cases hf : mapFind pAlgorithm m.m_algorithmInfoMap with
    | none => simp [CreateTemporaryListAndSetCurrent, he, hf] at h
    | some info =>
      by_cases hmem :
          temporaryName pAlgorithm info.m_numberOfListsCreated ∈ info.m_temporaryListNames
      · simp [CreateTemporaryListAndSetCurrent, he, hf, setInsert, hmem] at h
      · refine ⟨info, rfl, he, hmem, ?_⟩
        simp [CreateTemporaryListAndSetCurrent, he, hf, setInsert, hmem]

theorem CreateTemporaryLists_invariant (pAlgorithm : Algorithm) (ls : List TrackList) :
    ∀ (m : TrackManager) (info : AlgorithmInfo),
      mapFind pAlgorithm m.m_algorithmInfoMap = some info →
      info.m_temporaryListNames.Nodup →
      (∀ n ∈ info.m_temporaryListNames, mapFind n m.m_nameToTrackListMap ≠ none) →
      (∀ r ∈ (CreateTemporaryLists pAlgorithm m ls).1, r.1 = STATUS_CODE_SUCCESS) →
      ∃ info', mapFind pAlgorithm (CreateTemporaryLists pAlgorithm m ls).2.m_algorithmInfoMap
          = some info' ∧
        info'.m_parentListName = info.m_parentListName ∧
        info'.m_temporaryListNames.Nodup ∧
        (∀ n ∈ info'.m_temporaryListNames,
          mapFind n (CreateTemporaryLists pAlgorithm m ls).2.m_nameToTrackListMap ≠ none) ∧
        (∀ n ∈ info.m_temporaryListNames, n ∈ info'.m_temporaryListNames) ∧
        (∀ r ∈ (CreateTemporaryLists pAlgorithm m ls).1,
          ∃ n, r.2 = some n ∧ n ∈ info'.m_temporaryListNames) := by
  induction ls with
  | nil =>
    intro m info hinfo hnd hall _
    exact ⟨info, hinfo, rfl, hnd, hall, fun n hn => hn, by simp [CreateTemporaryLists]⟩
  | cons l ls ih =>
    intro m info hinfo hnd hall hsucc
    have hfirst : (CreateTemporaryListAndSetCurrent m pAlgorithm l).1 = STATUS_CODE_SUCCESS :=
      hsucc ((CreateTemporaryListAndSetCurrent m pAlgorithm l).1,
        (CreateTemporaryListAndSetCurrent m pAlgorithm l).2.1) (by simp [CreateTemporaryLists])
    obtain ⟨info0, hinfo0, _, hfreshName, heq⟩ :=
      CreateTemporaryListAndSetCurrent_success m pAlgorithm l hfirst
    have hi : info0 = info := by
      rw [hinfo] at hinfo0; exact (Option.some.inj hinfo0).symm
    subst hi
    simp only [CreateTemporaryLists, heq] at hsucc ⊢
    obtain ⟨info', h1, h2, h3, h4, h5, h6⟩ := ih _
      { m_parentListName := info0.m_parentListName
        m_temporaryListNames :=
          orderedPut stringLess (temporaryName pAlgorithm info0.m_numberOfListsCreated)
            info0.m_temporaryListNames
        m_numberOfListsCreated := (info0.m_numberOfListsCreated + 1) % UINT_MODULUS }
      (by simp [mapFind_mapReplace, hinfo])
      (nodup_orderedPut _ _ _ hfreshName hnd)
      (by
        intro n hn
        simp only [mapFind_mapAssign]
        by_cases hne : n = temporaryName pAlgorithm info0.m_numberOfListsCreated
        · simp [hne]
        · simp only [hne, if_false]
          rcases (mem_orderedPut _ _ _ _).mp hn with h | h
          · exact absurd h hne
          · exact hall n h)
      (fun r hr => hsucc r (List.mem_cons_of_mem _ hr))
    refine ⟨info', h1, h2, h3, h4, ?_, ?_⟩
    · intro n hn
      exact h5 n ((mem_orderedPut _ _ _ _).mpr (Or.inr hn))
    · intro r hr
      rcases List.mem_cons.mp hr with h | h
      · subst h
        exact ⟨_, rfl, h5 _ ((mem_orderedPut _ _ _ _).mpr (Or.inl rfl))⟩
      · exact h6 r h

theorem ResetAlgorithmInfo_of_resolving (m : TrackManager) (pAlgorithm : Algorithm)
    (isAlgorithmFinished : Bool) (info : AlgorithmInfo)
    (hinfo : mapFind pAlgorithm m.m_algorithmInfoMap = some info)
    (herase : (eraseTemporaryLists info.m_temporaryListNames m.m_nameToTrackListMap).1 = true) :
    ResetAlgorithmInfo m pAlgorithm isAlgorithmFinished = (STATUS_CODE_SUCCESS,
      { m with
        m_nameToTrackListMap :=
          (eraseTemporaryLists info.m_temporaryListNames m.m_nameToTrackListMap).2
        m_algorithmInfoMap :=
          if isAlgorithmFinished then
            mapErase pAlgorithm
              (mapReplace pAlgorithm { info with m_temporaryListNames := [] }
                m.m_algorithmInfoMap)
          else
            mapReplace pAlgorithm { info with m_temporaryListNames := [] } m.m_algorithmInfoMap
        m_currentListName := info.m_parentListName }) := by
  cases isAlgorithmFinished <;> simp [ResetAlgorithmInfo, hinfo, herase]

/-- C4: for every state in which the algorithm is not registered, `RegisterAlgorithm` succeeds;
if it is followed by any number of `CreateTemporaryListAndSetCurrent` calls of this algorithm
that all return success, then `ResetAlgorithmInfo(algorithm, true)` returns success, `GetList`
fails for every name returned by these calls, the current list name is the one that was current
before the registration, and the algorithm is no longer registered.  (A call that returns
success has a non-empty source list, so that condition on the lists is not needed; the number
of calls may be any, zero included.) -/
theorem ResetAlgorithmInfo_finished_after_temporary_lists (m : TrackManager)
    (pAlgorithm : Algorithm) (ls : List TrackList)
    (hunregistered : mapFind pAlgorithm m.m_algorithmInfoMap = none)
    (hsuccess : ∀ r ∈ (CreateTemporaryLists pAlgorithm (RegisterAlgorithm m pAlgorithm).2 ls).1,
      r.1 = STATUS_CODE_SUCCESS) :
    (RegisterAlgorithm m pAlgorithm).1 = STATUS_CODE_SUCCESS ∧
    (ResetAlgorithmInfo (CreateTemporaryLists pAlgorithm (RegisterAlgorithm m pAlgorithm).2 ls).2
      pAlgorithm true).1 = STATUS_CODE_SUCCESS ∧
    (∀ r ∈ (CreateTemporaryLists pAlgorithm (RegisterAlgorithm m pAlgorithm).2 ls).1,
      ∃ n, r.2 = some n ∧
        GetList (ResetAlgorithmInfo
          (CreateTemporaryLists pAlgorithm (RegisterAlgorithm m pAlgorithm).2 ls).2
          pAlgorithm true).2 n = (STATUS_CODE_NOT_INITIALIZED, none)) ∧
    (ResetAlgorithmInfo (CreateTemporaryLists pAlgorithm (RegisterAlgorithm m pAlgorithm).2 ls).2
      pAlgorithm true).2.m_currentListName = m.m_currentListName ∧
    mapFind pAlgorithm
      (ResetAlgorithmInfo (CreateTemporaryLists pAlgorithm (RegisterAlgorithm m pAlgorithm).2 ls).2
        pAlgorithm true).2.m_algorithmInfoMap = none := by
  have hreg := RegisterAlgorithm_of_unregistered m pAlgorithm hunregistered
  rw [hreg] at hsuccess ⊢
  obtain ⟨info', h1, h2, h3, h4, _, h6⟩ := CreateTemporaryLists_invariant pAlgorithm ls _
    { m_parentListName := m.m_currentListName
      m_temporaryListNames := []
      m_numberOfListsCreated := 0 }
    (mapFind_orderedPut_self _ _ _ _ hunregistered)
    List.nodup_nil
    (by intro n hn; simp at hn)
    hsuccess
  have herase := eraseTemporaryLists_success _ _ h3 h4
  rw [ResetAlgorithmInfo_of_resolving _ pAlgorithm true info' h1 herase]
  refine ⟨rfl, rfl, ?_, h2, ?_⟩
  · intro r hr
    obtain ⟨n, hn, hmem⟩ := h6 r hr
    refine ⟨n, hn, ?_⟩
    simp only [GetList]
    rw [eraseTemporaryLists_find _ _ herase n]
    simp [hmem]
  · simp [mapFind_mapErase]

/-- C4 (instance): on a manager holding track 0, algorithm 7 is registered, creates two
temporary lists from [0] and is reset as finished: the reset succeeds, neither returned name
resolves, the current list is the one current before the registration and algorithm 7 is no
longer registered. -/
theorem ResetAlgorithmInfo_finished_after_temporary_lists_witness :
    (RegisterAlgorithm oneTrackManager 7).1 = STATUS_CODE_SUCCESS ∧
    (ResetAlgorithmInfo (CreateTemporaryLists 7 (RegisterAlgorithm oneTrackManager 7).2
      [[0], [0]]).2 7 true).1 = STATUS_CODE_SUCCESS ∧
    (∀ r ∈ (CreateTemporaryLists 7 (RegisterAlgorithm oneTrackManager 7).2 [[0], [0]]).1,
      ∃ n, r.2 = some n ∧
        GetList (ResetAlgorithmInfo
          (CreateTemporaryLists 7 (RegisterAlgorithm oneTrackManager 7).2 [[0], [0]]).2
          7 true).2 n = (STATUS_CODE_NOT_INITIALIZED, none)) ∧
    (ResetAlgorithmInfo (CreateTemporaryLists 7 (RegisterAlgorithm oneTrackManager 7).2
      [[0], [0]]).2 7 true).2.m_currentListName = oneTrackManager.m_currentListName ∧
    mapFind 7
      (ResetAlgorithmInfo (CreateTemporaryLists 7 (RegisterAlgorithm oneTrackManager 7).2
        [[0], [0]]).2 7 true).2.m_algorithmInfoMap = none :=
  ResetAlgorithmInfo_finished_after_temporary_lists oneTrackManager 7 [[0], [0]]
    (by decide) (by decide)

/-! ## The current list -/

theorem isSome_mapFind_mapReplace {κ ν : Type} [DecidableEq κ] (k k' : κ) (v : ν)
    (m : List (κ × ν)) : (mapFind k' (mapReplace k v m)).isSome = (mapFind k' m).isSome := by
  rw [mapFind_mapReplace]
  by_cases h : k' = k
  · subst h; simp
  · simp [h]

theorem isSome_mapFind_mapAssign {κ ν : Type} [DecidableEq κ] (less : κ → κ → Bool) (k k' : κ)
    (v : ν) (m : List (κ × ν)) (h : (mapFind k' m).isSome = true) :
    (mapFind k' (mapAssign less k v m)).isSome = true := by
  rw [mapFind_mapAssign]
  by_cases hk : k' = k
  · simp [hk]
  · simpa [hk] using h

theorem CreateTrack_currentListResolves (m : TrackManager) (p : TrackParameters)
    (h : currentListResolves m) : currentListResolves (CreateTrack m p).2 := by
  unfold currentListResolves at *
  unfold CreateTrack
  cases Track.construct p with
  | error c => exact h
  | ok t =>
    simp only []
    cases hl : mapFind INPUT_LIST_NAME m.m_nameToTrackListMap with
    | none => exact h
    | some l =>
      simp only []
      split
      · exact h
      · split
        · simpa [isSome_mapFind_mapReplace] using h
        · simpa [isSome_mapFind_mapReplace] using h

theorem SaveList_currentListResolves (m : TrackManager) (l : TrackList) (n : String)
    (h : currentListResolves m) : currentListResolves (SaveList m l n).2 := by
  unfold currentListResolves at *
  unfold SaveList
  cases hf : mapFind n m.m_nameToTrackListMap with
  | some _ => exact h
  | none =>
    simp only [mapInsert, hf, Bool.not_true, Bool.false_eq_true, if_false]
    apply isSome_mapFind_mapAssign
    by_cases hk : m.m_currentListName = n
    · rw [hk, hf] at h; simp at h
    · rw [mapFind_orderedPut_ne _ _ _ _ _ hk]; exact h

theorem RegisterAlgorithm_currentListResolves (m : TrackManager) (a : Algorithm)
    (h : currentListResolves m) : currentListResolves (RegisterAlgorithm m a).2 := by
  unfold currentListResolves at *
  unfold RegisterAlgorithm
  cases hf : mapFind a m.m_algorithmInfoMap with
  | some _ => exact h
  | none => simpa [mapInsert, hf] using h

theorem CreateTemporaryListAndSetCurrent_currentListResolves (m : TrackManager) (a : Algorithm)
    (l : TrackList) (h : currentListResolves m) :
    currentListResolves (CreateTemporaryListAndSetCurrent m a l).2.2 := by
  unfold currentListResolves at *
  unfold CreateTemporaryListAndSetCurrent
  split
  · exact h
  · cases hf : mapFind a m.m_algorithmInfoMap with
    | none => exact h
    | some info =>
      simp only []
      split
      · exact h
      · simp [mapFind_mapAssign]

theorem ReplaceCurrentAndAlgorithmInputLists_currentListResolves (m : TrackManager)
    (a : Algorithm) (n : String) (h : currentListResolves m) :
    currentListResolves (ReplaceCurrentAndAlgorithmInputLists m a n).2 := by
  unfold currentListResolves at *
  unfold ReplaceCurrentAndAlgorithmInputLists
  cases hf : mapFind n m.m_nameToTrackListMap with
  | none => exact h
  | some l0 =>
    simp only []
    split
    · exact h
    · cases hg : mapFind a m.m_algorithmInfoMap with
      | none => simp [hf]
      | some info => simp [hf]

theorem ResetAlgorithmInfo_currentListResolves (m : TrackManager) (a : Algorithm) (f : Bool)
    (hguard : resetRestoresRegisteredList m a = true) (h : currentListResolves m) :
    currentListResolves (ResetAlgorithmInfo m a f).2 := by
  unfold currentListResolves at *
  cases hf : mapFind a m.m_algorithmInfoMap with
  | none => simpa [ResetAlgorithmInfo, hf] using h
  | some info =>
    simp only [resetRestoresRegisteredList, hf, Bool.and_eq_true, decide_eq_true_eq] at hguard
    obtain ⟨⟨herase, hnot⟩, hparent⟩ := hguard
    rw [ResetAlgorithmInfo_of_resolving m a f info hf herase]
    simp only []
    rw [eraseTemporaryLists_find _ _ herase]
    simpa [hnot] using hparent

theorem ResetForNextEvent_currentListResolves (m : TrackManager) :
    currentListResolves (ResetForNextEvent m).2 := by
  rw [ResetForNextEvent_eq]
  simp [currentListResolves, mapFind]

/-- C3 (counterexample): every call of the sequence CreateTrack(1), RegisterAlgorithm(7),
CreateTemporaryListAndSetCurrent(7, [0]), RegisterAlgorithm(8), ResetAlgorithmInfo(7, true),
ResetAlgorithmInfo(8, true) on a fresh manager is a public operation, yet in the state reached
the current list name is "0x7_0", the removed temporary list of algorithm 7, and
`GetList` fails for it. -/
theorem currentListResolves_counterexample :
    ¬ currentListResolves (runOperations freshManager
      [.createTrack ⟨1, none⟩, .registerAlgorithm 7,
        .createTemporaryListAndSetCurrent 7 [0], .registerAlgorithm 8,
        .resetAlgorithmInfo 7 true, .resetAlgorithmInfo 8 true]) ∧
    (runOperations freshManager
      [.createTrack ⟨1, none⟩, .registerAlgorithm 7,
        .createTemporaryListAndSetCurrent 7 [0], .registerAlgorithm 8,
        .resetAlgorithmInfo 7 true, .resetAlgorithmInfo 8 true]).m_currentListName = "0x7_0" ∧
    GetList (runOperations freshManager
      [.createTrack ⟨1, none⟩, .registerAlgorithm 7,
        .createTemporaryListAndSetCurrent 7 [0], .registerAlgorithm 8,
        .resetAlgorithmInfo 7 true, .resetAlgorithmInfo 8 true]) "0x7_0"
      = (STATUS_CODE_NOT_INITIALIZED, none) := by
  decide

/-- C3 (amended): in every state reached from construction by a sequence of the operations
CreateTrack, SaveList, RegisterAlgorithm, CreateTemporaryListAndSetCurrent,
ReplaceCurrentAndAlgorithmInputLists, ResetAlgorithmInfo and ResetForNextEvent, succeeding or
failing, in which every `ResetAlgorithmInfo(A, flag)` is called when A is unregistered or when
all temporary lists of A are found and the recorded parent list of A is a registered list that
is not one of A's temporary lists, the current list name is a key of the list registry. -/
theorem currentListResolves_of_scopedReachable (m : TrackManager) (h : ScopedReachable m) :
    currentListResolves m := by
  induction h with
  | construct => decide
  | step m op _ hscoped ih =>
    cases op with
    | createTrack p => exact CreateTrack_currentListResolves m p ih
    | saveList l n => exact SaveList_currentListResolves m l n ih
    | registerAlgorithm a => exact RegisterAlgorithm_currentListResolves m a ih
    | createTemporaryListAndSetCurrent a l =>
      exact CreateTemporaryListAndSetCurrent_currentListResolves m a l ih
    | replaceCurrentAndAlgorithmInputLists a n =>
      exact ReplaceCurrentAndAlgorithmInputLists_currentListResolves m a n ih
    | resetAlgorithmInfo a f => exact ResetAlgorithmInfo_currentListResolves m a f hscoped ih
    | resetForNextEvent => exact ResetForNextEvent_currentListResolves m

/-- C3 (instance): algorithm 7 is registered and creates a temporary list, algorithm 8 is
registered under it and creates its own, then 8 and 7 are reset in this order; the current list
of the state reached resolves. -/
theorem currentListResolves_of_scopedReachable_witness :
    currentListResolves
      (ListOperation.apply (ListOperation.apply (ListOperation.apply (ListOperation.apply
        (ListOperation.apply (ListOperation.apply oneTrackManager
          (.registerAlgorithm 7))
          (.createTemporaryListAndSetCurrent 7 [0]))
          (.registerAlgorithm 8))
          (.createTemporaryListAndSetCurrent 8 [0]))
          (.resetAlgorithmInfo 8 true))
          (.resetAlgorithmInfo 7 true)) :=
  currentListResolves_of_scopedReachable _
    (ScopedReachable.step _ (.resetAlgorithmInfo 7 true)
      (ScopedReachable.step _ (.resetAlgorithmInfo 8 true)
        (ScopedReachable.step _ (.createTemporaryListAndSetCurrent 8 [0])
          (ScopedReachable.step _ (.registerAlgorithm 8)
            (ScopedReachable.step _ (.createTemporaryListAndSetCurrent 7 [0])
              (ScopedReachable.step _ (.registerAlgorithm 7)
                (ScopedReachable.step _ (.createTrack ⟨1, none⟩) ScopedReachable.construct
                  trivial)
                trivial)
              trivial)
            trivial)
          trivial)
        (show resetRestoresRegisteredList _ 8 = true by decide))
      (show resetRestoresRegisteredList _ 7 = true by decide))

/-! ## General form of the evaluations above -/

/-- When the construction does not throw, a successful `CreateTrack` leaves the identifier of
its parameters in the identity index. -/
theorem CreateTrack_success_indexes (m : TrackManager) (p : TrackParameters)
    (h : (CreateTrack m p).1 = STATUS_CODE_SUCCESS) (hok : p.m_constructorThrows = none) :
    mapFind p.m_pParentAddress (CreateTrack m p).2.m_uidToTrackMap ≠ none ∧
    mapFind INPUT_LIST_NAME (CreateTrack m p).2.m_nameToTrackListMap ≠ none := by
  cases hl : mapFind INPUT_LIST_NAME m.m_nameToTrackListMap with
  | none => simp [CreateTrack, Track.construct, hok, hl] at h
  | some l =>
    by_cases hmem : m.heap.length ∈ l
    · simp [CreateTrack, Track.construct, hok, hl, setInsert, hmem] at h
    · cases hu : mapFind p.m_pParentAddress m.m_uidToTrackMap with
      | some t =>
        simp [CreateTrack, Track.construct, hok, hl, setInsert, hmem, mapInsert,
          Track.GetParentTrackAddress, hu] at h
      | none =>
        rw [CreateTrack_success_eq m p l hl hmem hu hok]
        simp [mapFind_orderedPut_self _ _ _ _ hu, mapFind_mapReplace, hl]

/-- For every state: when `CreateTrack` has succeeded for an identifier, a further `CreateTrack`
whose parameters carry the same identifier and construct successfully returns
`STATUS_CODE_FAILURE`, and the identity index is unchanged by it. -/
theorem CreateTrack_duplicate_identifier_failure (m : TrackManager) (p q : TrackParameters)
    (h : (CreateTrack m p).1 = STATUS_CODE_SUCCESS) (hp : p.m_constructorThrows = none)
    (hq : q.m_constructorThrows = none) (hsame : q.m_pParentAddress = p.m_pParentAddress) :
    (CreateTrack (CreateTrack m p).2 q).1 = STATUS_CODE_FAILURE ∧
    (CreateTrack (CreateTrack m p).2 q).2.m_uidToTrackMap
      = (CreateTrack m p).2.m_uidToTrackMap := by
  obtain ⟨hidx, _⟩ := CreateTrack_success_indexes m p h hp
  obtain ⟨t, ht⟩ := Option.ne_none_iff_exists'.mp hidx
  generalize (CreateTrack m p).2 = m1 at ht ⊢
  cases hl : mapFind INPUT_LIST_NAME m1.m_nameToTrackListMap with
  | none => simp [CreateTrack, Track.construct, hq, hl]
  | some l =>
    by_cases hmem : m1.heap.length ∈ l
    · simp [CreateTrack, Track.construct, hq, hl, setInsert, hmem]
    · simp [CreateTrack, Track.construct, hq, hl, setInsert, hmem, mapInsert,
        Track.GetParentTrackAddress, hsame, ht]

/-- For every state: when the name generated for the next temporary list of a registered
algorithm is not among the algorithm's own temporary names, `CreateTemporaryListAndSetCurrent`
with a non-empty list returns success and the registry holds the source list under that name,
whatever was registered under it before. -/
theorem CreateTemporaryListAndSetCurrent_assigns (m : TrackManager) (pAlgorithm : Algorithm)
    (trackList : TrackList) (info : AlgorithmInfo)
    (hinfo : mapFind pAlgorithm m.m_algorithmInfoMap = some info)
    (hne : trackList ≠ [])
    (hfresh : temporaryName pAlgorithm info.m_numberOfListsCreated ∉ info.m_temporaryListNames) :
    (CreateTemporaryListAndSetCurrent m pAlgorithm trackList).1 = STATUS_CODE_SUCCESS ∧
    GetList (CreateTemporaryListAndSetCurrent m pAlgorithm trackList).2.2
      (temporaryName pAlgorithm info.m_numberOfListsCreated)
      = (STATUS_CODE_SUCCESS, some trackList) := by
  simp [CreateTemporaryListAndSetCurrent, hne, hinfo, setInsert, hfresh, GetList,
    mapFind_mapAssign]

/-- For every state, the parts of the contract of `CreateTemporaryListAndSetCurrent` that do not
depend on a name collision: an empty source list gives `STATUS_CODE_NOT_INITIALIZED` and an
unregistered algorithm `STATUS_CODE_NOT_FOUND`, both without a change of state; on success with
name `n` the list registered under `n` is the source list, `n` is the current list and one of the
algorithm's temporary names, the saved-name set is the one before the call, and the lists
registered under other names are as before. -/
theorem CreateTemporaryListAndSetCurrent_contract (m : TrackManager) (pAlgorithm : Algorithm)
    (trackList : TrackList) :
    (trackList = [] →
      CreateTemporaryListAndSetCurrent m pAlgorithm trackList
        = (STATUS_CODE_NOT_INITIALIZED, none, m)) ∧
    (trackList ≠ [] → mapFind pAlgorithm m.m_algorithmInfoMap = none →
      CreateTemporaryListAndSetCurrent m pAlgorithm trackList = (STATUS_CODE_NOT_FOUND, none, m)) ∧
    ((CreateTemporaryListAndSetCurrent m pAlgorithm trackList).1 = STATUS_CODE_SUCCESS →
      ∃ n, (CreateTemporaryListAndSetCurrent m pAlgorithm trackList).2.1 = some n ∧
        GetList (CreateTemporaryListAndSetCurrent m pAlgorithm trackList).2.2 n
          = (STATUS_CODE_SUCCESS, some trackList) ∧
        (CreateTemporaryListAndSetCurrent m pAlgorithm trackList).2.2.m_currentListName = n ∧
        (∃ info', mapFind pAlgorithm
            (CreateTemporaryListAndSetCurrent m pAlgorithm trackList).2.2.m_algorithmInfoMap
            = some info' ∧ n ∈ info'.m_temporaryListNames) ∧
        (CreateTemporaryListAndSetCurrent m pAlgorithm trackList).2.2.m_savedLists
          = m.m_savedLists ∧
        ∀ other, other ≠ n →
          mapFind other
            (CreateTemporaryListAndSetCurrent m pAlgorithm trackList).2.2.m_nameToTrackListMap
            = mapFind other m.m_nameToTrackListMap) := by
  refine ⟨?_, ?_, ?_⟩
  · intro h; simp [CreateTemporaryListAndSetCurrent, h]
  · intro h hf; simp [CreateTemporaryListAndSetCurrent, h, hf]
  · intro h
    obtain ⟨info, hinfo, _, _, heq⟩ :=
      CreateTemporaryListAndSetCurrent_success m pAlgorithm trackList h
    rw [heq]
    refine ⟨_, rfl, ?_, rfl,
      ⟨{ m_parentListName := info.m_parentListName
         m_temporaryListNames :=
           orderedPut stringLess (temporaryName pAlgorithm info.m_numberOfListsCreated)
             info.m_temporaryListNames
         m_numberOfListsCreated := (info.m_numberOfListsCreated + 1) % UINT_MODULUS }, ?_, ?_⟩,
      rfl, ?_⟩
    · simp [GetList, mapFind_mapAssign]
    · simp only [mapFind_mapReplace, hinfo]; simp
    · exact (mem_orderedPut _ _ _ _).mpr (Or.inl rfl)
    · intro other hne
      simp [mapFind_mapAssign, hne]

/-- For every state: when the name is a saved, registered list and the algorithm is not
registered, `ReplaceCurrentAndAlgorithmInputLists` returns `STATUS_CODE_NOT_FOUND` and the
current list name is the given name after the call. -/
theorem ReplaceCurrentAndAlgorithmInputLists_unregistered (m : TrackManager)
    (pAlgorithm : Algorithm) (name : String)
    (hfound : mapFind name m.m_nameToTrackListMap ≠ none) (hsaved : name ∈ m.m_savedLists)
    (hunregistered : mapFind pAlgorithm m.m_algorithmInfoMap = none) :
    ReplaceCurrentAndAlgorithmInputLists m pAlgorithm name
      = (STATUS_CODE_NOT_FOUND, { m with m_currentListName := name }) := by
  obtain ⟨l, hl⟩ := Option.ne_none_iff_exists'.mp hfound
  simp [ReplaceCurrentAndAlgorithmInputLists, hl, hsaved, hunregistered]

/-! ## `GetList` -/

/-- C13 (counterexample): on a fresh manager no list is registered under "foo"; `GetList("foo")`
returns `STATUS_CODE_NOT_INITIALIZED`, which is not `STATUS_CODE_NOT_FOUND`. -/
theorem GetList_not_found_counterexample :
    mapFind "foo" freshManager.m_nameToTrackListMap = none ∧
    GetList freshManager "foo" = (STATUS_CODE_NOT_INITIALIZED, none) ∧
    (GetList freshManager "foo").1 ≠ STATUS_CODE_NOT_FOUND := by
  decide

/-- C13 (amended): `GetList(name)` is a function of the state alone and hands back no state;
it returns success together with the list registered under `name` when `name` is a key of the
list registry, and it fails with `STATUS_CODE_NOT_INITIALIZED`, handing back no list, when no
list with that name exists. -/
theorem GetList_result (m : TrackManager) (name : String) :
    (∀ l, mapFind name m.m_nameToTrackListMap = some l →
      GetList m name = (STATUS_CODE_SUCCESS, some l)) ∧
    (mapFind name m.m_nameToTrackListMap = none →
      GetList m name = (STATUS_CODE_NOT_INITIALIZED, none)) := by
  constructor
  · intro l h; simp [GetList, h]
  · intro h; simp [GetList, h]

/-! ## Facts about track objects -/

theorem trackAt_set (heap : List (Option Track)) (p q : TrackPtr) (t : Track)
    (hlive : trackAt heap p ≠ none) :
    trackAt (heap.set p (some t)) q = if q = p then some t else trackAt heap q := by
  have hlt : p < heap.length := by
    by_contra hge
    apply hlive
    simp [trackAt, List.getElem?_eq_none (Nat.le_of_not_lt hge)]
  unfold trackAt
  rw [List.getElem?_set]
  by_cases h : q = p
  · subst h; simp [hlt]
  · simp [h, Ne.symm h]

theorem trackAt_clearAssociatedCluster (heap : List (Option Track)) (p q : TrackPtr) :
    trackAt (clearAssociatedCluster heap p) q =
      if q = p then (trackAt heap p).map (fun t => { t with m_pAssociatedCluster := none })
      else trackAt heap q := by
  unfold clearAssociatedCluster
  cases ht : trackAt heap p with
  | none =>
    by_cases h : q = p
    · subst h; simp [ht]
    · simp [h]
  | some t =>
    simp only []
    rw [trackAt_set heap p q _ (by rw [ht]; simp)]
    simp

theorem trackAt_clearAssociatedClusters (l : TrackList) :
    ∀ (heap : List (Option Track)) (q : TrackPtr),
      trackAt (clearAssociatedClusters l heap) q =
        if q ∈ l then (trackAt heap q).map (fun t => { t with m_pAssociatedCluster := none })
        else trackAt heap q := by
  induction l with
  | nil => intro heap q; simp [clearAssociatedClusters]
  | cons p rest ih =>
    intro heap q
    simp only [clearAssociatedClusters]
    rw [ih, trackAt_clearAssociatedCluster]
    by_cases hq : q = p
    · subst hq
      cases ht : trackAt heap q <;> simp
    · by_cases hr : q ∈ rest <;> simp [hq, hr]

theorem associatedCluster_clearAssociatedClusters (l : TrackList) (heap : List (Option Track))
    (q : TrackPtr) :
    associatedCluster (clearAssociatedClusters l heap) q =
      if q ∈ l then none else associatedCluster heap q := by
  unfold associatedCluster
  rw [trackAt_clearAssociatedClusters]
  by_cases hq : q ∈ l
  · cases ht : trackAt heap q <;> simp [hq]
  · simp [hq]

/-! ## The frame of `ResetAlgorithmInfo` -/

/-- C17: for every state, `ResetAlgorithmInfo(pAlgorithm, isAlgorithmFinished)` returns
`STATUS_CODE_NOT_FOUND` and leaves the state unchanged when the algorithm is not registered.
When it is registered and all names of its temporary-name set (a set, so without repetition)
resolve, the call returns success; a name resolves afterwards exactly when it resolved before
and is not one of these temporary names, and then to the same list; the saved-name set, the
identity index, both ledgers and all track objects are unchanged; the current list name is the
recorded parent list; with the flag false the algorithm keeps its record with an empty
temporary-name set and unchanged parent list and counter, with the flag true its record is
removed; the records of all other algorithms are unchanged. -/
theorem ResetAlgorithmInfo_frame (m : TrackManager) (pAlgorithm : Algorithm)
    (isAlgorithmFinished : Bool) :
    (mapFind pAlgorithm m.m_algorithmInfoMap = none →
      ResetAlgorithmInfo m pAlgorithm isAlgorithmFinished = (STATUS_CODE_NOT_FOUND, m)) ∧
    (∀ info, mapFind pAlgorithm m.m_algorithmInfoMap = some info →
      info.m_temporaryListNames.Nodup →
      (∀ n ∈ info.m_temporaryListNames, mapFind n m.m_nameToTrackListMap ≠ none) →
      (ResetAlgorithmInfo m pAlgorithm isAlgorithmFinished).1 = STATUS_CODE_SUCCESS ∧
      (∀ k, mapFind k (ResetAlgorithmInfo m pAlgorithm isAlgorithmFinished).2.m_nameToTrackListMap
        = if k ∈ info.m_temporaryListNames then none else mapFind k m.m_nameToTrackListMap) ∧
      (ResetAlgorithmInfo m pAlgorithm isAlgorithmFinished).2.m_savedLists = m.m_savedLists ∧
      (ResetAlgorithmInfo m pAlgorithm isAlgorithmFinished).2.m_uidToTrackMap
        = m.m_uidToTrackMap ∧
      (ResetAlgorithmInfo m pAlgorithm isAlgorithmFinished).2.m_parentDaughterRelationMap
        = m.m_parentDaughterRelationMap ∧
      (ResetAlgorithmInfo m pAlgorithm isAlgorithmFinished).2.m_siblingRelationMap
        = m.m_siblingRelationMap ∧
      (ResetAlgorithmInfo m pAlgorithm isAlgorithmFinished).2.heap = m.heap ∧
      (ResetAlgorithmInfo m pAlgorithm isAlgorithmFinished).2.m_currentListName
        = info.m_parentListName ∧
      mapFind pAlgorithm (ResetAlgorithmInfo m pAlgorithm isAlgorithmFinished).2.m_algorithmInfoMap
        = (if isAlgorithmFinished then none
           else some { m_parentListName := info.m_parentListName
                       m_temporaryListNames := []
                       m_numberOfListsCreated := info.m_numberOfListsCreated }) ∧
      (∀ other, other ≠ pAlgorithm →
        mapFind other (ResetAlgorithmInfo m pAlgorithm isAlgorithmFinished).2.m_algorithmInfoMap
          = mapFind other m.m_algorithmInfoMap)) := by
  constructor
  · intro h; simp [ResetAlgorithmInfo, h]
  · intro info hinfo hnd hall
    have herase := eraseTemporaryLists_success _ _ hnd hall
    rw [ResetAlgorithmInfo_of_resolving m pAlgorithm isAlgorithmFinished info hinfo herase]
    refine ⟨rfl, ?_, rfl, rfl, rfl, rfl, rfl, rfl, ?_, ?_⟩
    · intro k; exact eraseTemporaryLists_find _ _ herase k
    · cases isAlgorithmFinished
      · simp [mapFind_mapReplace, hinfo]
      · simp [mapFind_mapErase]
    · intro other hne
      cases isAlgorithmFinished
      · simp [mapFind_mapReplace, hne]
      · simp [mapFind_mapErase, mapFind_mapReplace, hne]

/-- C17 (instance): algorithm 7 holds the temporary list "0x7_0" on a manager with one track; a
soft reset succeeds, removes that list, keeps the input list, restores "input" as the current
list and leaves algorithm 7 registered with no temporary name and its counter at 1. -/
theorem ResetAlgorithmInfo_frame_witness :
    (ResetAlgorithmInfo (runOperations oneTrackManager
      [.registerAlgorithm 7, .createTemporaryListAndSetCurrent 7 [0]]) 7 false).1
      = STATUS_CODE_SUCCESS ∧
    (∀ k, mapFind k (ResetAlgorithmInfo (runOperations oneTrackManager
        [.registerAlgorithm 7, .createTemporaryListAndSetCurrent 7 [0]]) 7
        false).2.m_nameToTrackListMap
      = if k ∈ ["0x7_0"] then none else mapFind k (runOperations oneTrackManager
        [.registerAlgorithm 7, .createTemporaryListAndSetCurrent 7 [0]]).m_nameToTrackListMap) ∧
    (ResetAlgorithmInfo (runOperations oneTrackManager
      [.registerAlgorithm 7, .createTemporaryListAndSetCurrent 7 [0]]) 7
      false).2.m_currentListName = "input" ∧
    mapFind 7 (ResetAlgorithmInfo (runOperations oneTrackManager
      [.registerAlgorithm 7, .createTemporaryListAndSetCurrent 7 [0]]) 7
      false).2.m_algorithmInfoMap
      = some { m_parentListName := "input", m_temporaryListNames := [],
               m_numberOfListsCreated := 1 } :=
  have h := (ResetAlgorithmInfo_frame (runOperations oneTrackManager
      [.registerAlgorithm 7, .createTemporaryListAndSetCurrent 7 [0]]) 7 false).2
    { m_parentListName := "input", m_temporaryListNames := ["0x7_0"],
      m_numberOfListsCreated := 1 }
    (by decide) (by decide) (by decide)
  ⟨h.1, h.2.1, h.2.2.2.2.2.2.2.1, h.2.2.2.2.2.2.2.2.1⟩

/-! ## Clearing associations -/

/-- C18: when the input list exists, `RemoveAllClusterAssociations` returns success and
afterwards every track of the input list has no associated cluster; without the input list it
returns `STATUS_CODE_FAILURE` and changes nothing.  `RemoveClusterAssociations(trackList)`
returns success, afterwards every track of `trackList` has no associated cluster and the
associated cluster of every track outside `trackList` is as before.  Both calls leave the list
registry, the saved-name set, the current list, the identity index, both ledgers and the
algorithm records unchanged, and every track object is, apart from its associated cluster, the
same object as before (its identifier and its parent, daughter and sibling links included). -/
theorem RemoveClusterAssociations_frame (m : TrackManager) (trackList : TrackList) :
    (∀ inputList, mapFind INPUT_LIST_NAME m.m_nameToTrackListMap = some inputList →
      (RemoveAllClusterAssociations m).1 = STATUS_CODE_SUCCESS ∧
      ∀ p ∈ inputList, associatedCluster (RemoveAllClusterAssociations m).2.heap p = none) ∧
    (mapFind INPUT_LIST_NAME m.m_nameToTrackListMap = none →
      RemoveAllClusterAssociations m = (STATUS_CODE_FAILURE, m)) ∧
    (RemoveClusterAssociations m trackList).1 = STATUS_CODE_SUCCESS ∧
    (∀ p ∈ trackList, associatedCluster (RemoveClusterAssociations m trackList).2.heap p = none) ∧
    (∀ p, p ∉ trackList →
      associatedCluster (RemoveClusterAssociations m trackList).2.heap p
        = associatedCluster m.heap p) ∧
    (∀ r ∈ [(RemoveAllClusterAssociations m).2, (RemoveClusterAssociations m trackList).2],
      r.m_nameToTrackListMap = m.m_nameToTrackListMap ∧
      r.m_savedLists = m.m_savedLists ∧
      r.m_currentListName = m.m_currentListName ∧
      r.m_uidToTrackMap = m.m_uidToTrackMap ∧
      r.m_parentDaughterRelationMap = m.m_parentDaughterRelationMap ∧
      r.m_siblingRelationMap = m.m_siblingRelationMap ∧
      r.m_algorithmInfoMap = m.m_algorithmInfoMap ∧
      ∀ p, (trackAt r.heap p).map (fun t => { t with m_pAssociatedCluster := none })
        = (trackAt m.heap p).map (fun t => { t with m_pAssociatedCluster := none })) := by
  have hlinks : ∀ (l : TrackList) (p : TrackPtr),
      (trackAt (clearAssociatedClusters l m.heap) p).map
          (fun t => { t with m_pAssociatedCluster := none })
        = (trackAt m.heap p).map (fun t => { t with m_pAssociatedCluster := none }) := by
    intro l p
    rw [trackAt_clearAssociatedClusters]
    by_cases hp : p ∈ l
    · cases ht : trackAt m.heap p <;> simp [hp]
    · simp [hp]
  refine ⟨?_, ?_, rfl, ?_, ?_, ?_⟩
  · intro inputList hl
    simp only [RemoveAllClusterAssociations, hl]
    refine ⟨trivial, ?_⟩
    intro p hp
    rw [associatedCluster_clearAssociatedClusters]
    simp [hp]
  · intro h; simp [RemoveAllClusterAssociations, h]
  · intro p hp
    simp only [RemoveClusterAssociations]
    rw [associatedCluster_clearAssociatedClusters]
    simp [hp]
  · intro p hp
    simp only [RemoveClusterAssociations]
    rw [associatedCluster_clearAssociatedClusters]
    simp [hp]
  · intro r hr
    simp only [List.mem_cons, List.mem_singleton, List.not_mem_nil, or_false] at hr
    rcases hr with h | h
    · subst h
      cases hl : mapFind INPUT_LIST_NAME m.m_nameToTrackListMap with
      | none => simp [RemoveAllClusterAssociations, hl]
      | some inputList =>
        simp only [RemoveAllClusterAssociations, hl]
        exact ⟨trivial, trivial, trivial, trivial, trivial, trivial, trivial, hlinks inputList⟩
    · subst h
      simp only [RemoveClusterAssociations]
      exact ⟨trivial, trivial, trivial, trivial, trivial, trivial, trivial, hlinks trackList⟩

/-- C18 (instance): track 0 of the input list is associated with cluster 10;
`RemoveAllClusterAssociations` succeeds and clears the link, and so does
`RemoveClusterAssociations` on the list [0]. -/
theorem RemoveClusterAssociations_frame_witness :
    associatedCluster (SetAssociatedCluster oneTrackManager 0 10).heap 0 = some 10 ∧
    (RemoveAllClusterAssociations (SetAssociatedCluster oneTrackManager 0 10)).1
      = STATUS_CODE_SUCCESS ∧
    (∀ p ∈ [0], associatedCluster
      (RemoveAllClusterAssociations (SetAssociatedCluster oneTrackManager 0 10)).2.heap p
        = none) ∧
    (∀ p ∈ [0], associatedCluster
      (RemoveClusterAssociations (SetAssociatedCluster oneTrackManager 0 10) [0]).2.heap p
        = none) :=
  have h := RemoveClusterAssociations_frame (SetAssociatedCluster oneTrackManager 0 10) [0]
  ⟨by decide, (h.1 [0] (by decide)).1, (h.1 [0] (by decide)).2, h.2.2.2.1⟩

/-! ## Extracting the associations of the current list -/

theorem associatedCluster_clearAssociatedCluster (heap : List (Option Track)) (p q : TrackPtr) :
    associatedCluster (clearAssociatedCluster heap p) q =
      if q = p then none else associatedCluster heap q := by
  unfold associatedCluster
  rw [trackAt_clearAssociatedCluster]
  by_cases hq : q = p
  · subst hq; cases ht : trackAt heap q <;> simp
  · simp [hq]

theorem removeCurrentLoop_spec (l : TrackList) :
    ∀ (heap : List (Option Track)) (d : List (TrackPtr × ClusterPtr)),
      (∀ q c, mapFind q d = some c → associatedCluster heap q = none) →
      (removeCurrentLoop l heap d).1 = STATUS_CODE_SUCCESS ∧
      (∀ q, trackAt (removeCurrentLoop l heap d).2.1 q =
        if q ∈ l then (trackAt heap q).map (fun t => { t with m_pAssociatedCluster := none })
        else trackAt heap q) ∧
      (∀ q, mapFind q (removeCurrentLoop l heap d).2.2 =
        match mapFind q d with
        | some c => some c
        | none => if q ∈ l then associatedCluster heap q else none) := by
  induction l with
  | nil =>
    intro heap d _
    refine ⟨rfl, fun q => by simp [removeCurrentLoop], fun q => ?_⟩
    cases hd : mapFind q d <;> simp [removeCurrentLoop, hd]
  | cons p rest ih =>
    intro heap d hinv
    cases ha : associatedCluster heap p with
    | none =>
      obtain ⟨h1, h2, h3⟩ := ih heap d hinv
      simp only [removeCurrentLoop, ha]
      refine ⟨h1, fun q => ?_, fun q => ?_⟩
      · rw [h2 q]
        by_cases hq : q = p
        · subst hq
          by_cases hr : q ∈ rest
          · simp [hr]
          · simp only [hr, if_false, List.mem_cons, true_or, if_true]
            cases ht : trackAt heap q with
            | none => rfl
            | some t =>
              have : t.m_pAssociatedCluster = none := by
                simpa [associatedCluster, ht] using ha
              cases t
              simp_all
        · by_cases hr : q ∈ rest <;> simp [hq, hr]
      · rw [h3 q]
        cases hd : mapFind q d with
        | some c => rfl
        | none =>
          by_cases hq : q = p
          · subst hq
            by_cases hr : q ∈ rest <;> simp [hr, ha]
          · by_cases hr : q ∈ rest <;> simp [hq, hr]
    | some c =>
      have hnone : mapFind p d = none := by
        cases hd : mapFind p d with
        | none => rfl
        | some c' => rw [hinv p c' hd] at ha; cases ha
      have hins : mapInsert natLess p c d
          = (orderedPut (fun a b => natLess a.1 b.1) (p, c) d, true) := by
        simp [mapInsert, hnone]
      obtain ⟨h1, h2, h3⟩ := ih (clearAssociatedCluster heap p)
        (orderedPut (fun a b => natLess a.1 b.1) (p, c) d)
        (by
          intro q c' hq
          rw [associatedCluster_clearAssociatedCluster]
          by_cases hqp : q = p
          · simp [hqp]
          · simp only [hqp, if_false]
            rw [mapFind_orderedPut_ne _ _ _ _ _ hqp] at hq
            exact hinv q c' hq)
      simp only [removeCurrentLoop, ha, hins, Bool.not_true, Bool.false_eq_true, if_false]
      refine ⟨h1, fun q => ?_, fun q => ?_⟩
      · rw [h2 q, trackAt_clearAssociatedCluster]
        by_cases hq : q = p
        · subst hq
          by_cases hr : q ∈ rest <;> cases ht : trackAt heap q <;> simp [hr]
        · by_cases hr : q ∈ rest <;> simp [hq, hr]
      · rw [h3 q]
        by_cases hq : q = p
        · subst hq
          rw [mapFind_orderedPut_self _ _ _ _ hnone, hnone]
          simp [ha]
        · rw [mapFind_orderedPut_ne _ _ _ _ _ hq, associatedCluster_clearAssociatedCluster]
          cases hd : mapFind q d with
          | some c' => rfl
          | none => by_cases hr : q ∈ rest <;> simp [hq, hr]

/-- C16: for every state in which the current list resolves, `RemoveCurrentClusterAssociations`
called with an empty output map returns success; the returned map holds the entry (t, c)
exactly for the tracks t of the current list whose associated cluster before the call was c;
after the call every track of the current list has no associated cluster; the associated
cluster of every track outside the current list is as before, and the list registry, the
saved-name set, the current list name, the identity index, both ledgers and the algorithm
records are unchanged. -/
theorem RemoveCurrentClusterAssociations_extracts (m : TrackManager) (currentList : TrackList)
    (hcurrent : mapFind m.m_currentListName m.m_nameToTrackListMap = some currentList) :
    (RemoveCurrentClusterAssociations m []).1 = STATUS_CODE_SUCCESS ∧
    (∀ t c, mapFind t (RemoveCurrentClusterAssociations m []).2.1 = some c ↔
      t ∈ currentList ∧ associatedCluster m.heap t = some c) ∧
    (∀ t ∈ currentList,
      associatedCluster (RemoveCurrentClusterAssociations m []).2.2.heap t = none) ∧
    (∀ t, t ∉ currentList →
      associatedCluster (RemoveCurrentClusterAssociations m []).2.2.heap t
        = associatedCluster m.heap t) ∧
    (RemoveCurrentClusterAssociations m []).2.2.m_nameToTrackListMap = m.m_nameToTrackListMap ∧
    (RemoveCurrentClusterAssociations m []).2.2.m_savedLists = m.m_savedLists ∧
    (RemoveCurrentClusterAssociations m []).2.2.m_currentListName = m.m_currentListName ∧
    (RemoveCurrentClusterAssociations m []).2.2.m_uidToTrackMap = m.m_uidToTrackMap ∧
    (RemoveCurrentClusterAssociations m []).2.2.m_parentDaughterRelationMap
      = m.m_parentDaughterRelationMap ∧
    (RemoveCurrentClusterAssociations m []).2.2.m_siblingRelationMap = m.m_siblingRelationMap ∧
    (RemoveCurrentClusterAssociations m []).2.2.m_algorithmInfoMap = m.m_algorithmInfoMap := by
  obtain ⟨h1, h2, h3⟩ := removeCurrentLoop_spec currentList m.heap []
    (by intro q c hq; simp [mapFind] at hq)
  simp only [RemoveCurrentClusterAssociations, hcurrent]
  refine ⟨h1, ?_, ?_, ?_, trivial, trivial, trivial, trivial, trivial, trivial, trivial⟩
  · intro t c
    rw [h3 t]
    by_cases ht : t ∈ currentList <;> simp [mapFind, ht]
  · intro t ht
    simp only [associatedCluster, h2 t, ht, if_true]
    cases trackAt m.heap t <;> simp
  · intro t ht
    simp only [associatedCluster, h2 t, ht, if_false]

/-- C16 (instance): track 0, the only track of the current list "input", is associated with
cluster 10; the call with an empty map succeeds, returns the map {0: 10} and leaves track 0
without an associated cluster. -/
theorem RemoveCurrentClusterAssociations_extracts_witness :
    (RemoveCurrentClusterAssociations (SetAssociatedCluster oneTrackManager 0 10) []).1
      = STATUS_CODE_SUCCESS ∧
    (RemoveCurrentClusterAssociations (SetAssociatedCluster oneTrackManager 0 10) []).2.1
      = [(0, 10)] ∧
    (∀ t ∈ [0], associatedCluster
      (RemoveCurrentClusterAssociations (SetAssociatedCluster oneTrackManager 0 10) []).2.2.heap t
        = none) :=
  have h := RemoveCurrentClusterAssociations_extracts (SetAssociatedCluster oneTrackManager 0 10)
    [0] (by decide)
  ⟨h.1, by decide, h.2.2.1⟩

/-- C19: tracks 0 and 1 of the current list "input" are associated with clusters 10 and 11 and
the caller's map already holds the entry (1, 12).  `RemoveCurrentClusterAssociations` returns
`STATUS_CODE_FAILURE` at track 1, after it has entered (0, 10) in the map and cleared the link
of track 0: the associated cluster of track 0 and the output map both differ from what they were
before the call. -/
theorem RemoveCurrentClusterAssociations_failure_commits_evaluation :
    associatedCluster (SetAssociatedCluster (SetAssociatedCluster
      (CreateTracks freshManager [⟨1, none⟩, ⟨2, none⟩]).2 0 10) 1 11).heap 0 = some 10 ∧
    (RemoveCurrentClusterAssociations (SetAssociatedCluster (SetAssociatedCluster
      (CreateTracks freshManager [⟨1, none⟩, ⟨2, none⟩]).2 0 10) 1 11) [(1, 12)]).1
      = STATUS_CODE_FAILURE ∧
    associatedCluster (RemoveCurrentClusterAssociations (SetAssociatedCluster
      (SetAssociatedCluster (CreateTracks freshManager [⟨1, none⟩, ⟨2, none⟩]).2 0 10) 1 11)
      [(1, 12)]).2.2.heap 0 = none ∧
    (RemoveCurrentClusterAssociations (SetAssociatedCluster (SetAssociatedCluster
      (CreateTracks freshManager [⟨1, none⟩, ⟨2, none⟩]).2 0 10) 1 11) [(1, 12)]).2.1
      = [(0, 10), (1, 12)] := by
  decide

/-! ## Resolution of the recorded relationships -/

theorem addParentDaughterLoop_filter (uidToTrackMap : List (Uid × TrackPtr))
    (ledger : List (Uid × Uid)) :
    ∀ heap, addParentDaughterLoop uidToTrackMap ledger heap
      = addParentDaughterLoop uidToTrackMap (ledger.filter (resolvable uidToTrackMap)) heap := by
  induction ledger with
  | nil => intro heap; rfl
  | cons pair rest ih =>
    intro heap
    obtain ⟨pu, du⟩ := pair
    cases hp : mapFind pu uidToTrackMap with
    | none => simp [List.filter_cons, resolvable, hp, addParentDaughterLoop, ← ih]
    | some pp =>
      cases hd : mapFind du uidToTrackMap with
      | none => simp [List.filter_cons, resolvable, hp, hd, addParentDaughterLoop, ← ih]
      | some dp =>
        simp only [List.filter_cons, resolvable, hp, hd, addParentDaughterLoop,
          Option.isSome_some, Bool.and_self, if_true]
        rw [← ih]

theorem addSiblingLoop_filter (uidToTrackMap : List (Uid × TrackPtr))
    (ledger : List (Uid × Uid)) :
    ∀ heap, addSiblingLoop uidToTrackMap ledger heap
      = addSiblingLoop uidToTrackMap (ledger.filter (resolvable uidToTrackMap)) heap := by
  induction ledger with
  | nil => intro heap; rfl
  | cons pair rest ih =>
    intro heap
    obtain ⟨pu, du⟩ := pair
    cases hp : mapFind pu uidToTrackMap with
    | none => simp [List.filter_cons, resolvable, hp, addSiblingLoop, ← ih]
    | some pp =>
      cases hd : mapFind du uidToTrackMap with
      | none => simp [List.filter_cons, resolvable, hp, hd, addSiblingLoop, ← ih]
      | some dp =>
        simp only [List.filter_cons, resolvable, hp, hd, addSiblingLoop,
          Option.isSome_some, Bool.and_self, if_true]
        rw [← ih]

/-- C14: for every state, the recorded parent/daughter and sibling pairs with an identifier
that is absent from the identity index have no part in `AssociateTracks`: the status code and
the track objects after the call are those of the same call on the ledgers without these pairs,
so no link-adding operation is invoked for them.  When every recorded pair has an absent
identifier, `AssociateTracks` returns success and leaves the state, all links of all tracks
included, unchanged. -/
theorem AssociateTracks_skips_unresolvable (m : TrackManager) :
    (AssociateTracks m).1
      = (AssociateTracks { m with
          m_parentDaughterRelationMap :=
            m.m_parentDaughterRelationMap.filter (resolvable m.m_uidToTrackMap)
          m_siblingRelationMap :=
            m.m_siblingRelationMap.filter (resolvable m.m_uidToTrackMap) }).1 ∧
    (AssociateTracks m).2.heap
      = (AssociateTracks { m with
          m_parentDaughterRelationMap :=
            m.m_parentDaughterRelationMap.filter (resolvable m.m_uidToTrackMap)
          m_siblingRelationMap :=
            m.m_siblingRelationMap.filter (resolvable m.m_uidToTrackMap) }).2.heap ∧
    ((∀ pair ∈ m.m_parentDaughterRelationMap, resolvable m.m_uidToTrackMap pair = false) →
      (∀ pair ∈ m.m_siblingRelationMap, resolvable m.m_uidToTrackMap pair = false) →
      AssociateTracks m = (STATUS_CODE_SUCCESS, m)) := by
  have hA : ∀ m' : TrackManager, AssociateTracks m' =
      if (addParentDaughterLoop m'.m_uidToTrackMap m'.m_parentDaughterRelationMap m'.heap).1
          ≠ STATUS_CODE_SUCCESS then
        ((addParentDaughterLoop m'.m_uidToTrackMap m'.m_parentDaughterRelationMap m'.heap).1,
          { m' with heap :=
            (addParentDaughterLoop m'.m_uidToTrackMap m'.m_parentDaughterRelationMap
              m'.heap).2 })
      else if (addSiblingLoop m'.m_uidToTrackMap m'.m_siblingRelationMap
          (addParentDaughterLoop m'.m_uidToTrackMap m'.m_parentDaughterRelationMap
            m'.heap).2).1 ≠ STATUS_CODE_SUCCESS then
        ((addSiblingLoop m'.m_uidToTrackMap m'.m_siblingRelationMap
          (addParentDaughterLoop m'.m_uidToTrackMap m'.m_parentDaughterRelationMap
            m'.heap).2).1,
          { m' with heap :=
            (addSiblingLoop m'.m_uidToTrackMap m'.m_siblingRelationMap
              (addParentDaughterLoop m'.m_uidToTrackMap m'.m_parentDaughterRelationMap
                m'.heap).2).2 })
      else
        (STATUS_CODE_SUCCESS,
          { m' with heap :=
            (addSiblingLoop m'.m_uidToTrackMap m'.m_siblingRelationMap
              (addParentDaughterLoop m'.m_uidToTrackMap m'.m_parentDaughterRelationMap
                m'.heap).2).2 }) := by
    intro m'
    simp only [AssociateTracks, AddParentDaughterAssociations, AddSiblingAssociations]
  refine ⟨?_, ?_, ?_⟩
  · rw [hA m, hA]
    simp only []
    rw [← addParentDaughterLoop_filter, ← addSiblingLoop_filter]
    split
    · rfl
    · split <;> rfl
  · rw [hA m, hA]
    simp only []
    rw [← addParentDaughterLoop_filter, ← addSiblingLoop_filter]
    split
    · rfl
    · split <;> rfl
  · intro hpd hsib
    have e1 : m.m_parentDaughterRelationMap.filter (resolvable m.m_uidToTrackMap) = [] :=
      List.filter_eq_nil_iff.mpr (fun pair hmem => by simp [hpd pair hmem])
    have e2 : m.m_siblingRelationMap.filter (resolvable m.m_uidToTrackMap) = [] :=
      List.filter_eq_nil_iff.mpr (fun pair hmem => by simp [hsib pair hmem])
    rw [hA m, addParentDaughterLoop_filter, e1]
    simp only [addParentDaughterLoop]
    rw [addSiblingLoop_filter, e2]
    simp [addSiblingLoop]

/-- C14 (instance): track 0 carries identifier 1 and the pair (1, 2) is recorded as parent and
daughter, identifier 2 never having been created; `AssociateTracks` returns success and leaves
the state unchanged. -/
theorem AssociateTracks_skips_unresolvable_witness :
    AssociateTracks (SetTrackParentDaughterRelationship oneTrackManager 1 2).2
      = (STATUS_CODE_SUCCESS, (SetTrackParentDaughterRelationship oneTrackManager 1 2).2) :=
  (AssociateTracks_skips_unresolvable (SetTrackParentDaughterRelationship oneTrackManager 1 2).2
    ).2.2 (by decide) (by decide)

theorem mem_setInsert {α : Type} [DecidableEq α] (less : α → α → Bool) (x y : α) (l : List α) :
    y ∈ (setInsert less x l).1 ↔ y = x ∨ y ∈ l := by
  unfold setInsert
  by_cases h : x ∈ l
  · simp only [h, if_true]
    constructor
    · exact Or.inr
    · rintro (rfl | h') <;> assumption
  · simp only [h, if_false]
    exact mem_orderedPut less x y l

theorem Track.AddDaughter_links (t : Track) (q : TrackPtr) (k : LinkKind) (y : TrackPtr) :
    y ∈ ((t.AddDaughter q).2).links k ↔ y ∈ t.links k ∨ (k = .daughter ∧ y = q ∧
      (t.AddDaughter q).1 = STATUS_CODE_SUCCESS) := by
  unfold Track.AddDaughter
  by_cases h : q ∈ t.m_daughterTrackList
  · simp [setInsert, h]
  · cases k <;> simp [setInsert, h, Track.links, mem_orderedPut, or_comm]

theorem Track.AddParent_links (t : Track) (q : TrackPtr) (k : LinkKind) (y : TrackPtr) :
    y ∈ ((t.AddParent q).2).links k ↔ y ∈ t.links k ∨ (k = .parent ∧ y = q ∧
      (t.AddParent q).1 = STATUS_CODE_SUCCESS) := by
  unfold Track.AddParent
  by_cases h : q ∈ t.m_parentTrackList
  · simp [setInsert, h]
  · cases k <;> simp [setInsert, h, Track.links, mem_orderedPut, or_comm]

theorem Track.AddSibling_links (t : Track) (q : TrackPtr) (k : LinkKind) (y : TrackPtr) :
    y ∈ ((t.AddSibling q).2).links k ↔ y ∈ t.links k ∨ (k = .sibling ∧ y = q ∧
      (t.AddSibling q).1 = STATUS_CODE_SUCCESS) := by
  unfold Track.AddSibling
  by_cases h : q ∈ t.m_siblingTrackList
  · simp [setInsert, h]
  · cases k <;> simp [setInsert, h, Track.links, mem_orderedPut, or_comm]

theorem hasLink_callOnTrack (heap : List (Option Track)) (p q : TrackPtr) (k0 : LinkKind)
    (f : Track → StatusCode × Track)
    (hf : ∀ t k y, y ∈ ((f t).2).links k ↔
      y ∈ t.links k ∨ (k = k0 ∧ y = q ∧ (f t).1 = STATUS_CODE_SUCCESS))
    (hs : (callOnTrack heap p f).1 = STATUS_CODE_SUCCESS) (k : LinkKind) (x y : TrackPtr) :
    hasLink (callOnTrack heap p f).2 k x y ↔
      hasLink heap k x y ∨ (k = k0 ∧ x = p ∧ y = q) := by
  unfold callOnTrack at hs ⊢
  cases ht : trackAt heap p with
  | none => simp [ht] at hs
  | some t =>
    simp only [ht] at hs ⊢
    unfold hasLink
    by_cases hx : x = p
    · subst hx
      simp only [trackAt_set heap x x _ (by rw [ht]; simp), if_true, ht, Option.some.injEq,
        exists_eq_left']
      rw [hf t k y]
      simp [hs]
    · simp only [trackAt_set heap p x _ (by rw [ht]; simp), hx, if_false, false_and, and_false,
        or_false]

theorem addParentDaughterLoop_links (uidToTrackMap : List (Uid × TrackPtr))
    (ledger : List (Uid × Uid)) :
    ∀ heap, (addParentDaughterLoop uidToTrackMap ledger heap).1 = STATUS_CODE_SUCCESS →
      ∀ k x y, hasLink (addParentDaughterLoop uidToTrackMap ledger heap).2 k x y ↔
        hasLink heap k x y ∨
        (k = .daughter ∧ ∃ pair ∈ ledger,
          mapFind pair.1 uidToTrackMap = some x ∧ mapFind pair.2 uidToTrackMap = some y) ∨
        (k = .parent ∧ ∃ pair ∈ ledger,
          mapFind pair.1 uidToTrackMap = some y ∧ mapFind pair.2 uidToTrackMap = some x) := by
  induction ledger with
  | nil => intro heap _ k x y; simp [addParentDaughterLoop]
  | cons pair rest ih =>
    intro heap hs k x y
    obtain ⟨pu, du⟩ := pair
    cases hp : mapFind pu uidToTrackMap with
    | none =>
      simp only [addParentDaughterLoop, hp] at hs ⊢
      rw [ih heap hs k x y]
      simp [hp]
    | some pp =>
      cases hd : mapFind du uidToTrackMap with
      | none =>
        simp only [addParentDaughterLoop, hp, hd] at hs ⊢
        rw [ih heap hs k x y]
        simp [hp, hd]
      | some dp =>
        simp only [addParentDaughterLoop, hp, hd] at hs ⊢
        by_cases h1 : (callOnTrack heap pp (fun t => t.AddDaughter dp)).1 = STATUS_CODE_SUCCESS
        · by_cases h2 : (callOnTrack (callOnTrack heap pp (fun t => t.AddDaughter dp)).2 dp
              (fun t => t.AddParent pp)).1 = STATUS_CODE_SUCCESS
          · simp only [h1, h2, ne_eq, not_true_eq_false, if_false] at hs ⊢
            rw [ih _ hs k x y,
              hasLink_callOnTrack _ dp pp .parent _ (fun t k y => Track.AddParent_links t pp k y)
                h2 k x y,
              hasLink_callOnTrack _ pp dp .daughter _
                (fun t k y => Track.AddDaughter_links t dp k y) h1 k x y]
            simp only [List.mem_cons, exists_eq_or_imp, hp, hd, Option.some.injEq]
            constructor
            · rintro (((h | ⟨hk, hx, hy⟩) | ⟨hk, hx, hy⟩) | ⟨hk, h⟩ | ⟨hk, h⟩)
              · exact Or.inl h
              · exact Or.inr (Or.inl ⟨hk, Or.inl ⟨hx.symm, hy.symm⟩⟩)
              · exact Or.inr (Or.inr ⟨hk, Or.inl ⟨hy.symm, hx.symm⟩⟩)
              · exact Or.inr (Or.inl ⟨hk, Or.inr h⟩)
              · exact Or.inr (Or.inr ⟨hk, Or.inr h⟩)
            · rintro (h | ⟨hk, ⟨hx, hy⟩ | h⟩ | ⟨hk, ⟨hy, hx⟩ | h⟩)
              · exact Or.inl (Or.inl (Or.inl h))
              · exact Or.inl (Or.inl (Or.inr ⟨hk, hx.symm, hy.symm⟩))
              · exact Or.inr (Or.inl ⟨hk, h⟩)
              · exact Or.inl (Or.inr ⟨hk, hx.symm, hy.symm⟩)
              · exact Or.inr (Or.inr ⟨hk, h⟩)
          · simp [h1, h2] at hs
        · simp [h1] at hs

theorem addSiblingLoop_links (uidToTrackMap : List (Uid × TrackPtr))
    (ledger : List (Uid × Uid)) :
    ∀ heap, (addSiblingLoop uidToTrackMap ledger heap).1 = STATUS_CODE_SUCCESS →
      ∀ k x y, hasLink (addSiblingLoop uidToTrackMap ledger heap).2 k x y ↔
        hasLink heap k x y ∨
        (k = .sibling ∧ ∃ pair ∈ ledger,
          (mapFind pair.1 uidToTrackMap = some x ∧ mapFind pair.2 uidToTrackMap = some y) ∨
          (mapFind pair.1 uidToTrackMap = some y ∧ mapFind pair.2 uidToTrackMap = some x)) := by
  induction ledger with
  | nil => intro heap _ k x y; simp [addSiblingLoop]
  | cons pair rest ih =>
    intro heap hs k x y
    obtain ⟨pu, du⟩ := pair
    cases hp : mapFind pu uidToTrackMap with
    | none =>
      simp only [addSiblingLoop, hp] at hs ⊢
      rw [ih heap hs k x y]
      simp [hp]
    | some pp =>
      cases hd : mapFind du uidToTrackMap with
      | none =>
        simp only [addSiblingLoop, hp, hd] at hs ⊢
        rw [ih heap hs k x y]
        simp [hp, hd]
      | some dp =>
        simp only [addSiblingLoop, hp, hd] at hs ⊢
        by_cases h1 : (callOnTrack heap pp (fun t => t.AddSibling dp)).1 = STATUS_CODE_SUCCESS
        · by_cases h2 : (callOnTrack (callOnTrack heap pp (fun t => t.AddSibling dp)).2 dp
              (fun t => t.AddSibling pp)).1 = STATUS_CODE_SUCCESS
          · simp only [h1, h2, ne_eq, not_true_eq_false, if_false] at hs ⊢
            rw [ih _ hs k x y,
              hasLink_callOnTrack _ dp pp .sibling _
                (fun t k y => Track.AddSibling_links t pp k y) h2 k x y,
              hasLink_callOnTrack _ pp dp .sibling _
                (fun t k y => Track.AddSibling_links t dp k y) h1 k x y]
            simp only [List.mem_cons, exists_eq_or_imp, hp, hd, Option.some.injEq]
            constructor
            · rintro (((h | ⟨hk, hx, hy⟩) | ⟨hk, hx, hy⟩) | ⟨hk, h⟩)
              · exact Or.inl h
              · exact Or.inr ⟨hk, Or.inl (Or.inl ⟨hx.symm, hy.symm⟩)⟩
              · exact Or.inr ⟨hk, Or.inl (Or.inr ⟨hy.symm, hx.symm⟩)⟩
              · exact Or.inr ⟨hk, Or.inr h⟩
            · rintro (h | ⟨hk, (⟨hx, hy⟩ | ⟨hy, hx⟩) | h⟩)
              · exact Or.inl (Or.inl (Or.inl h))
              · exact Or.inl (Or.inl (Or.inr ⟨hk, hx.symm, hy.symm⟩))
              · exact Or.inl (Or.inr ⟨hk, hx.symm, hy.symm⟩)
              · exact Or.inr ⟨hk, h⟩
          · simp [h1, h2] at hs
        · simp [h1] at hs

theorem not_hasLink_of_noLinks (heap : List (Option Track)) (h : noLinks heap = true)
    (k : LinkKind) (x y : TrackPtr) : ¬ hasLink heap k x y := by
  rintro ⟨t, ht, hy⟩
  have hmem : some t ∈ heap := by
    unfold trackAt at ht
    cases hx : heap[x]? with
    | none => simp [hx] at ht
    | some o =>
      cases o with
      | none => simp [hx] at ht
      | some t' =>
        simp only [hx, Option.some.injEq] at ht
        subst ht
        exact List.getElem?_mem hx
  have hall := List.all_eq_true.mp h (some t) hmem
  simp only [Bool.and_eq_true, List.isEmpty_iff] at hall
  cases k
  · simp [Track.links, hall.1.1] at hy
  · simp [Track.links, hall.1.2] at hy
  · simp [Track.links, hall.2] at hy

theorem AssociateTracks_success (m : TrackManager)
    (hs : (AssociateTracks m).1 = STATUS_CODE_SUCCESS) :
    (addParentDaughterLoop m.m_uidToTrackMap m.m_parentDaughterRelationMap m.heap).1
      = STATUS_CODE_SUCCESS ∧
    (addSiblingLoop m.m_uidToTrackMap m.m_siblingRelationMap
      (addParentDaughterLoop m.m_uidToTrackMap m.m_parentDaughterRelationMap m.heap).2).1
      = STATUS_CODE_SUCCESS ∧
    (AssociateTracks m).2.heap
      = (addSiblingLoop m.m_uidToTrackMap m.m_siblingRelationMap
          (addParentDaughterLoop m.m_uidToTrackMap m.m_parentDaughterRelationMap m.heap).2).2 := by
  simp only [AssociateTracks, AddParentDaughterAssociations, AddSiblingAssociations] at hs ⊢
  by_cases h1 : (addParentDaughterLoop m.m_uidToTrackMap m.m_parentDaughterRelationMap
      m.heap).1 = STATUS_CODE_SUCCESS
  · by_cases h2 : (addSiblingLoop m.m_uidToTrackMap m.m_siblingRelationMap
        (addParentDaughterLoop m.m_uidToTrackMap m.m_parentDaughterRelationMap m.heap).2).1
        = STATUS_CODE_SUCCESS
    · simp [h1, h2]
    · simp [h1, h2] at hs
  · simp [h1] at hs

/-- C15: when no track holds a link and `AssociateTracks`, with link-adding operations that
insert into a set and reject a link already present, returns success, then afterwards the track
at x has the track at y as a daughter exactly when a recorded parent/daughter pair resolves to
(x, y) in the identity index, as a parent exactly when a recorded parent/daughter pair resolves
to (y, x), and as a sibling exactly when a recorded sibling pair resolves to (x, y) or to
(y, x): every recorded pair with both identifiers in the index is linked in both directions and
no other link exists. -/
theorem AssociateTracks_links (m : TrackManager) (hno : noLinks m.heap = true)
    (hs : (AssociateTracks m).1 = STATUS_CODE_SUCCESS) (x y : TrackPtr) :
    (hasLink (AssociateTracks m).2.heap .daughter x y ↔
      ∃ pair ∈ m.m_parentDaughterRelationMap,
        mapFind pair.1 m.m_uidToTrackMap = some x ∧ mapFind pair.2 m.m_uidToTrackMap = some y) ∧
    (hasLink (AssociateTracks m).2.heap .parent x y ↔
      ∃ pair ∈ m.m_parentDaughterRelationMap,
        mapFind pair.1 m.m_uidToTrackMap = some y ∧ mapFind pair.2 m.m_uidToTrackMap = some x) ∧
    (hasLink (AssociateTracks m).2.heap .sibling x y ↔
      ∃ pair ∈ m.m_siblingRelationMap,
        (mapFind pair.1 m.m_uidToTrackMap = some x ∧
          mapFind pair.2 m.m_uidToTrackMap = some y) ∨
        (mapFind pair.1 m.m_uidToTrackMap = some y ∧
          mapFind pair.2 m.m_uidToTrackMap = some x)) := by
  obtain ⟨h1, h2, h3⟩ := AssociateTracks_success m hs
  have hnone := not_hasLink_of_noLinks m.heap hno
  rw [h3]
  refine ⟨?_, ?_, ?_⟩
  · rw [addSiblingLoop_links _ _ _ h2, addParentDaughterLoop_links _ _ _ h1]
    simp [hnone]
  · rw [addSiblingLoop_links _ _ _ h2, addParentDaughterLoop_links _ _ _ h1]
    simp [hnone]
  · rw [addSiblingLoop_links _ _ _ h2, addParentDaughterLoop_links _ _ _ h1]
    simp [hnone]

/-- C15 (instance): tracks 1, 2, 3 at addresses 0, 1, 2, parent/daughter (1, 2), sibling (2, 3):
`AssociateTracks` returns success; track 1 has the single daughter track 2, track 2 has the
single parent track 1 and the single sibling track 3, track 3 has the single sibling track 2,
and there is no other link. -/
theorem AssociateTracks_links_witness :
    (AssociateTracks threeTrackManager).1 = STATUS_CODE_SUCCESS ∧
    (hasLink (AssociateTracks threeTrackManager).2.heap .daughter 0 1 ↔
      ∃ pair ∈ threeTrackManager.m_parentDaughterRelationMap,
        mapFind pair.1 threeTrackManager.m_uidToTrackMap = some 0 ∧
        mapFind pair.2 threeTrackManager.m_uidToTrackMap = some 1) ∧
    (AssociateTracks threeTrackManager).2.heap =
      [some ⟨1, none, [], [1], []⟩, some ⟨2, none, [0], [], [2]⟩, some ⟨3, none, [], [], [1]⟩] :=
  ⟨by decide,
    (AssociateTracks_links threeTrackManager (by decide) (by decide) 0 1).1,
    by decide⟩

/-! ## Saved lists are copies -/

theorem eraseTemporaryLists_find_of_not_mem (names : List String) :
    ∀ (registry : List (String × TrackList)) (k : String), k ∉ names →
      mapFind k (eraseTemporaryLists names registry).2 = mapFind k registry := by
  induction names with
  | nil => intro registry k _; rfl
  | cons n ns ih =>
    intro registry k hk
    have hne : k ≠ n := fun h => hk (by simp [h])
    have hns : k ∉ ns := fun h => hk (by simp [h])
    cases hf : mapFind n registry with
    | none => simp [eraseTemporaryLists, hf]
    | some l =>
      simp only [eraseTemporaryLists, hf]
      rw [ih _ k hns, mapFind_mapErase]
      simp [hne]

theorem ManagerOperation.apply_registry_of_list_free (m : TrackManager) :
    ∀ op : ManagerOperation, (∀ o, op ≠ .list o) →
      (op.apply m).m_nameToTrackListMap = m.m_nameToTrackListMap ∧
      (op.apply m).m_algorithmInfoMap = m.m_algorithmInfoMap ∧
      (op.apply m).m_savedLists = m.m_savedLists ∧
      (op.apply m).m_currentListName = m.m_currentListName ∧
      (op.apply m).m_uidToTrackMap = m.m_uidToTrackMap := by
  intro op hop
  cases op with
  | list o => exact absurd rfl (hop o)
  | setTrackParentDaughterRelationship p d =>
    simp [ManagerOperation.apply, SetTrackParentDaughterRelationship]
  | setTrackSiblingRelationship a b =>
    simp [ManagerOperation.apply, SetTrackSiblingRelationship]
  | associateTracks =>
    simp only [ManagerOperation.apply, AssociateTracks, AddParentDaughterAssociations,
      AddSiblingAssociations]
    split
    · simp
    · split <;> simp
  | removeAllClusterAssociations =>
    simp only [ManagerOperation.apply, RemoveAllClusterAssociations]
    split <;> simp
  | removeCurrentClusterAssociations d =>
    simp only [ManagerOperation.apply, RemoveCurrentClusterAssociations]
    split <;> simp
  | removeClusterAssociations l =>
    simp [ManagerOperation.apply, RemoveClusterAssociations]
  | setAssociatedCluster p c =>
    simp only [ManagerOperation.apply, SetAssociatedCluster]
    split <;> simp

theorem ManagerOperation.apply_keeps_list (m : TrackManager) (n : String) (l : TrackList)
    (op : ManagerOperation) (hn : mapFind n m.m_nameToTrackListMap = some l)
    (hop : op.writesList m n = false) :
    mapFind n (op.apply m).m_nameToTrackListMap = some l := by
  cases op with
  | list o =>
    cases o with
    | createTrack p =>
      have hne : n ≠ INPUT_LIST_NAME := by simpa [ManagerOperation.writesList] using hop
      simp only [ManagerOperation.apply, ListOperation.apply, CreateTrack]
      cases Track.construct p with
      | error c => exact hn
      | ok t =>
        simp only []
        cases hl : mapFind INPUT_LIST_NAME m.m_nameToTrackListMap with
        | none => exact hn
        | some il =>
          simp only []
          split
          · exact hn
          · split <;> simp [mapFind_mapReplace, hne, hn]
    | saveList l' n' =>
      simp only [ManagerOperation.apply, ListOperation.apply, SaveList]
      cases hf : mapFind n' m.m_nameToTrackListMap with
      | some _ => exact hn
      | none =>
        have hne : n ≠ n' := by
          intro h; rw [h, hf] at hn; cases hn
        simp only [mapInsert, hf, Bool.not_true, Bool.false_eq_true, if_false]
        rw [mapFind_mapAssign]
        simp only [hne, if_false]
        rw [mapFind_orderedPut_ne _ _ _ _ _ hne]
        exact hn
    | registerAlgorithm a =>
      simp only [ManagerOperation.apply, ListOperation.apply, RegisterAlgorithm]
      cases hf : mapFind a m.m_algorithmInfoMap with
      | some _ => exact hn
      | none => simpa [mapInsert, hf] using hn
    | createTemporaryListAndSetCurrent a l' =>
      simp only [ManagerOperation.apply, ListOperation.apply, CreateTemporaryListAndSetCurrent]
      split
      · exact hn
      · cases hf : mapFind a m.m_algorithmInfoMap with
        | none => exact hn
        | some info =>
          have hne : n ≠ temporaryName a info.m_numberOfListsCreated := by
            simpa [ManagerOperation.writesList, hf] using hop
          simp only []
          split
          · exact hn
          · simp [mapFind_mapAssign, hne, hn]
    | replaceCurrentAndAlgorithmInputLists a n' =>
      simp only [ManagerOperation.apply, ListOperation.apply,
        ReplaceCurrentAndAlgorithmInputLists]
      cases hf : mapFind n' m.m_nameToTrackListMap with
      | none => exact hn
      | some l0 =>
        simp only []
        split
        · exact hn
        · cases hg : mapFind a m.m_algorithmInfoMap <;> exact hn
    | resetAlgorithmInfo a f =>
      simp only [ManagerOperation.apply, ListOperation.apply, ResetAlgorithmInfo]
      cases hf : mapFind a m.m_algorithmInfoMap with
      | none => exact hn
      | some info =>
        have hnot : n ∉ info.m_temporaryListNames := by
          simpa [ManagerOperation.writesList, hf] using hop
        have hkeep := eraseTemporaryLists_find_of_not_mem info.m_temporaryListNames
          m.m_nameToTrackListMap n hnot
        simp only []
        split
        · simpa [hkeep] using hn
        · cases f <;> simpa [hkeep] using hn
    | resetForNextEvent => simp [ManagerOperation.writesList] at hop
  | setTrackParentDaughterRelationship p d =>
    rw [(ManagerOperation.apply_registry_of_list_free m _ (by intro o h; cases h)).1]; exact hn
  | setTrackSiblingRelationship a b =>
    rw [(ManagerOperation.apply_registry_of_list_free m _ (by intro o h; cases h)).1]; exact hn
  | associateTracks =>
    rw [(ManagerOperation.apply_registry_of_list_free m _ (by intro o h; cases h)).1]; exact hn
  | removeAllClusterAssociations =>
    rw [(ManagerOperation.apply_registry_of_list_free m _ (by intro o h; cases h)).1]; exact hn
  | removeCurrentClusterAssociations d =>
    rw [(ManagerOperation.apply_registry_of_list_free m _ (by intro o h; cases h)).1]; exact hn
  | removeClusterAssociations l' =>
    rw [(ManagerOperation.apply_registry_of_list_free m _ (by intro o h; cases h)).1]; exact hn
  | setAssociatedCluster p c =>
    rw [(ManagerOperation.apply_registry_of_list_free m _ (by intro o h; cases h)).1]; exact hn

theorem runManagerOperations_keeps_list (n : String) (l : TrackList)
    (ops : List ManagerOperation) :
    ∀ m : TrackManager, mapFind n m.m_nameToTrackListMap = some l →
      avoidsList n m ops = true →
      mapFind n (runManagerOperations m ops).m_nameToTrackListMap = some l := by
  induction ops with
  | nil => intro m hn _; exact hn
  | cons op ops ih =>
    intro m hn hav
    simp only [avoidsList, Bool.and_eq_true, Bool.not_eq_true'] at hav
    simp only [runManagerOperations, List.foldl_cons]
    exact ih (op.apply m) (ManagerOperation.apply_keeps_list m n l op hn hav.1) hav.2

/-- C12: for every state, every track list and every name that is not a key of the list
registry, `SaveList(trackList, name)` returns success; afterwards `GetList(name)` succeeds with
exactly `trackList`, the name is in the saved-name set, and the current list name and all lists
registered under other names are unchanged.  The stored list is a copy: after any sequence of
later operations none of which writes or erases the registry entry of the name (`CreateTrack`
for a name other than "input", `CreateTemporaryListAndSetCurrent` generating another name,
`ResetAlgorithmInfo` of an algorithm whose temporary names do not contain the name, and every
operation other than `ResetForNextEvent`, which erases all lists), `GetList(name)` still
succeeds with `trackList`. -/
theorem SaveList_GetList_round_trip (m : TrackManager) (trackList : TrackList) (name : String)
    (hfresh : mapFind name m.m_nameToTrackListMap = none) :
    (SaveList m trackList name).1 = STATUS_CODE_SUCCESS ∧
    GetList (SaveList m trackList name).2 name = (STATUS_CODE_SUCCESS, some trackList) ∧
    name ∈ (SaveList m trackList name).2.m_savedLists ∧
    (SaveList m trackList name).2.m_currentListName = m.m_currentListName ∧
    (∀ other, other ≠ name →
      mapFind other (SaveList m trackList name).2.m_nameToTrackListMap
        = mapFind other m.m_nameToTrackListMap) ∧
    (∀ ops, avoidsList name (SaveList m trackList name).2 ops = true →
      GetList (runManagerOperations (SaveList m trackList name).2 ops) name
        = (STATUS_CODE_SUCCESS, some trackList)) := by
  have hsave : SaveList m trackList name = (STATUS_CODE_SUCCESS, { m with
      m_nameToTrackListMap := mapAssign stringLess name trackList
        (orderedPut (fun a b => stringLess a.1 b.1) (name, []) m.m_nameToTrackListMap)
      m_savedLists := (setInsert stringLess name m.m_savedLists).1 }) := by
    simp [SaveList, hfresh, mapInsert]
  have hfind : mapFind name (SaveList m trackList name).2.m_nameToTrackListMap
      = some trackList := by
    rw [hsave]; simp [mapFind_mapAssign]
  refine ⟨by rw [hsave], ?_, ?_, by rw [hsave], ?_, ?_⟩
  · simp [GetList, hfind]
  · rw [hsave]
    exact (mem_setInsert _ _ _ _).mpr (Or.inl rfl)
  · intro other hne
    rw [hsave]
    simp only [mapFind_mapAssign, hne, if_false]
    exact mapFind_orderedPut_ne _ _ _ _ _ hne
  · intro ops hav
    simp [GetList, runManagerOperations_keeps_list name trackList ops _ hfind hav]

/-- C12 (instance): the list [0] is saved under "foo"; then a track is created, algorithm 7 is
registered, creates a temporary list and is reset as finished, and the links of the tracks are
resolved; `GetList("foo")` still returns [0]. -/
theorem SaveList_GetList_round_trip_witness :
    (SaveList oneTrackManager [0] "foo").1 = STATUS_CODE_SUCCESS ∧
    GetList (SaveList oneTrackManager [0] "foo").2 "foo" = (STATUS_CODE_SUCCESS, some [0]) ∧
    GetList (runManagerOperations (SaveList oneTrackManager [0] "foo").2
      [.list (.createTrack ⟨2, none⟩), .list (.registerAlgorithm 7),
        .list (.createTemporaryListAndSetCurrent 7 [1]), .list (.resetAlgorithmInfo 7 true),
        .associateTracks]) "foo" = (STATUS_CODE_SUCCESS, some [0]) :=
  have h := SaveList_GetList_round_trip oneTrackManager [0] "foo" (by decide)
  ⟨h.1, h.2.1, h.2.2.2.2.2 _ (by decide)⟩

/-! ## Names of temporary lists -/

theorem digitValue_digitChar : ∀ n, n < 16 → digitValue (Nat.digitChar n) = n := by
  decide

theorem decodeDigits_toDigitsCore (base : Nat) (h2 : 2 ≤ base) (h16 : base ≤ 16) :
    ∀ (fuel n : Nat) (ds : List Char), n < fuel →
      decodeDigits base 0 (Nat.toDigitsCore base fuel n ds) = decodeDigits base n ds := by
  intro fuel
  induction fuel with
  | zero => intro n ds h; exact absurd h (Nat.not_lt_zero _)
  | succ fuel ih =>
    intro n ds hn
    have hmod : n % base < 16 := Nat.lt_of_lt_of_le (Nat.mod_lt _ (by omega)) h16
    by_cases hq : n / base = 0
    · have hlt : n < base := (Nat.div_eq_zero_iff (by omega)).mp hq
      have hdv := digitValue_digitChar _ hmod
      rw [Nat.mod_eq_of_lt hlt] at hdv
      simp [Nat.toDigitsCore, hq, decodeDigits, hdv, Nat.mod_eq_of_lt hlt]
    · have hpos : 0 < n / base := Nat.pos_of_ne_zero hq
      have hlt : n / base < n := Nat.div_lt_self (by
        by_contra h0
        have : n = 0 := by omega
        simp [this] at hq) (by omega)
      simp only [Nat.toDigitsCore, hq, if_false]
      rw [ih (n / base) _ (by omega)]
      simp only [decodeDigits, digitValue_digitChar _ hmod]
      rw [Nat.div_add_mod' n base]

theorem decodeDigits_toDigits (base : Nat) (h2 : 2 ≤ base) (h16 : base ≤ 16) (n : Nat) :
    decodeDigits base 0 (Nat.toDigits base n) = n := by
  unfold Nat.toDigits
  rw [decodeDigits_toDigitsCore base h2 h16 _ _ _ (Nat.lt_succ_self n)]
  rfl

theorem toDigits_injective (base : Nat) (h2 : 2 ≤ base) (h16 : base ≤ 16) (a b : Nat)
    (h : Nat.toDigits base a = Nat.toDigits base b) : a = b := by
  have := congrArg (decodeDigits base 0) h
  rwa [decodeDigits_toDigits base h2 h16, decodeDigits_toDigits base h2 h16] at this

theorem temporaryName_data (a c : Nat) :
    (temporaryName a c).data
      = '0' :: 'x' :: (Nat.toDigits 16 a ++ '_' :: Nat.toDigits 10 c) := by
  simp [temporaryName, TypeToString_Algorithm, TypeToString_unsigned, Nat.repr,
    List.asString, String.data_append]

theorem temporaryName_counter_injective (a c c' : Nat)
    (h : temporaryName a c = temporaryName a c') : c = c' := by
  have hd := congrArg String.data h
  rw [temporaryName_data, temporaryName_data] at hd
  simp only [List.cons.injEq, true_and, List.append_cancel_left_eq] at hd
  exact toDigits_injective 10 (by decide) (by decide) c c' hd

theorem digitChar_ne_underscore_of_lt : ∀ k, k < 16 → Nat.digitChar k ≠ '_' := by
  decide

theorem digitChar_ne_underscore (k : Nat) : Nat.digitChar k ≠ '_' := by
  by_cases hk : k < 16
  · exact digitChar_ne_underscore_of_lt k hk
  · have h : ∀ j, j < 16 → k ≠ j := by intro j hj; omega
    have e : Nat.digitChar k = '*' := by
      simp [Nat.digitChar, h 0, h 1, h 2, h 3, h 4, h 5, h 6, h 7, h 8, h 9, h 10, h 11, h 12,
        h 13, h 14, h 15]
    rw [e]; decide

theorem mem_toDigitsCore (base : Nat) :
    ∀ (fuel n : Nat) (ds : List Char) (c : Char), c ∈ Nat.toDigitsCore base fuel n ds →
      c ∈ ds ∨ ∃ k, c = Nat.digitChar k := by
  intro fuel
  induction fuel with
  | zero => intro n ds c h; exact Or.inl (by simpa [Nat.toDigitsCore] using h)
  | succ fuel ih =>
    intro n ds c h
    by_cases hq : n / base = 0
    · simp only [Nat.toDigitsCore, hq, if_true, List.mem_cons] at h
      rcases h with h | h
      · exact Or.inr ⟨_, h⟩
      · exact Or.inl h
    · simp only [Nat.toDigitsCore, hq, if_false] at h
      rcases ih _ _ _ h with h' | h'
      · rcases List.mem_cons.mp h' with h'' | h''
        · exact Or.inr ⟨_, h''⟩
        · exact Or.inl h''
      · exact Or.inr h'

theorem underscore_not_mem_toDigits (base n : Nat) : '_' ∉ Nat.toDigits base n := by
  intro h
  rcases mem_toDigitsCore base _ _ _ _ h with h' | ⟨k, hk⟩
  · simp at h'
  · exact digitChar_ne_underscore k hk.symm

theorem append_cons_left_unique {α : Type} (x : α) :
    ∀ (l1 l2 r1 r2 : List α), x ∉ l1 → x ∉ l2 → l1 ++ x :: r1 = l2 ++ x :: r2 → l1 = l2 := by
  intro l1
  induction l1 with
  | nil =>
    intro l2 r1 r2 _ h2 h
    cases l2 with
    | nil => rfl
    | cons y ys =>
      simp only [List.nil_append, List.cons_append, List.cons.injEq] at h
      exact absurd (by simp [h.1]) h2
  | cons z zs ih =>
    intro l2 r1 r2 h1 h2 h
    cases l2 with
    | nil =>
      simp only [List.nil_append, List.cons_append, List.cons.injEq] at h
      exact absurd (by simp [h.1]) h1
    | cons y ys =>
      simp only [List.cons_append, List.cons.injEq] at h
      have := ih ys r1 r2 (fun hm => h1 (by simp [hm])) (fun hm => h2 (by simp [hm])) h.2
      rw [h.1, this]

theorem temporaryName_algorithm_injective (a b c c' : Nat)
    (h : temporaryName a c = temporaryName b c') : a = b := by
  have hd := congrArg String.data h
  rw [temporaryName_data, temporaryName_data] at hd
  simp only [List.cons.injEq, true_and] at hd
  exact toDigits_injective 16 (by decide) (by decide) a b
    (append_cons_left_unique '_' _ _ _ _ (underscore_not_mem_toDigits 16 a)
      (underscore_not_mem_toDigits 16 b) hd)

theorem mem_of_mapFind {κ ν : Type} [DecidableEq κ] (k : κ) (v : ν) (m : List (κ × ν))
    (h : mapFind k m = some v) : (k, v) ∈ m := by
  induction m with
  | nil => simp [mapFind] at h
  | cons e rest ih =>
    obtain ⟨k0, v0⟩ := e
    by_cases h0 : k0 = k
    · simp only [mapFind, h0, if_true, Option.some.injEq] at h
      simp [h0, h]
    · simp only [mapFind, h0, if_false] at h
      exact List.mem_cons_of_mem _ (ih h)

/-- The effect of one operation on the record of a registered algorithm, as long as the
operation is not the finishing reset of this algorithm: the algorithm stays registered, its
counter is unchanged or advanced by one, and when the operation hands back a name to this
algorithm, the name is the one generated from the counter before the call, which is advanced. -/
theorem ManagerOperation.apply_algorithmInfo (m : TrackManager) (a : Algorithm)
    (info : AlgorithmInfo) (op : ManagerOperation)
    (hinfo : mapFind a m.m_algorithmInfoMap = some info)
    (hop : op ≠ .list (.resetAlgorithmInfo a true)) :
    ∃ info', mapFind a (op.apply m).m_algorithmInfoMap = some info' ∧
      ((temporaryNameReturned a m op = [] ∧
          (info'.m_numberOfListsCreated = info.m_numberOfListsCreated ∨
            info'.m_numberOfListsCreated = (info.m_numberOfListsCreated + 1) % UINT_MODULUS)) ∨
        (temporaryNameReturned a m op = [temporaryName a info.m_numberOfListsCreated] ∧
          info'.m_numberOfListsCreated = (info.m_numberOfListsCreated + 1) % UINT_MODULUS)) := by
  cases op with
  | list o =>
    cases o with
    | createTrack p =>
      refine ⟨info, ?_, Or.inl ⟨rfl, Or.inl rfl⟩⟩
      simp only [ManagerOperation.apply, ListOperation.apply, CreateTrack]
      cases Track.construct p with
      | error c => exact hinfo
      | ok t =>
        simp only []
        cases hl : mapFind INPUT_LIST_NAME m.m_nameToTrackListMap with
        | none => exact hinfo
        | some il =>
          simp only []
          split
          · exact hinfo
          · split <;> exact hinfo
    | saveList l' n' =>
      refine ⟨info, ?_, Or.inl ⟨rfl, Or.inl rfl⟩⟩
      simp only [ManagerOperation.apply, ListOperation.apply, SaveList]
      cases hf : mapFind n' m.m_nameToTrackListMap with
      | some _ => exact hinfo
      | none => simpa [mapInsert, hf] using hinfo
    | registerAlgorithm b =>
      refine ⟨info, ?_, Or.inl ⟨rfl, Or.inl rfl⟩⟩
      simp only [ManagerOperation.apply, ListOperation.apply, RegisterAlgorithm]
      cases hf : mapFind b m.m_algorithmInfoMap with
      | some _ => exact hinfo
      | none =>
        have hne : a ≠ b := by intro h; rw [h, hf] at hinfo; cases hinfo
        simp only [mapInsert, hf, Bool.not_true, Bool.false_eq_true, if_false]
        rw [mapFind_orderedPut_ne _ _ _ _ _ hne]
        exact hinfo
    | createTemporaryListAndSetCurrent b l' =>
      by_cases hb : b = a
      · subst hb
        by_cases hl : l' = []
        · refine ⟨info, ?_, Or.inl ⟨?_, Or.inl rfl⟩⟩
          · simpa [ManagerOperation.apply, ListOperation.apply,
              CreateTemporaryListAndSetCurrent, hl] using hinfo
          · simp [temporaryNameReturned, CreateTemporaryListAndSetCurrent, hl]
        · by_cases hmem : temporaryName b info.m_numberOfListsCreated
              ∈ info.m_temporaryListNames
          · refine ⟨{ m_parentListName := info.m_parentListName
                      m_temporaryListNames := info.m_temporaryListNames
                      m_numberOfListsCreated :=
                        (info.m_numberOfListsCreated + 1) % UINT_MODULUS },
              ?_, Or.inl ⟨?_, Or.inr rfl⟩⟩
            · simp [ManagerOperation.apply, ListOperation.apply,
                CreateTemporaryListAndSetCurrent, hl, hinfo, setInsert, hmem,
                mapFind_mapReplace]
            · simp [temporaryNameReturned, CreateTemporaryListAndSetCurrent, hl, hinfo,
                setInsert, hmem]
          · refine ⟨{ m_parentListName := info.m_parentListName
                      m_temporaryListNames :=
                        orderedPut stringLess (temporaryName b info.m_numberOfListsCreated)
                          info.m_temporaryListNames
                      m_numberOfListsCreated :=
                        (info.m_numberOfListsCreated + 1) % UINT_MODULUS },
              ?_, Or.inr ⟨?_, rfl⟩⟩
            · simp [ManagerOperation.apply, ListOperation.apply,
                CreateTemporaryListAndSetCurrent, hl, hinfo, setInsert, hmem,
                mapFind_mapReplace]
            · simp [temporaryNameReturned, CreateTemporaryListAndSetCurrent, hl, hinfo,
                setInsert, hmem]
      · have hne : a ≠ b := fun h => hb h.symm
        refine ⟨info, ?_, Or.inl ⟨by simp [temporaryNameReturned, hb], Or.inl rfl⟩⟩
        simp only [ManagerOperation.apply, ListOperation.apply,
          CreateTemporaryListAndSetCurrent]
        split
        · exact hinfo
        · cases hf : mapFind b m.m_algorithmInfoMap with
          | none => exact hinfo
          | some infob =>
            simp only []
            split <;> simp [mapFind_mapReplace, hne, hinfo]
    | replaceCurrentAndAlgorithmInputLists b n' =>
      simp only [ManagerOperation.apply, ListOperation.apply,
        ReplaceCurrentAndAlgorithmInputLists]
      cases hf : mapFind n' m.m_nameToTrackListMap with
      | none => exact ⟨info, hinfo, Or.inl ⟨rfl, Or.inl rfl⟩⟩
      | some l0 =>
        simp only []
        split
        · exact ⟨info, hinfo, Or.inl ⟨rfl, Or.inl rfl⟩⟩
        · cases hg : mapFind b m.m_algorithmInfoMap with
          | none => exact ⟨info, hinfo, Or.inl ⟨rfl, Or.inl rfl⟩⟩
          | some infob =>
            simp only []
            by_cases hb : a = b
            · subst hb
              rw [hinfo] at hg
              cases hg
              exact ⟨{ info with m_parentListName := n' },
                by simp [mapFind_mapReplace, hinfo], Or.inl ⟨rfl, Or.inl rfl⟩⟩
            · exact ⟨info, by simp [mapFind_mapReplace, hb, hinfo], Or.inl ⟨rfl, Or.inl rfl⟩⟩
    | resetAlgorithmInfo b f =>
      simp only [ManagerOperation.apply, ListOperation.apply, ResetAlgorithmInfo]
      cases hg : mapFind b m.m_algorithmInfoMap with
      | none => exact ⟨info, hinfo, Or.inl ⟨rfl, Or.inl rfl⟩⟩
      | some infob =>
        simp only []
        split
        · exact ⟨info, hinfo, Or.inl ⟨rfl, Or.inl rfl⟩⟩
        · by_cases hb : a = b
          · subst hb
            rw [hinfo] at hg
            cases hg
            cases f with
            | true => exact absurd rfl hop
            | false =>
              exact ⟨{ info with m_temporaryListNames := [] },
                by simp [mapFind_mapReplace, hinfo], Or.inl ⟨rfl, Or.inl rfl⟩⟩
          · cases f with
            | true =>
              exact ⟨info, by simp [mapFind_mapErase, mapFind_mapReplace, hb, hinfo],
                Or.inl ⟨rfl, Or.inl rfl⟩⟩
            | false =>
              exact ⟨info, by simp [mapFind_mapReplace, hb, hinfo], Or.inl ⟨rfl, Or.inl rfl⟩⟩
    | resetForNextEvent =>
      refine ⟨info, ?_, Or.inl ⟨rfl, Or.inl rfl⟩⟩
      simp only [ManagerOperation.apply, ListOperation.apply]
      rw [ResetForNextEvent_eq]
      exact hinfo
  | setTrackParentDaughterRelationship p d =>
    exact ⟨info, by
      rw [(ManagerOperation.apply_registry_of_list_free m _ (by intro o h; cases h)).2.1]
      exact hinfo, Or.inl ⟨rfl, Or.inl rfl⟩⟩
  | setTrackSiblingRelationship x y =>
    exact ⟨info, by
      rw [(ManagerOperation.apply_registry_of_list_free m _ (by intro o h; cases h)).2.1]
      exact hinfo, Or.inl ⟨rfl, Or.inl rfl⟩⟩
  | associateTracks =>
    exact ⟨info, by
      rw [(ManagerOperation.apply_registry_of_list_free m _ (by intro o h; cases h)).2.1]
      exact hinfo, Or.inl ⟨rfl, Or.inl rfl⟩⟩
  | removeAllClusterAssociations =>
    exact ⟨info, by
      rw [(ManagerOperation.apply_registry_of_list_free m _ (by intro o h; cases h)).2.1]
      exact hinfo, Or.inl ⟨rfl, Or.inl rfl⟩⟩
  | removeCurrentClusterAssociations d =>
    exact ⟨info, by
      rw [(ManagerOperation.apply_registry_of_list_free m _ (by intro o h; cases h)).2.1]
      exact hinfo, Or.inl ⟨rfl, Or.inl rfl⟩⟩
  | removeClusterAssociations l' =>
    exact ⟨info, by
      rw [(ManagerOperation.apply_registry_of_list_free m _ (by intro o h; cases h)).2.1]
      exact hinfo, Or.inl ⟨rfl, Or.inl rfl⟩⟩
  | setAssociatedCluster p c =>
    exact ⟨info, by
      rw [(ManagerOperation.apply_registry_of_list_free m _ (by intro o h; cases h)).2.1]
      exact hinfo, Or.inl ⟨rfl, Or.inl rfl⟩⟩

theorem temporaryNamesReturned_counters (a : Algorithm) (ops : List ManagerOperation) :
    ∀ (m : TrackManager) (info : AlgorithmInfo),
      mapFind a m.m_algorithmInfoMap = some info →
      (∀ op ∈ ops, op ≠ .list (.resetAlgorithmInfo a true)) →
      info.m_numberOfListsCreated + ops.length < UINT_MODULUS →
      ∃ cs : List Nat, temporaryNamesReturned a m ops = cs.map (temporaryName a) ∧
        cs.Pairwise (fun c c' => c < c') ∧ ∀ c ∈ cs, info.m_numberOfListsCreated ≤ c := by
  induction ops with
  | nil =>
    intro m info _ _ _
    exact ⟨[], rfl, List.Pairwise.nil, by simp⟩
  | cons op ops ih =>
    intro m info hinfo hops hbound
    simp only [List.length_cons] at hbound
    have hmod : (info.m_numberOfListsCreated + 1) % UINT_MODULUS
        = info.m_numberOfListsCreated + 1 := Nat.mod_eq_of_lt (by omega)
    obtain ⟨info', hinfo', hcases⟩ :=
      ManagerOperation.apply_algorithmInfo m a info op hinfo (hops op (by simp))
    rw [hmod] at hcases
    have hrest : ∀ o ∈ ops, o ≠ .list (.resetAlgorithmInfo a true) :=
      fun o ho => hops o (List.mem_cons_of_mem _ ho)
    rcases hcases with ⟨hnone, hc⟩ | ⟨hone, hc⟩
    · obtain ⟨cs, h1, h2, h3⟩ := ih (op.apply m) info' hinfo' hrest (by
        rcases hc with hc | hc <;> rw [hc] <;> omega)
      refine ⟨cs, ?_, h2, ?_⟩
      · simp only [temporaryNamesReturned, hnone, List.nil_append]
        exact h1
      · intro c hcmem
        have := h3 c hcmem
        rcases hc with hc | hc <;> rw [hc] at this <;> omega
    · obtain ⟨cs, h1, h2, h3⟩ := ih (op.apply m) info' hinfo' hrest (by rw [hc]; omega)
      refine ⟨info.m_numberOfListsCreated :: cs, ?_, ?_, ?_⟩
      · simp only [temporaryNamesReturned, hone, List.map_cons, List.singleton_append, h1]
      · refine List.Pairwise.cons ?_ h2
        intro c hcmem
        have := h3 c hcmem
        rw [hc] at this
        omega
      · intro c hcmem
        rcases List.mem_cons.mp hcmem with h | h
        · rw [h]
        · have := h3 c h
          rw [hc] at this
          omega

/-- C11: for every state in which the algorithm is not registered, every sequence of operations
that follows its successful `RegisterAlgorithm` without the finishing `ResetAlgorithmInfo(A,
true)`, soft resets of A and operations of other algorithms included, and that is too short for
the 32-bit counter to wrap, hands back pairwise different names from the successful
`CreateTemporaryListAndSetCurrent(A, _)` calls: the names are generated from strictly increasing
values of the counter of A. -/
theorem temporaryNamesReturned_nodup (m : TrackManager) (pAlgorithm : Algorithm)
    (ops : List ManagerOperation)
    (hunregistered : mapFind pAlgorithm m.m_algorithmInfoMap = none)
    (hbetween : ∀ op ∈ ops, op ≠ .list (.resetAlgorithmInfo pAlgorithm true))
    (hcounter : ops.length < UINT_MODULUS) :
    (RegisterAlgorithm m pAlgorithm).1 = STATUS_CODE_SUCCESS ∧
    (temporaryNamesReturned pAlgorithm (RegisterAlgorithm m pAlgorithm).2 ops).Nodup ∧
    ∃ cs : List Nat,
      temporaryNamesReturned pAlgorithm (RegisterAlgorithm m pAlgorithm).2 ops
        = cs.map (temporaryName pAlgorithm) ∧
      cs.Pairwise (fun c c' => c < c') := by
  have hreg := RegisterAlgorithm_of_unregistered m pAlgorithm hunregistered
  have hfind : mapFind pAlgorithm (RegisterAlgorithm m pAlgorithm).2.m_algorithmInfoMap
      = some { m_parentListName := m.m_currentListName
               m_temporaryListNames := []
               m_numberOfListsCreated := 0 } := by
    rw [hreg]
    exact mapFind_orderedPut_self _ _ _ _ hunregistered
  obtain ⟨cs, h1, h2, _⟩ := temporaryNamesReturned_counters pAlgorithm ops
    (RegisterAlgorithm m pAlgorithm).2 _ hfind hbetween (by simpa using hcounter)
  refine ⟨by rw [hreg], ?_, cs, h1, h2⟩
  rw [h1]
  have hnd : cs.Nodup := h2.imp (fun h => Nat.ne_of_lt h)
  exact hnd.map (fun c c' h => temporaryName_counter_injective pAlgorithm c c' h)

/-- C11 (instance): algorithm 7 creates a temporary list, is reset softly, creates two more
lists while algorithm 8 creates one of its own; the names handed back to algorithm 7 are
"0x7_0", "0x7_1" and "0x7_2". -/
theorem temporaryNamesReturned_nodup_witness :
    temporaryNamesReturned 7 (RegisterAlgorithm oneTrackManager 7).2
      [.list (.createTemporaryListAndSetCurrent 7 [0]), .list (.resetAlgorithmInfo 7 false),
        .list (.createTemporaryListAndSetCurrent 7 [0]), .list (.registerAlgorithm 8),
        .list (.createTemporaryListAndSetCurrent 8 [0]),
        .list (.createTemporaryListAndSetCurrent 7 [0])] = ["0x7_0", "0x7_1", "0x7_2"] ∧
    (temporaryNamesReturned 7 (RegisterAlgorithm oneTrackManager 7).2
      [.list (.createTemporaryListAndSetCurrent 7 [0]), .list (.resetAlgorithmInfo 7 false),
        .list (.createTemporaryListAndSetCurrent 7 [0]), .list (.registerAlgorithm 8),
        .list (.createTemporaryListAndSetCurrent 8 [0]),
        .list (.createTemporaryListAndSetCurrent 7 [0])]).Nodup :=
  ⟨by decide,
    (temporaryNamesReturned_nodup oneTrackManager 7
      [.list (.createTemporaryListAndSetCurrent 7 [0]), .list (.resetAlgorithmInfo 7 false),
        .list (.createTemporaryListAndSetCurrent 7 [0]), .list (.registerAlgorithm 8),
        .list (.createTemporaryListAndSetCurrent 8 [0]),
        .list (.createTemporaryListAndSetCurrent 7 [0])]
      (by decide) (by decide) (by decide)).2.1⟩

/-! ## The failure branch of `ResetAlgorithmInfo` -/

theorem temporaryListsResolve_of_frame (m m' : TrackManager)
    (hreg : ∀ k, mapFind k m.m_nameToTrackListMap ≠ none →
      mapFind k m'.m_nameToTrackListMap ≠ none)
    (halg : ∀ a info', mapFind a m'.m_algorithmInfoMap = some info' →
      info'.m_temporaryListNames = [] ∨
      ∃ info, mapFind a m.m_algorithmInfoMap = some info ∧
        info'.m_temporaryListNames = info.m_temporaryListNames)
    (hinv : temporaryListsResolve m) : temporaryListsResolve m' := by
  intro a info' hinfo'
  rcases halg a info' hinfo' with h | ⟨info, hinfo, hnames⟩
  · rw [h]; exact ⟨List.nodup_nil, by simp⟩
  · rw [hnames]
    obtain ⟨hnd, hall⟩ := hinv a info hinfo
    exact ⟨hnd, fun n hn => ⟨(hall n hn).1, hreg n (hall n hn).2⟩⟩

theorem CreateTrack_frame (m : TrackManager) (p : TrackParameters) :
    (CreateTrack m p).2.m_algorithmInfoMap = m.m_algorithmInfoMap ∧
    ∀ k, mapFind k m.m_nameToTrackListMap ≠ none →
      mapFind k (CreateTrack m p).2.m_nameToTrackListMap ≠ none := by
  unfold CreateTrack
  cases Track.construct p with
  | error c => exact ⟨rfl, fun k h => h⟩
  | ok t =>
    simp only []
    cases hl : mapFind INPUT_LIST_NAME m.m_nameToTrackListMap with
    | none => exact ⟨rfl, fun k h => h⟩
    | some il =>
      simp only []
      have hkeep : ∀ (v : TrackList) (k : String), mapFind k m.m_nameToTrackListMap ≠ none →
          mapFind k (mapReplace INPUT_LIST_NAME v m.m_nameToTrackListMap) ≠ none := by
        intro v k h
        have := isSome_mapFind_mapReplace INPUT_LIST_NAME k v m.m_nameToTrackListMap
        rw [← Option.isSome_iff_ne_none] at h ⊢
        rw [this]; exact h
      split
      · exact ⟨rfl, fun k h => h⟩
      · split
        · exact ⟨rfl, hkeep _⟩
        · exact ⟨rfl, hkeep _⟩

theorem SaveList_frame (m : TrackManager) (l : TrackList) (n : String) :
    (SaveList m l n).2.m_algorithmInfoMap = m.m_algorithmInfoMap ∧
    ∀ k, mapFind k m.m_nameToTrackListMap ≠ none →
      mapFind k (SaveList m l n).2.m_nameToTrackListMap ≠ none := by
  unfold SaveList
  cases hf : mapFind n m.m_nameToTrackListMap with
  | some _ => exact ⟨rfl, fun k h => h⟩
  | none =>
    simp only [mapInsert, hf, Bool.not_true, Bool.false_eq_true, if_false]
    refine ⟨trivial, fun k h => ?_⟩
    have hne : k ≠ n := by intro e; rw [e] at h; exact h hf
    rw [mapFind_mapAssign]
    simp only [hne, if_false]
    rw [mapFind_orderedPut_ne _ _ _ _ _ hne]
    exact h

theorem noTemporaryLists_spec (m : TrackManager) (h : noTemporaryLists m = true)
    (a : Algorithm) (info : AlgorithmInfo)
    (hinfo : mapFind a m.m_algorithmInfoMap = some info) : info.m_temporaryListNames = [] := by
  have hmem := mem_of_mapFind a info _ hinfo
  have := List.all_eq_true.mp h (a, info) hmem
  simpa [List.isEmpty_iff] using this

theorem ManagerOperation.apply_temporaryListsResolve (m : TrackManager)
    (op : ManagerOperation) (hinv : temporaryListsResolve m) (hguard : op.atEventBoundary m) :
    temporaryListsResolve (op.apply m) := by
  cases op with
  | list o =>
    cases o with
    | createTrack p =>
      refine temporaryListsResolve_of_frame m _ (CreateTrack_frame m p).2 ?_ hinv
      intro a info' h
      exact Or.inr ⟨info', by
        simpa [ManagerOperation.apply, ListOperation.apply, (CreateTrack_frame m p).1] using h,
        rfl⟩
    | saveList l n =>
      refine temporaryListsResolve_of_frame m _ (SaveList_frame m l n).2 ?_ hinv
      intro a info' h
      exact Or.inr ⟨info', by
        simpa [ManagerOperation.apply, ListOperation.apply, (SaveList_frame m l n).1] using h,
        rfl⟩
    | registerAlgorithm b =>
      simp only [ManagerOperation.apply, ListOperation.apply, RegisterAlgorithm]
      cases hf : mapFind b m.m_algorithmInfoMap with
      | some _ => exact hinv
      | none =>
        simp only [mapInsert, hf, Bool.not_true, Bool.false_eq_true, if_false]
        refine temporaryListsResolve_of_frame m _ (fun k h => h) ?_ hinv
        intro a info' h
        by_cases hab : a = b
        · subst hab
          rw [mapFind_orderedPut_self _ _ _ _ hf] at h
          cases h
          exact Or.inl rfl
        · rw [mapFind_orderedPut_ne _ _ _ _ _ hab] at h
          exact Or.inr ⟨info', h, rfl⟩
    | createTemporaryListAndSetCurrent b l =>
      by_cases hl : l = []
      · simpa [ManagerOperation.apply, ListOperation.apply, CreateTemporaryListAndSetCurrent,
          hl] using hinv
      · cases hf : mapFind b m.m_algorithmInfoMap with
        | none =>
          simpa [ManagerOperation.apply, ListOperation.apply,
            CreateTemporaryListAndSetCurrent, hl, hf] using hinv
        | some infob =>
          by_cases hmem : temporaryName b infob.m_numberOfListsCreated
              ∈ infob.m_temporaryListNames
          · simp only [ManagerOperation.apply, ListOperation.apply,
              CreateTemporaryListAndSetCurrent, hl, hf, setInsert, hmem, List.isEmpty_iff,
              if_true, if_false, Bool.not_false]
            refine temporaryListsResolve_of_frame m _ (fun k h => h) ?_ hinv
            intro a info' h
            simp only [mapFind_mapReplace] at h
            by_cases hab : a = b
            · subst hab
              simp only [if_true, hf, Option.map_some', Option.some.injEq] at h
              exact Or.inr ⟨infob, hf, by rw [← h]⟩
            · simp only [hab, if_false] at h
              exact Or.inr ⟨info', h, rfl⟩
          · simp only [ManagerOperation.apply, ListOperation.apply,
              CreateTemporaryListAndSetCurrent, hl, hf, setInsert, hmem, List.isEmpty_iff,
              if_false, Bool.not_true, Bool.false_eq_true]
            intro a info' h
            simp only [mapFind_mapReplace] at h
            have hkeep : ∀ k, mapFind k m.m_nameToTrackListMap ≠ none →
                mapFind k (mapAssign stringLess (temporaryName b infob.m_numberOfListsCreated) l
                  m.m_nameToTrackListMap) ≠ none := by
              intro k hk
              rw [mapFind_mapAssign]
              by_cases e : k = temporaryName b infob.m_numberOfListsCreated
              · simp [e]
              · simpa [e] using hk
            by_cases hab : a = b
            · subst hab
              simp only [if_true, hf, Option.map_some', Option.some.injEq] at h
              obtain ⟨hnd, hall⟩ := hinv a infob hf
              rw [← h]
              refine ⟨nodup_orderedPut _ _ _ hmem hnd, ?_⟩
              intro n hn
              rcases (mem_orderedPut _ _ _ _).mp hn with e | e
              · refine ⟨⟨_, e⟩, ?_⟩
                simp [mapFind_mapAssign, e]
              · exact ⟨(hall n e).1, hkeep n (hall n e).2⟩
            · simp only [hab, if_false] at h
              obtain ⟨hnd, hall⟩ := hinv a info' h
              exact ⟨hnd, fun n hn => ⟨(hall n hn).1, hkeep n (hall n hn).2⟩⟩
    | replaceCurrentAndAlgorithmInputLists b n =>
      simp only [ManagerOperation.apply, ListOperation.apply,
        ReplaceCurrentAndAlgorithmInputLists]
      cases hf : mapFind n m.m_nameToTrackListMap with
      | none => exact hinv
      | some l0 =>
        simp only []
        split
        · exact hinv
        · cases hg : mapFind b m.m_algorithmInfoMap with
          | none =>
            simp only []
            exact temporaryListsResolve_of_frame m _ (fun k h => h)
              (fun a info' h => Or.inr ⟨info', h, rfl⟩) hinv
          | some infob =>
            simp only []
            refine temporaryListsResolve_of_frame m _ (fun k h => h) ?_ hinv
            intro a info' h
            simp only [mapFind_mapReplace] at h
            by_cases hab : a = b
            · subst hab
              simp only [if_true, hg, Option.map_some', Option.some.injEq] at h
              exact Or.inr ⟨infob, hg, by rw [← h]⟩
            · simp only [hab, if_false] at h
              exact Or.inr ⟨info', h, rfl⟩
    | resetAlgorithmInfo b f =>
      cases hg : mapFind b m.m_algorithmInfoMap with
      | none =>
        simpa [ManagerOperation.apply, ListOperation.apply, ResetAlgorithmInfo, hg] using hinv
      | some infob =>
        obtain ⟨hndb, hallb⟩ := hinv b infob hg
        have herase := eraseTemporaryLists_success _ m.m_nameToTrackListMap hndb
          (fun n hn => (hallb n hn).2)
        simp only [ManagerOperation.apply, ListOperation.apply]
        rw [ResetAlgorithmInfo_of_resolving m b f infob hg herase]
        intro a info' h
        simp only [] at h ⊢
        by_cases hab : a = b
        · subst hab
          cases f with
          | true => simp [mapFind_mapErase] at h
          | false =>
            simp only [Bool.false_eq_true, if_false, mapFind_mapReplace, if_true, hg,
              Option.map_some', Option.some.injEq] at h
            rw [← h]
            exact ⟨List.nodup_nil, by simp⟩
        · have h' : mapFind a m.m_algorithmInfoMap = some info' := by
            cases f with
            | true => simpa [mapFind_mapErase, mapFind_mapReplace, hab] using h
            | false => simpa [mapFind_mapReplace, hab] using h
          obtain ⟨hnd, hall⟩ := hinv a info' h'
          refine ⟨hnd, fun n hn => ⟨(hall n hn).1, ?_⟩⟩
          rw [eraseTemporaryLists_find _ _ herase n]
          have hnot : n ∉ infob.m_temporaryListNames := by
            intro hmemb
            obtain ⟨c, hc⟩ := (hall n hn).1
            obtain ⟨c', hc'⟩ := (hallb n hmemb).1
            exact hab (temporaryName_algorithm_injective a b c c' (hc.symm.trans hc'))
          simpa [hnot] using (hall n hn).2
    | resetForNextEvent =>
      have hempty := noTemporaryLists_spec m hguard
      simp only [ManagerOperation.apply, ListOperation.apply]
      rw [ResetForNextEvent_eq]
      intro a info' h
      rw [hempty a info' h]
      exact ⟨List.nodup_nil, by simp⟩
  | setTrackParentDaughterRelationship p d =>
    have hf := ManagerOperation.apply_registry_of_list_free m
      (.setTrackParentDaughterRelationship p d) (by intro o h; cases h)
    exact temporaryListsResolve_of_frame m _ (fun k h => by rw [hf.1]; exact h)
      (fun a info' h => Or.inr ⟨info', by rw [hf.2.1] at h; exact h, rfl⟩) hinv
  | setTrackSiblingRelationship x y =>
    have hf := ManagerOperation.apply_registry_of_list_free m
      (.setTrackSiblingRelationship x y) (by intro o h; cases h)
    exact temporaryListsResolve_of_frame m _ (fun k h => by rw [hf.1]; exact h)
      (fun a info' h => Or.inr ⟨info', by rw [hf.2.1] at h; exact h, rfl⟩) hinv
  | associateTracks =>
    have hf := ManagerOperation.apply_registry_of_list_free m
      .associateTracks (by intro o h; cases h)
    exact temporaryListsResolve_of_frame m _ (fun k h => by rw [hf.1]; exact h)
      (fun a info' h => Or.inr ⟨info', by rw [hf.2.1] at h; exact h, rfl⟩) hinv
  | removeAllClusterAssociations =>
    have hf := ManagerOperation.apply_registry_of_list_free m
      .removeAllClusterAssociations (by intro o h; cases h)
    exact temporaryListsResolve_of_frame m _ (fun k h => by rw [hf.1]; exact h)
      (fun a info' h => Or.inr ⟨info', by rw [hf.2.1] at h; exact h, rfl⟩) hinv
  | removeCurrentClusterAssociations d =>
    have hf := ManagerOperation.apply_registry_of_list_free m
      (.removeCurrentClusterAssociations d) (by intro o h; cases h)
    exact temporaryListsResolve_of_frame m _ (fun k h => by rw [hf.1]; exact h)
      (fun a info' h => Or.inr ⟨info', by rw [hf.2.1] at h; exact h, rfl⟩) hinv
  | removeClusterAssociations l =>
    have hf := ManagerOperation.apply_registry_of_list_free m
      (.removeClusterAssociations l) (by intro o h; cases h)
    exact temporaryListsResolve_of_frame m _ (fun k h => by rw [hf.1]; exact h)
      (fun a info' h => Or.inr ⟨info', by rw [hf.2.1] at h; exact h, rfl⟩) hinv
  | setAssociatedCluster p c =>
    have hf := ManagerOperation.apply_registry_of_list_free m
      (.setAssociatedCluster p c) (by intro o h; cases h)
    exact temporaryListsResolve_of_frame m _ (fun k h => by rw [hf.1]; exact h)
      (fun a info' h => Or.inr ⟨info', by rw [hf.2.1] at h; exact h, rfl⟩) hinv

theorem temporaryListsResolve_of_eventReachable (m : TrackManager) (h : EventReachable m) :
    temporaryListsResolve m := by
  induction h with
  | construct => intro a info hinfo; simp [freshManager, mapFind] at hinfo
  | step m op _ hguard ih => exact ManagerOperation.apply_temporaryListsResolve m op ih hguard

/-- C20 (counterexample): on a fresh manager a track is created, algorithm 7 is registered and
creates the temporary list "0x7_0", then `ResetForNextEvent` is called.  In the state reached
algorithm 7 is still registered and holds the name "0x7_0", which is no key of the registry, and
`ResetAlgorithmInfo(7, flag)` returns `STATUS_CODE_FAILURE` for both values of the flag. -/
theorem ResetAlgorithmInfo_failure_counterexample :
    mapFind 7 (runManagerOperations freshManager
      [.list (.createTrack ⟨1, none⟩), .list (.registerAlgorithm 7),
        .list (.createTemporaryListAndSetCurrent 7 [0]),
        .list .resetForNextEvent]).m_algorithmInfoMap
      = some { m_parentListName := "input", m_temporaryListNames := ["0x7_0"],
               m_numberOfListsCreated := 1 } ∧
    mapFind "0x7_0" (runManagerOperations freshManager
      [.list (.createTrack ⟨1, none⟩), .list (.registerAlgorithm 7),
        .list (.createTemporaryListAndSetCurrent 7 [0]),
        .list .resetForNextEvent]).m_nameToTrackListMap = none ∧
    (ResetAlgorithmInfo (runManagerOperations freshManager
      [.list (.createTrack ⟨1, none⟩), .list (.registerAlgorithm 7),
        .list (.createTemporaryListAndSetCurrent 7 [0]),
        .list .resetForNextEvent]) 7 true).1 = STATUS_CODE_FAILURE ∧
    (ResetAlgorithmInfo (runManagerOperations freshManager
      [.list (.createTrack ⟨1, none⟩), .list (.registerAlgorithm 7),
        .list (.createTemporaryListAndSetCurrent 7 [0]),
        .list .resetForNextEvent]) 7 false).1 = STATUS_CODE_FAILURE := by
  decide

/-- C20 (amended): in every state reached from construction by a sequence of operations of the
manager in which `ResetForNextEvent` is called only when no registered algorithm holds a
temporary list name, every name in the temporary-name set of every registered algorithm is a key
of the list registry, and `ResetAlgorithmInfo(A, flag)` on a registered algorithm A returns
success, never `STATUS_CODE_FAILURE`, for both values of the flag. -/
theorem ResetAlgorithmInfo_succeeds_of_eventReachable (m : TrackManager)
    (hreach : EventReachable m) (pAlgorithm : Algorithm) (info : AlgorithmInfo)
    (hregistered : mapFind pAlgorithm m.m_algorithmInfoMap = some info) :
    (∀ n ∈ info.m_temporaryListNames, mapFind n m.m_nameToTrackListMap ≠ none) ∧
    ∀ flag, (ResetAlgorithmInfo m pAlgorithm flag).1 = STATUS_CODE_SUCCESS := by
  obtain ⟨hnd, hall⟩ := temporaryListsResolve_of_eventReachable m hreach pAlgorithm info
    hregistered
  refine ⟨fun n hn => (hall n hn).2, fun flag => ?_⟩
  have herase := eraseTemporaryLists_success _ m.m_nameToTrackListMap hnd
    (fun n hn => (hall n hn).2)
  rw [ResetAlgorithmInfo_of_resolving m pAlgorithm flag info hregistered herase]

/-- C20 (instance): after `ResetForNextEvent` on the fresh manager, a track is created and
algorithm 7 is registered and creates the temporary list "0x7_0"; the name resolves and
`ResetAlgorithmInfo(7, flag)` returns success for both values of the flag. -/
theorem ResetAlgorithmInfo_succeeds_of_eventReachable_witness :
    (∀ n ∈ ["0x7_0"], mapFind n
      (ManagerOperation.apply (ManagerOperation.apply (ManagerOperation.apply
        (ManagerOperation.apply freshManager (.list .resetForNextEvent))
        (.list (.createTrack ⟨1, none⟩)))
        (.list (.registerAlgorithm 7)))
        (.list (.createTemporaryListAndSetCurrent 7 [0]))).m_nameToTrackListMap ≠ none) ∧
    ∀ flag, (ResetAlgorithmInfo
      (ManagerOperation.apply (ManagerOperation.apply (ManagerOperation.apply
        (ManagerOperation.apply freshManager (.list .resetForNextEvent))
        (.list (.createTrack ⟨1, none⟩)))
        (.list (.registerAlgorithm 7)))
        (.list (.createTemporaryListAndSetCurrent 7 [0]))) 7 flag).1 = STATUS_CODE_SUCCESS :=
  ResetAlgorithmInfo_succeeds_of_eventReachable _
    (EventReachable.step _ (.list (.createTemporaryListAndSetCurrent 7 [0]))
      (EventReachable.step _ (.list (.registerAlgorithm 7))
        (EventReachable.step _ (.list (.createTrack ⟨1, none⟩))
          (EventReachable.step _ (.list .resetForNextEvent) EventReachable.construct
            (show noTemporaryLists freshManager = true by decide))
          trivial)
        trivial)
      trivial)
    7 { m_parentListName := "input", m_temporaryListNames := ["0x7_0"],
        m_numberOfListsCreated := 1 }
    (by decide)

end pandora
